import Mathlib

/-!
Shallow embedding of the `edgin_around_server` simulation core
(`src/src/*.py`) in Lean 4, together with proofs settling the claims about
its specification.

Conventions of the embedding:

* Python `float` quantities (positions, distances, durations, health,
  hunger) are embedded as `ℚ`; Python `int` quantities (ids, stack sizes,
  amounts, volumes) as `Int` or `Nat`.
* Mutation is embedded by explicit state passing: a Python method that
  mutates `self` becomes a Lean function returning the updated value.
* Exceptions are embedded with `Except PyErr`: a Python expression that
  raises (a failing `assert`, a lookup of a name that does not exist, a
  `del` of a missing key) becomes `.error e`.
* The geometry module (`edgin_around_api.geometry`) is an external
  collaborator; the great-circle metric is embedded as a distance-function
  field of the world state, quantified over in all theorems.
* `random`-based id generation (`State.generate_new_entity_id` draws until
  it finds an unused id) is embedded by a fresh-id cursor `next_id` on the
  state; theorems carry the invariant that all present ids lie below the
  cursor, which is exactly the contract (the returned id is unused).
* The inventory container and recipe classes live in the external
  `edgin_around_api` package, which is not part of this repository; they
  are modelled from the spec where marked.
-/

namespace Edgin

/-- Claim tags from features.py (`class Claim`). -/
inductive Claim where
  | pain
  | food
  | cargo
  | harvest
deriving DecidableEq, Repr

/-- Material-kind enum from `edgin_around_api.craft.Essence` as used by the
entity classes in entities.py. -/
inductive Essence where
  | rocks
  | gold
  | meat
  | logs
  | tool
  | vegy
  | plant
  | hero
  | sticks
  | void
deriving DecidableEq, Repr

/-- Hand names from `edgin_around_api.defs.Hand`. -/
inductive Hand where
  | left
  | right
deriving DecidableEq, Repr

/-- Damage variants from `edgin_around_api.defs.DamageVariant`. -/
inductive DamageVariant where
  | hit
  | chop
  | smash
  | attack
deriving DecidableEq, Repr

/-- Inventory-update variants from `edgin_around_api.defs.UpdateVariant`. -/
inductive UpdateVariant where
  | swap
  | merge
deriving DecidableEq, Repr

/-- Crafting materials from `edgin_around_api.craft.Material` as used in
settings.py. -/
inductive Material where
  | mineral
  | wood
  | leather
  | ornament
  | gadget
deriving DecidableEq, Repr

/-- Nutrients value from nutrients.py. -/
structure Nutrients where
  hunger : ℚ
deriving DecidableEq, Repr

/-- Embedding of `Nutrients.__mul__` (nutrients.py). -/
def Nutrients.mul (n : Nutrients) (number : Int) : Nutrients :=
  ⟨n.hunger * number⟩

/-- Stats record from `edgin_around_api.defs.Stats` as produced by
`EaterFeature.gather_stats`. -/
structure Stats where
  hunger : ℚ
  max_hunger : ℚ
deriving DecidableEq, Repr

/-- Point on the sphere (spherical coordinates), standing for
`edgin_around_api.geometry.Point`. The metric itself is kept abstract as a
field of the world state. -/
structure Point where
  phi : ℚ
  theta : ℚ
deriving DecidableEq, Repr

/-- Size table from settings.py (`class Sizes`). -/
def Sizes.tiny : Int := 1
def Sizes.small : Int := 5
def Sizes.medium : Int := 10
def Sizes.big : Int := 25
def Sizes.huge : Int := 100

/-- Modelled from the spec: inventory entry record
(`edgin_around_api.inventory.EntityInfo`, external to this repository).
Field names follow `Entity.as_info` (essentials.py), which constructs
them. -/
structure EntityInfo where
  id : Int
  essence : Essence
  quantity : Int
  item_volume : Int
  max_volume : Int
  codename : String
deriving DecidableEq, Repr

/-- Embedding of `EntityInfo.calc_max_quantity_for_item_volume`, the
capacity computation used by `State.merge_entities`; the repository's own
test (`test_merge_entities_not_fit`) pins it to integer division of the
entry's maximal volume by the item volume (25 / 5 = 5). -/
def EntityInfo.calc_max_quantity_for_item_volume (e : EntityInfo) (item_volume : Int) : Int :=
  e.max_volume / item_volume

/-- Embedding of `EntityInfo.set_quantity`. -/
def EntityInfo.set_quantity (e : EntityInfo) (amount : Int) : EntityInfo :=
  { e with quantity := amount }

/-- Modelled from the spec: the slotted inventory container
(`edgin_around_api.inventory.Inventory`, external to this repository):
"slotted container with two named hands (LEFT, RIGHT) and indexed
pockets". -/
structure Inventory where
  left_hand : Option EntityInfo
  right_hand : Option EntityInfo
  pockets : List (Option EntityInfo)
deriving DecidableEq, Repr

namespace Inventory

/-- Modelled from the spec: reads a hand slot (`Inventory.get_hand_entry`). -/
def get_hand_entry (inv : Inventory) (hand : Hand) : Option EntityInfo :=
  match hand with
  | .left => inv.left_hand
  | .right => inv.right_hand

/-- Modelled from the spec: writes a hand slot (`Inventory.store_entry`);
storing `none` clears the slot, as used by `EatJob.execute`. -/
def store_entry (inv : Inventory) (hand : Hand) (entry : Option EntityInfo) : Inventory :=
  match hand with
  | .left => { inv with left_hand := entry }
  | .right => { inv with right_hand := entry }

/-- Modelled from the spec: id held in a hand (`Inventory.get_hand`),
used by `Pirate.handle_event` for hand activations. -/
def get_hand (inv : Inventory) (hand : Hand) : Option Int :=
  (inv.get_hand_entry hand).map (·.id)

/-- Modelled from the spec: `Inventory.get_free_hand(prefered)` returns a
hand whose slot is empty, preferring the given one. -/
def get_free_hand (inv : Inventory) (prefered : Hand) : Option Hand :=
  if inv.get_hand_entry prefered = none then some prefered
  else
    match prefered with
    | .left => if inv.right_hand = none then some .right else none
    | .right => if inv.left_hand = none then some .left else none

/-- Modelled from the spec: reads a pocket slot (`Inventory.get_pocket_entry`). -/
def get_pocket_entry (inv : Inventory) (index : Nat) : Option EntityInfo :=
  (inv.pockets.getD index none)

/-- Modelled from the spec: `Inventory.find_entity_with_entity_id` scans
hands and pockets for an entry referencing the given entity id. -/
def find_entity_with_entity_id (inv : Inventory) (id : Int) : Option EntityInfo :=
  ((inv.left_hand :: inv.right_hand :: inv.pockets).filterMap (fun s => s)).find?
    (fun e => e.id = id)

/-- Helper clearing one slot when it references the given entity id. -/
def clearSlot (id : Int) (s : Option EntityInfo) : Option EntityInfo :=
  match s with
  | some e => if e.id = id then none else some e
  | none => none

/-- Modelled from the spec: `Inventory.remove_with_entity_id` clears every
slot referencing the given entity id. -/
def remove_with_entity_id (inv : Inventory) (id : Int) : Inventory :=
  { left_hand := clearSlot id inv.left_hand
    right_hand := clearSlot id inv.right_hand
    pockets := inv.pockets.map (clearSlot id) }

/-- Helper writing one pocket slot. -/
def setPocket (inv : Inventory) (index : Nat) (entry : Option EntityInfo) : Inventory :=
  { inv with pockets := inv.pockets.set index entry }

/-- Modelled from the spec: `Inventory.swap(hand, index)` exchanges a hand
slot with a pocket slot (no-op on an out-of-range pocket index). -/
def swap (inv : Inventory) (hand : Hand) (index : Nat) : Inventory :=
  if h : index < inv.pockets.length then
    let p := inv.pockets.get ⟨index, h⟩
    let e := inv.get_hand_entry hand
    (inv.store_entry hand p).setPocket index e
  else inv

end Inventory

/-! Feature classes from features.py. Each Python feature object becomes a
structure holding the fields its methods read and write; the callback
field `entity_constructor` of `HarvestableFeature` (a closure over the
owning entity) is embedded at its call sites, see `harvestYields` below. -/

/-- Eater feature from features.py (`class EaterFeature`). -/
structure EaterFeature where
  max_capacity : ℚ
  hunger_value : ℚ
deriving DecidableEq, Repr

namespace EaterFeature

/-- Embedding of `EaterFeature.deduce`. -/
def deduce (f : EaterFeature) (value : ℚ) : EaterFeature :=
  { f with hunger_value := max (f.hunger_value - value) 0 }

/-- Embedding of `EaterFeature.absorb`: adds the nutrients' hunger to
`hunger_value` (no clamping) and returns `True`. -/
def absorb (f : EaterFeature) (nutrients : Nutrients) : Bool × EaterFeature :=
  (true, { f with hunger_value := f.hunger_value + nutrients.hunger })

/-- Embedding of `EaterFeature.gather_stats`. -/
def gather_stats (f : EaterFeature) : Stats :=
  ⟨f.hunger_value, f.max_capacity⟩

end EaterFeature

/-- Edible feature from features.py. -/
structure EdibleFeature where
  nutrients : Nutrients
deriving DecidableEq, Repr

/-- Tool-or-weapon feature from features.py; the damage dictionary is
embedded as four fields. -/
structure ToolOrWeaponFeature where
  hit_damage : ℚ
  chop_damage : ℚ
  smash_damage : ℚ
  attack_damage : ℚ
deriving DecidableEq, Repr

/-- Embedding of `ToolOrWeaponFeature.get_damage`. -/
def ToolOrWeaponFeature.get_damage (f : ToolOrWeaponFeature) (variant : DamageVariant) : ℚ :=
  match variant with
  | .hit => f.hit_damage
  | .chop => f.chop_damage
  | .smash => f.smash_damage
  | .attack => f.attack_damage

/-- Damageable feature from features.py. -/
structure DamageableFeature where
  health : ℚ
  max_health : ℚ
  damage_variant : DamageVariant
deriving DecidableEq, Repr

/-- Embedding of `DamageableFeature.handle_damage`: clamps health at 0
from below and reports liveness (`health != 0`). -/
def DamageableFeature.handle_damage (f : DamageableFeature) (damage_amount : ℚ) :
    Bool × DamageableFeature :=
  let f := { f with health := max 0 (f.health - damage_amount) }
  (f.health ≠ 0, f)

/-- Harvestable feature from features.py (arithmetic fields only; the
`entity_constructor` closure is embedded at its call site). -/
structure HarvestableFeature where
  current_amount : Int
  min_amount : Int
  max_amount : Int
  grow_amount : Int
  pick_amount : Int
deriving DecidableEq, Repr

namespace HarvestableFeature

/-- Embedding of `HarvestableFeature.grow`: returns the (old, new) pair
and the updated feature; the new amount is clamped into
[min_amount, max_amount]. -/
def grow (f : HarvestableFeature) : (Int × Int) × HarvestableFeature :=
  let old_amount := f.current_amount
  let new_amount := f.current_amount + f.grow_amount
  let f := { f with current_amount := max f.min_amount (min new_amount f.max_amount) }
  ((old_amount, f.current_amount), f)

/-- Embedding of the amount arithmetic of `HarvestableFeature.harvest`:
returns the harvested amount `max 0 (min (current - min) pick)` and the
updated feature, whose stored amount becomes `max 0 (current - pick)`
(note: floored at 0, not at `min_amount`). The entities produced by the
`entity_constructor` callback are built at the call site
(`harvestYields`). -/
def harvest (f : HarvestableFeature) : Int × HarvestableFeature :=
  let new_amount := max 0 (f.current_amount - f.pick_amount)
  let harvested_amount := max 0 (min (f.current_amount - f.min_amount) f.pick_amount)
  (harvested_amount, { f with current_amount := new_amount })

end HarvestableFeature

/-- Stackable feature from features.py. -/
structure StackableFeature where
  stack_size : Int
deriving DecidableEq, Repr

namespace StackableFeature

/-- Embedding of `StackableFeature.get_size`. -/
def get_size (f : StackableFeature) : Int := f.stack_size

/-- Embedding of `StackableFeature.decrease`. -/
def decrease (f : StackableFeature) (amount : Int) : StackableFeature :=
  ⟨f.stack_size - amount⟩

/-- Embedding of `StackableFeature.set_size`. -/
def set_size (_f : StackableFeature) (amount : Int) : StackableFeature :=
  ⟨amount⟩

end StackableFeature

/-- Inventorable feature from features.py. -/
structure InventorableFeature where
  volume : Int
  stored_by : Option Int
deriving DecidableEq, Repr

/-- Stateful feature from features.py. -/
structure StatefulFeature where
  state_name : String
deriving DecidableEq, Repr

/-- Feature bundle from features.py (`class Features`). The Python
`_absorption_claims` set is embedded as a list; only membership is ever
queried. -/
structure Features where
  delivery_claims : List Claim
  absorption_claims : List Claim
  stateful : Option StatefulFeature
  performer : Bool
  stackable : Option StackableFeature
  tool_or_weapon : Option ToolOrWeaponFeature
  damageable : Option DamageableFeature
  edible : Option EdibleFeature
  eater : Option EaterFeature
  inventorable : Option InventorableFeature
  inventory : Option Inventory
  harvestable : Option HarvestableFeature
deriving DecidableEq, Repr

/-- Empty feature bundle, as produced by `Features.__init__`. -/
def Features.base : Features :=
  { delivery_claims := []
    absorption_claims := []
    stateful := none
    performer := false
    stackable := none
    tool_or_weapon := none
    damageable := none
    edible := none
    eater := none
    inventorable := none
    inventory := none
    harvestable := none }

/-- Python equality between a `Claim` enum member and a `List[Claim]`
value: always `False` (`Enum.__eq__` compares identity amd a list is never
a `Claim`). This embeds the membership test `claim in
self._delivery_claims` of `Features.deliver` (features.py line 245), whose
left operand is the whole iterable argument `claim`, not the loop
variable `c`. -/
def claimEqClaimList (_c : Claim) (_l : List Claim) : Bool := false

namespace Features

/-- Embedding of `Features.deliver` (features.py lines 243-247). The loop
body tests `claim in self._delivery_claims` where `claim` is the iterable
argument itself; Python membership compares each list element against the
iterable with `==`, embedded by `claimEqClaimList`. -/
def deliver (f : Features) (claim : List Claim) : Bool :=
  claim.any (fun _c => f.delivery_claims.any (fun d => claimEqClaimList d claim))

/-- Embedding of `Features.absorb` (features.py lines 249-253). -/
def absorb (f : Features) (claims : List Claim) : Bool :=
  claims.any (fun claim => f.absorption_claims.contains claim)

/-- Embedding of `Features.get_first_absorbed`. -/
def get_first_absorbed (f : Features) (claims : List Claim) : Option Claim :=
  claims.find? (fun claim => f.absorption_claims.contains claim)

/-- Embedding of `Features.get_quantity`. -/
def get_quantity (f : Features) : Int :=
  match f.stackable with
  | some s => s.get_size
  | none => 1

/-- Embedding of `Features.set_performer`. -/
def set_performer (f : Features) : Features :=
  { f with performer := true }

/-- Embedding of `Features.set_tool_or_weapon`: appends claim PAIN to the
delivery claims. -/
def set_tool_or_weapon (f : Features) (hit chop smash attack : ℚ) : Features :=
  { f with
    delivery_claims := f.delivery_claims ++ [Claim.pain]
    tool_or_weapon := some ⟨hit, chop, smash, attack⟩ }

/-- Embedding of `Features.set_damageable`: adds claim PAIN to the
absorption claims. -/
def set_damageable (f : Features) (start_health max_health : ℚ)
    (damage_variant : DamageVariant) : Features :=
  { f with
    absorption_claims := f.absorption_claims ++ [Claim.pain]
    damageable := some ⟨start_health, max_health, damage_variant⟩ }

/-- Embedding of `Features.set_edible`: appends claim FOOD to the delivery
claims. -/
def set_edible (f : Features) (nutrients : Nutrients) : Features :=
  { f with
    delivery_claims := f.delivery_claims ++ [Claim.food]
    edible := some ⟨nutrients⟩ }

/-- Embedding of `Features.set_eater`: adds claim FOOD to the absorption
claims. -/
def set_eater (f : Features) (max_capacity hunger_value : ℚ) : Features :=
  { f with
    absorption_claims := f.absorption_claims ++ [Claim.food]
    eater := some ⟨max_capacity, hunger_value⟩ }

/-- Embedding of `Features.set_inventorable`: appends claim CARGO to the
delivery claims. -/
def set_inventorable (f : Features) (volume : Int) : Features :=
  { f with
    delivery_claims := f.delivery_claims ++ [Claim.cargo]
    inventorable := some ⟨volume, none⟩ }

/-- Embedding of `Features.set_inventory`: adds claim CARGO to the
absorption claims. -/
def set_inventory (f : Features) (inv : Inventory) : Features :=
  { f with
    absorption_claims := f.absorption_claims ++ [Claim.cargo]
    inventory := some inv }

/-- Embedding of `Features.set_harvestable`: adds claim HARVEST to the
absorption claims. -/
def set_harvestable (f : Features) (start_amount min_amount max_amount grow_amount
    pick_amount : Int) : Features :=
  { f with
    absorption_claims := f.absorption_claims ++ [Claim.harvest]
    harvestable := some ⟨start_amount, min_amount, max_amount, grow_amount, pick_amount⟩ }

/-- Embedding of `Features.set_stackable`. -/
def set_stackable (f : Features) (amount : Int) : Features :=
  { f with stackable := some ⟨amount⟩ }

/-- Embedding of `Features.set_stateful`. -/
def set_stateful (f : Features) (state_name : String) : Features :=
  { f with stateful := some ⟨state_name⟩ }

end Features

/-! Crafting data from `edgin_around_api.craft` (external) and the recipe
table of settings.py. -/

/-- Modelled from the spec: one cited source of a crafting assembly
(`edgin_around_api.craft.Item`): a concrete crafting attempt cites an
actor id, its essence, and a quantity. Field names follow
`Entity.as_craft_item` (essentials.py). -/
structure Source where
  actor_id : Int
  essence : Essence
  quantity : Int
deriving DecidableEq, Repr

/-- Modelled from the spec: a crafting assembly
(`edgin_around_api.craft.Assembly`): "a concrete crafting attempt citing a
recipe codename and source items", one source list per ingredient slot. -/
structure Assembly where
  recipe_codename : String
  sources : List (List Source)
deriving DecidableEq, Repr

/-- Recipe ingredient from `edgin_around_api.craft.Ingredient` as
constructed in settings.py. -/
structure Ingredient where
  material : Material
  quantity : Int
deriving DecidableEq, Repr

/-- Modelled from the spec: `Ingredient.match_essence` decides whether an
entity essence satisfies the ingredient's accepted material ("its essence
must match the ingredient's accepted material"). The materials named in
settings.py are mapped onto the essences of entities.py: MINERAL accepts
ROCKS and GOLD, WOOD accepts LOGS; the hat materials (LEATHER, ORNAMENT,
GADGET) are matched by no essence of this repository. -/
def Ingredient.match_essence (i : Ingredient) (e : Essence) : Bool :=
  match i.material, e with
  | .mineral, .rocks => true
  | .mineral, .gold => true
  | .wood, .logs => true
  | _, _ => false

/-- Recipe from `edgin_around_api.craft.Recipe` as constructed in
settings.py. -/
structure Recipe where
  codename : String
  description : String
  ingredients : List Ingredient
deriving DecidableEq, Repr

/-- Embedding of `Recipe.get_codename`. -/
def Recipe.get_codename (r : Recipe) : String := r.codename

/-- Embedding of `Recipe.get_ingredients`. -/
def Recipe.get_ingredients (r : Recipe) : List Ingredient := r.ingredients

/-- Modelled from the spec: `Recipe.validate_assembly` checks that the
recipe "accepts the assembly structurally": the assembly cites this
recipe's codename and offers one source list per ingredient slot. -/
def Recipe.validate_assembly (r : Recipe) (a : Assembly) : Bool :=
  a.recipe_codename = r.codename ∧ a.sources.length = r.ingredients.length

/-- Recipe table from settings.py (`RECIPES`). -/
def RECIPES : List Recipe :=
  [ ⟨"axe", "Axe", [⟨.mineral, 2⟩, ⟨.wood, 1⟩]⟩,
    ⟨"hat", "Hat", [⟨.leather, 2⟩, ⟨.ornament, 1⟩, ⟨.gadget, 1⟩]⟩ ]

/-! Events. The classes defined in src/src/events.py are embedded as the
first nine constructors. The remaining constructors are classes referenced
by entities.py, jobs.py, tasks.py and engine.py whose definitions are not
under src/; they are modelled from the spec (section 4.4 lists Grow,
PickFinish, MotionStart, MotionStop among handled events, section 4.3 the
disconnection hook, and the HarvestTask contract the PickStart stage).
Note that events.py itself converts the client's stop and motion moves to
`StopEvent` and `StartMotionEvent`, not to the `MotionStopEvent` and
`MotionStartEvent` classes that `Pirate.handle_event` matches on. -/

/-- Event sum, receiver id first in each constructor. -/
inductive Event where
  | resume (receiver_id : Int)
  | finished (receiver_id : Int)
  | stop (receiver_id : Int)
  | conclude (receiver_id : Int)
  | startMotion (receiver_id : Int) (bearing : ℚ)
  | handActivation (receiver_id : Int) (hand : Hand) (object_id : Option Int)
  | inventoryUpdate (receiver_id : Int) (hand : Hand) (inventory_index : Nat)
      (update_variant : UpdateVariant)
  | damage (receiver_id : Int) (dealer_id : Int) (damage_amount : ℚ)
      (damage_variant : DamageVariant)
  | craftEvent (receiver_id : Int) (assembly : Assembly)
  | motionStart (receiver_id : Int) (bearing : ℚ)
  | motionStop (receiver_id : Int)
  | grow (receiver_id : Int)
  | pickStart (receiver_id : Int) (who : Int)
  | pickFinish (receiver_id : Int) (who : Int)
  | disconnection (receiver_id : Int)
deriving DecidableEq, Repr

/-- Embedding of `Event.get_receiver_id`. -/
def Event.get_receiver_id : Event → Int
  | .resume r => r
  | .finished r => r
  | .stop r => r
  | .conclude r => r
  | .startMotion r _ => r
  | .handActivation r _ _ => r
  | .inventoryUpdate r _ _ _ => r
  | .damage r _ _ _ => r
  | .craftEvent r _ => r
  | .motionStart r _ => r
  | .motionStop r => r
  | .grow r => r
  | .pickStart r _ => r
  | .pickFinish r _ => r
  | .disconnection r => r

/-- Client move sum from `edgin_around_api.moves` as dispatched by
`_EVENT_CONSTRUCTORS` in events.py. -/
inductive Move where
  | stopMove
  | concludeMove
  | startMotionMove (bearing : ℚ)
  | handActivationMove (hand : Hand) (object_id : Option Int)
  | inventoryUpdateMove (hand : Hand) (inventory_index : Nat) (update_variant : UpdateVariant)
  | craftMove (assembly : Assembly)
deriving DecidableEq, Repr

/-- Embedding of `event_from_move` (events.py lines 149-153) together with
the per-class `from_move` constructors it dispatches to. -/
def event_from_move (move : Move) (receiver_id : Int) : Event :=
  match move with
  | .stopMove => .stop receiver_id
  | .concludeMove => .conclude receiver_id
  | .startMotionMove bearing => .startMotion receiver_id bearing
  | .handActivationMove hand object_id => .handActivation receiver_id hand object_id
  | .inventoryUpdateMove hand index variant => .inventoryUpdate receiver_id hand index variant
  | .craftMove assembly => .craftEvent receiver_id assembly

/-! Jobs from jobs.py, embedded as a data sum. `MotionJob` carries its
`start_time` and the `_prev_call_time` bookkeeping of `Job.perform`
(essentials.py), which `MotionTask.finish` reads; the `WaitJob` chain
built by `and_then` is embedded as a list of later (duration, events)
stages. -/

/-- Job sum. -/
inductive Job where
  | damageJob (dealer_id receiver_id tool_id : Int) (hand : Hand)
      (finish_events : List Event)
  | dieJob (dier_id : Int)
  | eatJob (eater_id : Int) (eater_hand : Hand) (food_id : Int)
      (finish_events : List Event)
  | growJob (grower_id : Int) (grow_interval : ℚ)
  | hungerDrainJob (entity_id : Int)
  | motionJob (entity_id : Int) (speed bearing duration : ℚ)
      (finish_events : List Event) (start_time prev_call_time : ℚ)
  | waitJob (duration : ℚ) (events : List Event) (chain : List (ℚ × List Event))
deriving DecidableEq, Repr

/-- Embedding of `WaitJob.and_then` (jobs.py lines 218-220): sets
`self.next` to a fresh `WaitJob` and returns that fresh tail, not `self`.
The first component is the updated head, the second the returned value. -/
def Job.and_then (j : Job) (duration : ℚ) (events : List Event) : Job × Job :=
  match j with
  | .waitJob d evs _ => (.waitJob d evs [(duration, events)], .waitJob duration events [])
  | other => (other, other)

/-- Embedding of the per-class `get_start_delay` methods of jobs.py. -/
def Job.get_start_delay : Job → ℚ
  | .damageJob _ _ _ _ _ => 1
  | .dieJob _ => 0
  | .eatJob _ _ _ _ => 1 / 2
  | .growJob _ interval => interval
  | .hungerDrainJob _ => 1
  | .motionJob _ _ _ _ _ _ _ => 1 / 10
  | .waitJob duration _ _ => duration

/-- Actor record from `edgin_around_api.actors.Actor` as built by
`Entity.as_actor` and task code. -/
structure ActorData where
  id : Int
  name : String
  position : Option Point
deriving DecidableEq, Repr

/-- Action sum from `edgin_around_api.actions` restricted to the
constructors the engine core emits. -/
inductive Action where
  | idleAction (actor_id : Int)
  | motionAction (actor_id : Int) (speed bearing duration : ℚ)
  | localizationAction (actor_id : Int) (position : Point)
  | pickBeginAction (who what : Int)
  | pickEndAction (who : Int)
  | harvestBeginAction (who what : Int)
  | harvestEndAction (who : Int)
  | eatBeginAction (actor_id : Int)
  | eatEndAction (actor_id : Int)
  | craftBeginAction (actor_id : Int)
  | craftEndAction (actor_id : Int)
  | actorCreationAction (actors : List ActorData)
  | actorDeletionAction (actor_ids : List Int)
  | actorUpdateAction (actor_id : Int) (state_name : String)
  | inventoryUpdateAction (actor_id : Int) (inventory : Inventory)
  | statUpdateAction (actor_id : Int) (stats : Stats)
  | damageAction (dealer_id receiver_id : Int) (variant : DamageVariant) (hand : Hand)
deriving DecidableEq, Repr

/-- Job result from essentials.py (`class JobResult`). -/
structure JobResult where
  events : List Event
  actions : List Action
  repeat_after : Option ℚ
deriving DecidableEq, Repr

/-- Empty job result (`JobResult()`). -/
def JobResult.empty : JobResult := ⟨[], [], none⟩

/-- Drop specification: `DieAndDropTask` holds a list of freshly
constructed entities; every call site (`generate_drops` in entities.py)
builds them from a parameterless constructor at the dier's position, so a
drop is embedded as its entity kind plus position, and the entity is
materialised by `constructDrop` when the task starts. -/
inductive EntityKind where
  | rocks
  | gold
  | rawMeat
  | log
  | axe
  | berry
  | berryBush
  | spruce
  | warrior
  | pirate
  | twig
deriving DecidableEq, Repr

/-- Task sum from tasks.py and essentials.py (`EmptyTask`). Each
constructor stores the fields the Python object carries; `job` fields
mirror the mutable `self.job` slot (tasks that never assign it, such as
`WalkTask` and `InventoryUpdateTask`, have no such field, matching the
base-class value `None`). -/
inductive Task where
  | empty
  | idle (actor_id : Int)
  | craftTask (crafter_id : Int) (assembly : Assembly) (job : Option Job)
  | dieAndDrop (dier_id : Int) (drops : List (EntityKind × Option Point))
  | growTask (grower_id : Int) (grow_interval : ℚ) (job : Option Job)
  | harvestTask (who_id : Int) (what_id : Option Int) (hand : Hand) (job : Option Job)
  | inventoryUpdateTask (performer_id : Int) (hand : Hand) (inventory_index : Nat)
      (update_variant : UpdateVariant)
  | motionTask (entity_id : Int) (speed bearing : ℚ) (job : Job)
  | stateChangeTask (entity_id : Int) (state_name : String) (job : Job)
  | useItemTask (performer_id item_id : Int) (receiver_id : Option Int) (hand : Hand)
      (job : Option Job) (finish_actions : List Action)
  | walkTask (entity_id : Int) (speed bearing duration : ℚ)
deriving DecidableEq, Repr

/-- Python exceptions that the embedded code can raise: attribute lookups
that fail (a method or class that does not exist), failing `assert`
statements, and `del` on a missing dictionary key. -/
inductive PyErr where
  | attributeError (name : String)
  | assertionError
  | keyError
deriving DecidableEq, Repr

/-- Mutable per-entity feature state. The feature shape (which slots an
entity has) is fixed by its constructor in entities.py; these are the
fields its features can change afterwards. Slots an entity kind lacks are
simply never read. -/
structure FState where
  stack : Int
  health : ℚ
  hunger : ℚ
  stored_by : Option Int
  state_name : String
  current_amount : Int
  inv : Inventory
deriving DecidableEq, Repr

/-- Initial mutable feature state; constructors override the fields they
set. -/
def FState.base : FState :=
  { stack := 1, health := 0, hunger := 0, stored_by := none, state_name := "",
    current_amount := 0, inv := ⟨none, none, []⟩ }

/-- Entity record from essentials.py: identity, codename tag (as kind),
current task, optional position, and mutable feature state. -/
structure Entity where
  id : Int
  kind : EntityKind
  task : Task
  position : Option Point
  fstate : FState
deriving DecidableEq, Repr

/-- Helper splicing the mutable `stored_by` slot into a derived feature
bundle. -/
def Features.withStoredBy (f : Features) (sb : Option Int) : Features :=
  { f with inventorable := f.inventorable.map (fun iv => { iv with stored_by := sb }) }

/-- Feature bundle of each entity kind, derived by replaying the `set_*`
calls of the constructors in entities.py on the current mutable feature
state. Constants (volumes, damage tables, nutrients, capacities, bounds)
are the literals of entities.py. -/
def kindFeatures : EntityKind → FState → Features
  | .rocks, fs =>
      ((Features.base.set_inventorable Sizes.small).set_stackable fs.stack).withStoredBy
        fs.stored_by
  | .gold, fs =>
      ((Features.base.set_inventorable Sizes.small).set_stackable fs.stack).withStoredBy
        fs.stored_by
  | .rawMeat, fs =>
      (((Features.base.set_edible ⟨50⟩).set_inventorable Sizes.small).set_stackable
        fs.stack).withStoredBy fs.stored_by
  | .log, fs => (Features.base.set_inventorable Sizes.huge).withStoredBy fs.stored_by
  | .axe, fs =>
      ((Features.base.set_inventorable Sizes.medium).set_tool_or_weapon 10 100 20
        50).withStoredBy fs.stored_by
  | .berry, fs =>
      (((Features.base.set_edible ⟨5⟩).set_inventorable Sizes.small).set_stackable
        fs.stack).withStoredBy fs.stored_by
  | .berryBush, fs =>
      ((Features.base.set_performer.set_stateful fs.state_name).set_damageable fs.health 200
        .chop).set_harvestable fs.current_amount 5 20 1 10
  | .spruce, fs => Features.base.set_damageable fs.health 400 .chop
  | .warrior, fs => (Features.base.set_performer).set_damageable fs.health 200 .attack
  | .pirate, fs => (Features.base.set_inventory fs.inv).set_eater 100 fs.hunger
  | .twig, fs => (Features.base.set_inventorable Sizes.small).withStoredBy fs.stored_by

/-- Feature bundle of an entity (`entity.features`). -/
def Entity.features (e : Entity) : Features := kindFeatures e.kind e.fstate

/-- Essence class attribute of each entity kind (entities.py). -/
def kindEssence : EntityKind → Essence
  | .rocks => .rocks
  | .gold => .gold
  | .rawMeat => .meat
  | .log => .logs
  | .axe => .tool
  | .berry => .vegy
  | .berryBush => .plant
  | .spruce => .plant
  | .warrior => .hero
  | .pirate => .hero
  | .twig => .sticks

/-- Codename class attribute of each entity kind (entities.py). -/
def kindCodename : EntityKind → String
  | .rocks => "rocks"
  | .gold => "gold"
  | .rawMeat => "raw_meat"
  | .log => "log"
  | .axe => "axe"
  | .berry => "berry"
  | .berryBush => "berry_bush"
  | .spruce => "spruce"
  | .warrior => "warrior"
  | .pirate => "pirate"
  | .twig => "twig"

namespace Entity

/-- Embedding of `Entity.get_id`. -/
def get_id (e : Entity) : Int := e.id

/-- Embedding of `Entity.get_essence`. -/
def get_essence (e : Entity) : Essence := kindEssence e.kind

/-- Embedding of `Entity.get_name`. -/
def get_name (e : Entity) : String := kindCodename e.kind

/-- Embedding of `Entity.as_actor`. -/
def as_actor (e : Entity) : ActorData := ⟨e.id, e.get_name, e.position⟩

/-- Embedding of `Entity.as_info` (essentials.py): quantity via
`Features.get_quantity`, item volume from the inventorable slot (1 if
absent), maximal volume `Sizes.BIG`. -/
def as_info (e : Entity) : EntityInfo :=
  { id := e.id
    essence := e.get_essence
    quantity := e.features.get_quantity
    item_volume :=
      match e.features.inventorable with
      | some iv => iv.volume
      | none => 1
    max_volume := Sizes.big
    codename := e.get_name }

/-- Embedding of `Entity.as_craft_item`. -/
def as_craft_item (e : Entity) : Source :=
  ⟨e.id, e.get_essence, e.features.get_quantity⟩

/-- Embedding of `Entity.set_position`. -/
def set_position (e : Entity) (position : Option Point) : Entity :=
  { e with position := position }

/-- Updates the current task slot (`self.task = ...`). -/
def withTask (e : Entity) (t : Task) : Entity := { e with task := t }

/-- Writes the mutable stack size (`StackableFeature` mutations). -/
def withStack (e : Entity) (n : Int) : Entity := { e with fstate := { e.fstate with stack := n } }

/-- Writes the mutable health (`DamageableFeature.handle_damage`). -/
def withHealth (e : Entity) (h : ℚ) : Entity :=
  { e with fstate := { e.fstate with health := h } }

/-- Writes the mutable hunger value (`EaterFeature` mutations). -/
def withHunger (e : Entity) (h : ℚ) : Entity :=
  { e with fstate := { e.fstate with hunger := h } }

/-- Writes the mutable stored-by reference (`InventorableFeature.set_stored_by`). -/
def withStoredBy (e : Entity) (sb : Option Int) : Entity :=
  { e with fstate := { e.fstate with stored_by := sb } }

/-- Writes the mutable visual state name (`StatefulFeature.set_state_name`). -/
def withStateName (e : Entity) (s : String) : Entity :=
  { e with fstate := { e.fstate with state_name := s } }

/-- Writes the mutable harvestable amount. -/
def withCurrentAmount (e : Entity) (n : Int) : Entity :=
  { e with fstate := { e.fstate with current_amount := n } }

/-- Writes the mutable inventory container. -/
def withInv (e : Entity) (inv : Inventory) : Entity :=
  { e with fstate := { e.fstate with inv := inv } }

end Entity

/-- Entity constructors from entities.py (`__init__` of each class sets
position, the feature shape and the initial mutable values). -/
def mkRocks (id : Int) (position : Option Point) : Entity :=
  ⟨id, .rocks, .empty, position, { FState.base with stack := 1 }⟩

/-- Gold constructor (entities.py). -/
def mkGold (id : Int) (position : Option Point) : Entity :=
  ⟨id, .gold, .empty, position, { FState.base with stack := 1 }⟩

/-- RawMeat constructor (entities.py). -/
def mkRawMeat (id : Int) (position : Option Point) : Entity :=
  ⟨id, .rawMeat, .empty, position, { FState.base with stack := 1 }⟩

/-- Log constructor (entities.py). -/
def mkLog (id : Int) (position : Option Point) : Entity :=
  ⟨id, .log, .empty, position, FState.base⟩

/-- Axe constructor (entities.py). -/
def mkAxe (id : Int) (position : Option Point) : Entity :=
  ⟨id, .axe, .empty, position, FState.base⟩

/-- Berry constructor (entities.py); the stack is initialised with the
`amount` argument. -/
def mkBerry (id : Int) (position : Option Point) (amount : Int) : Entity :=
  ⟨id, .berry, .empty, position, { FState.base with stack := amount }⟩

/-- BerryBush constructor (entities.py): health 100, state "default",
harvest amount `STATE_THRESHOLD - 1 = 9`. -/
def mkBerryBush (id : Int) (position : Option Point) : Entity :=
  ⟨id, .berryBush, .empty, position,
    { FState.base with health := 100, state_name := "default", current_amount := 9 }⟩

/-- Spruce constructor (entities.py): health 200. -/
def mkSpruce (id : Int) (position : Option Point) : Entity :=
  ⟨id, .spruce, .empty, position, { FState.base with health := 200 }⟩

/-- Warrior constructor (entities.py): health 200. -/
def mkWarrior (id : Int) (position : Option Point) : Entity :=
  ⟨id, .warrior, .empty, position, { FState.base with health := 200 }⟩

/-- Pirate constructor (entities.py): hunger 50, fresh inventory. -/
def mkPirate (id : Int) (position : Option Point) : Entity :=
  ⟨id, .pirate, .empty, position,
    { FState.base with hunger := 50, inv := ⟨none, none, []⟩ }⟩

/-- Twig constructor (entities.py). -/
def mkTwig (id : Int) (position : Option Point) : Entity :=
  ⟨id, .twig, .empty, position, FState.base⟩

/-- Materialises one drop of a `DieAndDropTask` (see `Task.dieAndDrop`):
every drop site in entities.py uses a parameterless constructor. -/
def constructDrop (k : EntityKind) (id : Int) (position : Option Point) : Entity :=
  match k with
  | .rocks => mkRocks id position
  | .gold => mkGold id position
  | .rawMeat => mkRawMeat id position
  | .log => mkLog id position
  | .axe => mkAxe id position
  | .berry => mkBerry id position 1
  | .berryBush => mkBerryBush id position
  | .spruce => mkSpruce id position
  | .warrior => mkWarrior id position
  | .pirate => mkPirate id position
  | .twig => mkTwig id position

/-- Entity-constructor registry from settings.py (`ENTITIES`), filled by
the loop at the bottom of entities.py: only Rocks, Gold, Log, Axe, Spruce,
Warrior and Pirate are registered. -/
def ENTITIES : List (String × EntityKind) :=
  [ ("rocks", .rocks), ("gold", .gold), ("log", .log), ("axe", .axe),
    ("spruce", .spruce), ("warrior", .warrior), ("pirate", .pirate) ]

/-- Sentinel id from `edgin_around_api.defs.UNASSIGNED_ACTOR_ID`: the
negative value that makes `State.add_entity` allocate a fresh id. -/
def UNASSIGNED_ACTOR_ID : Int := -1

/-- World state from state.py (`class State`). The external geometry
object `elevation_function` is embedded by its radius together with two
abstract function fields: `dist p q` stands for
`p.great_circle_distance_to(q, radius)` and `moved p d b r` for
`p.moved_by(d, b, r)`. Random id generation is embedded by the `next_id`
cursor (see module comment). The entity dictionary is an association list
in insertion order, like a Python dict. -/
structure GState where
  entities : List (Int × Entity)
  radius : ℚ
  dist : Point → Point → ℚ
  moved : Point → ℚ → ℚ → ℚ → Point
  next_id : Int

namespace GState

/-- Embedding of `State.get_entity` (dictionary lookup). -/
def get_entity (st : GState) (entity_id : Int) : Option Entity :=
  (st.entities.find? (fun p => p.1 = entity_id)).map (·.2)

/-- Dictionary write `self.entities[key] = entity`: replaces in place if
the key is present, appends otherwise (Python dict semantics). -/
def setEntity (st : GState) (key : Int) (e : Entity) : GState :=
  if st.entities.any (fun p => p.1 = key) then
    { st with entities := st.entities.map (fun p => if p.1 = key then (key, e) else p) }
  else
    { st with entities := st.entities ++ [(key, e)] }

/-- Embedding of `State.generate_new_entity_id`: an id unused by the
entity map (random draw embedded by the cursor, see module comment). -/
def generate_new_entity_id (st : GState) : Int × GState :=
  (st.next_id, { st with next_id := st.next_id + 1 })

/-- Embedding of `State.add_entity`: a negative id is replaced by a fresh
one, then the entity is stored under its id. -/
def add_entity (st : GState) (e : Entity) : GState :=
  if e.get_id < 0 then
    let (id, st) := st.generate_new_entity_id
    let e := { e with id := id }
    st.setEntity e.id e
  else
    st.setEntity e.id e

/-- Embedding of `State.delete_entity`: `del` raises `KeyError` on a
missing key. -/
def delete_entity (st : GState) (entity_id : Int) : Except PyErr GState :=
  if st.entities.any (fun p => p.1 = entity_id) then
    .ok { st with entities := st.entities.filter (fun p => p.1 ≠ entity_id) }
  else
    .error .keyError

/-- Embedding of `State.get_radius`. -/
def get_radius (st : GState) : ℚ := st.radius

/-- Embedding of `State.calculate_distance`: `none` unless both entities
have a position. -/
def calculate_distance (st : GState) (entity1 entity2 : Entity) : Option ℚ :=
  match entity1.position, entity2.position with
  | some p1, some p2 => some (st.dist p1 p2)
  | _, _ => none

/-- Embedding of `State.find_closest_delivering_within` (state.py lines
54-73). The running minimum starts at `100 * radius`; the `max_distance`
argument is never consulted by the source. -/
def find_closest_delivering_within (st : GState) (reference_id : Int)
    (claim : List Claim) (max_distance : ℚ) : Option Int :=
  match st.get_entity reference_id with
  | none => none
  | some reference =>
    let scan := st.entities.foldl
      (fun (acc : Option Int × ℚ) (pair : Int × Entity) =>
        let entity := pair.2
        if entity.get_id ≠ reference_id ∧ entity.features.deliver claim then
          match st.calculate_distance reference entity with
          | some distance => if distance < acc.2 then (some entity.get_id, distance) else acc
          | none => acc
        else acc)
      ((none : Option Int), 100 * st.get_radius)
    scan.1

/-- Embedding of `State.find_closest_absorbing_within` (state.py lines
75-94). -/
def find_closest_absorbing_within (st : GState) (reference_id : Int)
    (claims : List Claim) (max_distance : ℚ) : Option Int :=
  match st.get_entity reference_id with
  | none => none
  | some reference =>
    let scan := st.entities.foldl
      (fun (acc : Option Int × ℚ) (pair : Int × Entity) =>
        let entity := pair.2
        if entity.get_id ≠ reference_id ∧ entity.features.absorb claims then
          match st.calculate_distance reference entity with
          | some distance => if distance < acc.2 then (some entity.get_id, distance) else acc
          | none => acc
        else acc)
      ((none : Option Int), 100 * st.get_radius)
    scan.1

end GState

/-- Embedding of `Entity.move_by` (essentials.py): moves the position if
present, through the external geometry function. -/
def Entity.move_by (e : Entity) (st : GState) (distance bearing radius : ℚ) : Entity :=
  match e.position with
  | some p => { e with position := some (st.moved p distance bearing radius) }
  | none => e

/-- Craft result from state.py (`class CraftResult`). -/
structure CraftResult where
  created : List ActorData
  deleted : List Int
deriving DecidableEq, Repr

/-- Embedding of `State._find_recipe_by_codename`. -/
def findRecipeByCodename (codename : String) : Option Recipe :=
  RECIPES.find? (fun r => r.get_codename = codename)

/-- Embedding of `State._construct_entity`: consults the `ENTITIES`
registry of settings.py. -/
def constructEntity (codename : String) (id : Int) (position : Option Point) : Option Entity :=
  (ENTITIES.find? (fun p => p.1 = codename)).map (fun p => constructDrop p.2 id position)

namespace GState

/-- Embedding of `State.validate_assembly` (state.py lines 104-132). -/
def validate_assembly (st : GState) (assembly : Assembly) (inventory : Inventory) : Bool :=
  match findRecipeByCodename assembly.recipe_codename with
  | none => false
  | some recipe =>
    if ¬ recipe.validate_assembly assembly then false
    else
      (recipe.get_ingredients.zip assembly.sources).all (fun pr =>
        pr.2.all (fun source =>
          match inventory.find_entity_with_entity_id source.actor_id with
          | none => false
          | some entry =>
            match st.get_entity entry.id with
            | none => false
            | some entity =>
              if ¬ pr.1.match_essence entity.get_essence then false
              else
                match entity.features.stackable with
                | some s => ¬ (s.get_size < source.quantity)
                | none => ¬ (source.quantity > 1)))

/-- Embedding of the ingredient-consumption loop of `State._craft`
(state.py lines 158-176), iterating over the flattened source list in
order. The `assert entry is not None` and `assert entity is not None`
statements become `.error .assertionError`. -/
def consumeSources : List Source → GState → Inventory → CraftResult →
    Except PyErr (GState × Inventory × CraftResult)
  | [], st, inv, res => .ok (st, inv, res)
  | source :: rest, st, inv, res =>
    match inv.find_entity_with_entity_id source.actor_id with
    | none => .error .assertionError
    | some entry =>
      match st.get_entity entry.id with
      | none => .error .assertionError
      | some entity =>
        match entity.features.stackable with
        | some s =>
          if s.get_size = source.quantity then do
            let inv := inv.remove_with_entity_id entity.id
            let res := { res with deleted := res.deleted ++ [entity.id] }
            let st ← st.delete_entity entity.id
            consumeSources rest st inv res
          else
            let st := st.setEntity entity.id (entity.withStack (s.decrease source.quantity).stack_size)
            consumeSources rest st inv res
        | none => do
          let inv := inv.remove_with_entity_id entity.id
          let res := { res with deleted := res.deleted ++ [entity.id] }
          let st ← st.delete_entity entity.id
          consumeSources rest st inv res

/-- Embedding of `State._craft` (state.py lines 140-186). Returns the
craft result together with the updated state and (aliased) inventory. -/
def craft (st : GState) (assembly : Assembly) (inventory : Inventory) :
    Except PyErr (CraftResult × GState × Inventory) :=
  let result : CraftResult := ⟨[], []⟩
  match findRecipeByCodename assembly.recipe_codename with
  | none => .error .assertionError
  | some recipe =>
    match inventory.get_free_hand .right with
    | none => .ok (result, st, inventory)
    | some free_hand =>
      let (new_id, st) := st.generate_new_entity_id
      match constructEntity recipe.get_codename new_id none with
      | none => .ok (result, st, inventory)
      | some new_entity => do
        let (st, inv, result) ← consumeSources assembly.sources.flatten st inventory result
        let inv :=
          if new_entity.features.inventorable.isSome then
            inv.store_entry free_hand (some new_entity.as_info)
          else inv
        let st := st.add_entity new_entity
        .ok ({ result with created := result.created ++ [new_entity.as_actor] }, st, inv)

/-- Embedding of `State.craft_entity` (state.py lines 134-138). -/
def craft_entity (st : GState) (assembly : Assembly) (inventory : Inventory) :
    Except PyErr (CraftResult × GState × Inventory) :=
  if st.validate_assembly assembly inventory then st.craft assembly inventory
  else .ok (⟨[], []⟩, st, inventory)

/-- Embedding of `State.merge_entities` (state.py lines 188-236). Each
guard that makes the Python method return early yields the unchanged
state. The runtime-type comparison of the two entries
(`type(source_entry) != type(target_entry)`) always finds the same type,
because both hand and pocket slots store entries of the external
`EntityInfo` class (the repository's merge tests merge a hand entry into a
pocket entry). -/
def merge_entities (st : GState) (inventory : Inventory) (hand : Hand)
    (pocket_index : Nat) : Except PyErr (GState × Inventory) :=
  match inventory.get_hand_entry hand, inventory.get_pocket_entry pocket_index with
  | some source_entry, some target_entry =>
    match st.get_entity source_entry.id, st.get_entity target_entry.id with
    | some source_entity, some target_entity =>
      match source_entity.features.stackable, target_entity.features.stackable with
      | some source_stackable, some target_stackable =>
        match source_entity.features.inventorable, target_entity.features.inventorable with
        | some source_inventorable, some _ =>
          let item_volume := source_inventorable.volume
          let max_target_quantity :=
            target_entry.calc_max_quantity_for_item_volume item_volume
          let combined_quantity := source_stackable.get_size + target_stackable.get_size
          let new_target_quantity := min max_target_quantity combined_quantity
          let new_source_quantity := combined_quantity - new_target_quantity
          let st := st.setEntity target_entry.id
            (target_entity.withStack (target_stackable.set_size new_target_quantity).stack_size)
          let inventory := inventory.setPocket pocket_index
            (some (target_entry.set_quantity new_target_quantity))
          if new_source_quantity > 0 then
            let st := st.setEntity source_entry.id
              (source_entity.withStack (source_stackable.set_size new_source_quantity).stack_size)
            let inventory := inventory.store_entry hand
              (some (source_entry.set_quantity new_source_quantity))
            .ok (st, inventory)
          else do
            let st ← st.delete_entity source_entry.id
            .ok (st, inventory.remove_with_entity_id source_entry.id)
        | _, _ => .ok (st, inventory)
      | _, _ => .ok (st, inventory)
    | _, _ => .ok (st, inventory)
  | _, _ => .ok (st, inventory)

end GState

/-- Embedding of `BerryBush.get_state_for_amount` (entities.py):
`STATE_BARE` below the threshold 10, `STATE_COVERED` otherwise. -/
def get_state_for_amount (amount : Int) : String :=
  if amount < 10 then "bare" else "covered"

/-- Embedding of `BerryBush.generate_drops` / `Spruce.generate_drops` /
`Warrior.generate_drops`: each asserts the position is present and builds
parameterless drops there. Returns the drop specifications stored in the
`DieAndDropTask`. -/
def generateDrops (e : Entity) (k : EntityKind) (count : Nat) :
    Except PyErr (List (EntityKind × Option Point)) :=
  match e.position with
  | none => .error .assertionError
  | some p => .ok (List.replicate count (k, some p))

/-- Embedding of the per-class `handle_event` methods (entities.py). The
result flag records whether the handler assigned a fresh task object to
`self.task` (Python object identity as observed by the engine's
`old_task is not new_task` test). The argument `now` is the monotonic
clock (constructed `MotionJob` objects record it) and `rnd` is the oracle
for `random.uniform(-pi, pi)` in `Warrior.handle_event`. Handlers of
Rocks, Gold, RawMeat, Log, Axe, Berry and Twig are `pass`. `Pirate`
matches the `MotionStartEvent` and `MotionStopEvent` classes, which are
distinct from the `StartMotionEvent` and `StopEvent` classes that
`event_from_move` produces. -/
def handleEventEntity (now rnd : ℚ) (e : Entity) (ev : Event) :
    Except PyErr (Entity × Bool) :=
  match e.kind with
  | .berryBush =>
    match ev with
    | .resume _ | .finished _ =>
      .ok (e.withTask (.growTask e.get_id 5 none), true)
    | .grow _ =>
      match e.features.harvestable with
      | none => .error .assertionError
      | some h =>
        let current_state := e.fstate.state_name
        let ((_, new_amount), h) := h.grow
        let e := e.withCurrentAmount h.current_amount
        let new_state := get_state_for_amount new_amount
        if new_state ≠ current_state then
          .ok (e.withTask (.stateChangeTask e.get_id new_state
            (.waitJob 0 [.finished e.get_id] [])), true)
        else .ok (e, false)
    | .pickStart _ _ => .ok (e, false)
    | .pickFinish _ _ =>
      let current_state := e.fstate.state_name
      let new_amount := e.fstate.current_amount
      let new_state := get_state_for_amount new_amount
      if new_state ≠ current_state then
        .ok (e.withTask (.stateChangeTask e.get_id new_state
          (.waitJob 0 [.finished e.get_id] [])), true)
      else .ok (e.withTask (.growTask e.get_id 5 none), true)
    | .damage _ _ amount _ =>
      match e.features.damageable with
      | none => .error .assertionError
      | some d =>
        let (is_alive, d) := d.handle_damage amount
        let e := e.withHealth d.health
        if is_alive then .ok (e, false)
        else do
          let drops ← generateDrops e .twig 3
          .ok (e.withTask (.dieAndDrop e.get_id drops), true)
    | _ => .ok (e, false)
  | .spruce =>
    match ev with
    | .damage _ _ amount _ =>
      match e.features.damageable with
      | none => .error .assertionError
      | some d =>
        let (is_alive, d) := d.handle_damage amount
        let e := e.withHealth d.health
        if is_alive then .ok (e, false)
        else do
          let drops ← generateDrops e .log 3
          .ok (e.withTask (.dieAndDrop e.get_id drops), true)
    | _ => .ok (e, false)
  | .warrior =>
    match ev with
    | .resume _ | .finished _ =>
      .ok (e.withTask (.walkTask e.get_id 1 rnd 1), true)
    | .damage _ _ amount _ =>
      match e.features.damageable with
      | none => .error .assertionError
      | some d =>
        let (is_alive, d) := d.handle_damage amount
        let e := e.withHealth d.health
        if is_alive then .ok (e, false)
        else do
          let drops ← generateDrops e .rawMeat 4
          .ok (e.withTask (.dieAndDrop e.get_id drops), true)
    | _ => .ok (e, false)
  | .pirate =>
    match e.features.inventory with
    | none => .error .assertionError
    | some inv =>
      match ev with
      | .finished _ | .motionStop _ =>
        .ok (e.withTask (.idle e.get_id), true)
      | .motionStart _ bearing =>
        .ok (e.withTask (.motionTask e.get_id 1 bearing
          (.motionJob e.get_id 1 bearing 20 [] now now)), true)
      | .handActivation _ hand object_id =>
        match inv.get_hand hand with
        | some item_id =>
          .ok (e.withTask (.useItemTask e.get_id item_id object_id hand none []), true)
        | none =>
          .ok (e.withTask (.harvestTask e.get_id object_id hand none), true)
      | .inventoryUpdate _ hand index variant =>
        .ok (e.withTask (.inventoryUpdateTask e.get_id hand index variant), true)
      | .craftEvent _ assembly =>
        .ok (e.withTask (.craftTask e.get_id assembly none), true)
      | .resume _ =>
        .ok (e.withTask (.idle e.get_id), true)
      | .disconnection _ =>
        .ok (e.withTask (.dieAndDrop e.get_id []), true)
      | _ => .ok (e, false)
  | _ => .ok (e, false)

/-- Writes the inventory container back into the entity that owns it. In
Python the container object is aliased between the entity's
`InventoryFeature` and local variables, so mutations are visible without
a write; the embedding performs the write explicitly (a no-op if the
owner has meanwhile disappeared, matching the invisibility of a mutation
of an unreferenced object). -/
def GState.updateInv (st : GState) (id : Int) (inv : Inventory) : GState :=
  match st.get_entity id with
  | some e => st.setEntity id (e.withInv inv)
  | none => st

/-- Embedding of the per-class `execute` methods of jobs.py. Returns the
(possibly mutated) job object, the job result and the updated state. -/
def jobExecute (now : ℚ) (j : Job) (st : GState) :
    Except PyErr (Job × JobResult × GState) :=
  match j with
  | .damageJob dealer_id receiver_id tool_id hand finish_events =>
    let finish : JobResult := ⟨finish_events, [], none⟩
    match st.get_entity dealer_id with
    | none => .ok (j, finish, st)
    | some dealer =>
      if dealer.features.inventory = none then .ok (j, finish, st)
      else
        match st.get_entity receiver_id with
        | none => .ok (j, finish, st)
        | some receiver =>
          match receiver.features.damageable with
          | none => .ok (j, finish, st)
          | some damageable =>
            match st.get_entity tool_id with
            | none => .ok (j, finish, st)
            | some tool =>
              match tool.features.tool_or_weapon with
              | none => .ok (j, finish, st)
              | some tw =>
                let damage_variant := damageable.damage_variant
                let damage_amount := tw.get_damage damage_variant
                .ok (j,
                  ⟨[.damage receiver_id dealer_id damage_amount damage_variant],
                    [.damageAction dealer_id receiver_id damage_variant hand], some 1⟩,
                  st)
  | .dieJob dier_id => do
    let st ← st.delete_entity dier_id
    .ok (j, JobResult.empty, st)
  | .eatJob eater_id eater_hand food_id finish_events =>
    let finish : JobResult := ⟨finish_events, [], none⟩
    match st.get_entity eater_id with
    | none => .ok (j, finish, st)
    | some eater =>
      match eater.features.eater, eater.features.inventory with
      | some ef, some einv =>
        match st.get_entity food_id with
        | none => .ok (j, finish, st)
        | some food =>
          match food.features.edible with
          | none => .ok (j, finish, st)
          | some edible =>
            let nutrients := edible.nutrients.mul food.features.get_quantity
            let (eaten, ef) := ef.absorb nutrients
            let eater := eater.withHunger ef.hunger_value
            let st := st.setEntity eater_id eater
            if ¬ eaten then .ok (j, JobResult.empty, st)
            else do
              let einv := einv.store_entry eater_hand none
              let eater := eater.withInv einv
              let st := st.setEntity eater_id eater
              let stats := ef.gather_stats
              let st ← st.delete_entity food_id
              .ok (j,
                ⟨[], [.inventoryUpdateAction eater.get_id einv,
                      .actorDeletionAction [food_id],
                      .statUpdateAction eater.get_id stats], none⟩,
                st)
      | _, _ => .ok (j, finish, st)
  | .growJob grower_id grow_interval =>
    .ok (j, ⟨[.grow grower_id], [], some grow_interval⟩, st)
  | .hungerDrainJob entity_id =>
    match st.get_entity entity_id with
    | none => .ok (j, JobResult.empty, st)
    | some e =>
      match e.features.eater with
      | none => .ok (j, JobResult.empty, st)
      | some ef =>
        let ef := ef.deduce 1
        let e := e.withHunger ef.hunger_value
        let st := st.setEntity entity_id e
        .ok (j, ⟨[], [.statUpdateAction e.get_id ef.gather_stats], some 1⟩, st)
  | .motionJob entity_id speed bearing duration finish_events start_time prev =>
    match st.get_entity entity_id with
    | none => .ok (j, ⟨finish_events, [], none⟩, st)
    | some e =>
      let e := e.move_by st (speed * (1 / 10)) bearing st.get_radius
      let st := st.setEntity entity_id e
      if start_time + duration < now then
        .ok (.motionJob entity_id speed bearing duration finish_events start_time prev,
          ⟨finish_events, [], none⟩, st)
      else
        .ok (.motionJob entity_id speed bearing duration finish_events start_time prev,
          ⟨[], [], some (1 / 10)⟩, st)
  | .waitJob duration events chain =>
    match chain with
    | [] => .ok (.waitJob duration events [], ⟨events, [], none⟩, st)
    | (d2, e2) :: rest =>
      .ok (.waitJob d2 e2 rest, ⟨events, [], some d2⟩, st)

/-- Embedding of `Job.perform` (essentials.py): runs `execute` and then
refreshes `_prev_call_time` with the current monotonic time; the
bookkeeping is carried only on `MotionJob`, the one job whose owner
(`MotionTask.finish`) reads it. -/
def jobPerform (now : ℚ) (j : Job) (st : GState) :
    Except PyErr (Job × JobResult × GState) := do
  let (j, res, st) ← jobExecute now j st
  let j :=
    match j with
    | .motionJob a b c d e f _ => .motionJob a b c d e f now
    | other => other
  .ok (j, res, st)

/-- Reads the `_prev_call_time` bookkeeping of a job (tracked on
`MotionJob` only, see `jobPerform`). -/
def jobPrevCallTime : Job → ℚ
  | .motionJob _ _ _ _ _ _ prev => prev
  | _ => 0

/-- Embedding of the per-class `get_job` methods of tasks.py. `WalkTask`
and `InventoryUpdateTask` construct a fresh job on each call (their
`self.job` slot stays `None`); the other tasks return their stored job
slot. The clock argument records the construction time of a fresh
`MotionJob`. -/
def taskGetJob (now : ℚ) : Task → Option Job
  | .empty => none
  | .idle _ => none
  | .craftTask _ _ j => j
  | .dieAndDrop dier_id _ => some (.dieJob dier_id)
  | .growTask _ _ j => j
  | .harvestTask _ _ _ j => j
  | .inventoryUpdateTask performer_id _ _ _ =>
      some (.waitJob (1 / 100) [.finished performer_id] [])
  | .motionTask _ _ _ j => some j
  | .stateChangeTask _ _ j => some j
  | .useItemTask _ _ _ _ j _ => j
  | .walkTask entity_id speed bearing duration =>
      some (.motionJob entity_id speed bearing duration [.finished entity_id] now now)

/-- Harvest-task constants from tasks.py. -/
def HARVEST_MAX_DISTANCE : ℚ := 1
def HARVEST_DURATION : ℚ := 1

/-- Embedding of the per-class `start` methods of tasks.py. Returns the
(possibly mutated) task object, the emitted actions and the updated
state. -/
def taskStart (t : Task) (st : GState) : Except PyErr (Task × List Action × GState) :=
  match t with
  | .empty => .ok (t, [], st)
  | .idle actor_id => .ok (t, [.idleAction actor_id], st)
  | .craftTask crafter_id assembly _ =>
    match st.get_entity crafter_id with
    | none => .ok (t, [], st)
    | some crafter =>
      match crafter.features.inventory with
      | none => .ok (t, [], st)
      | some inv =>
        if inv.get_free_hand .right = none then .ok (t, [], st)
        else if ¬ st.validate_assembly assembly inv then .ok (t, [], st)
        else
          .ok (.craftTask crafter_id assembly
            (some (.waitJob 1 [.finished crafter_id] [])),
            [.craftBeginAction crafter_id], st)
  | .dieAndDrop dier_id drops =>
    match st.get_entity dier_id with
    | none => .ok (t, [], st)
    | some dier =>
      let step := fun (acc : GState × List ActorData) (drop : EntityKind × Option Point) =>
        let (id, st) := acc.1.generate_new_entity_id
        let ent := constructDrop drop.1 id drop.2
        (st.setEntity ent.id ent, acc.2 ++ [⟨ent.id, ent.get_name, dier.position⟩])
      let (st, actors) := drops.foldl step (st, [])
      .ok (t, [.actorCreationAction actors, .actorDeletionAction [dier_id]], st)
  | .growTask grower_id grow_interval _ =>
    match st.get_entity grower_id with
    | none => .ok (t, [], st)
    | some grower =>
      if grower.features.harvestable = none then .ok (t, [], st)
      else
        .ok (.growTask grower_id grow_interval (some (.growJob grower_id grow_interval)),
          [], st)
  | .harvestTask who_id what_id hand _ =>
    let what_id :=
      match what_id with
      | none =>
        st.find_closest_delivering_within who_id [Claim.cargo, Claim.harvest]
          HARVEST_MAX_DISTANCE
      | some w => some w
    match what_id with
    | none => .ok (.harvestTask who_id none hand none, [], st)
    | some what =>
      let t := Task.harvestTask who_id (some what) hand none
      match st.get_entity who_id, st.get_entity what with
      | some entity, some subject =>
        match st.calculate_distance entity subject with
        | none => .ok (t, [], st)
        | some distance =>
          if HARVEST_MAX_DISTANCE < distance then .ok (t, [], st)
          else
            let job := ((Job.waitJob 0 [.pickStart what who_id] []).and_then
              HARVEST_DURATION [.finished who_id]).2
            let t := Task.harvestTask who_id (some what) hand (some job)
            if subject.features.inventorable.isSome then
              .ok (t, [.pickBeginAction who_id what], st)
            else if subject.features.harvestable.isSome then
              .ok (t, [.harvestBeginAction who_id what], st)
            else .ok (t, [], st)
      | _, _ => .ok (t, [], st)
  | .inventoryUpdateTask _ _ _ _ => .ok (t, [], st)
  | .motionTask entity_id speed bearing _ =>
    .ok (t, [.motionAction entity_id speed bearing 20], st)
  | .stateChangeTask entity_id state_name _ =>
    match st.get_entity entity_id with
    | none => .ok (t, [], st)
    | some e =>
      if e.features.stateful = none then .ok (t, [], st)
      else
        let st := st.setEntity entity_id (e.withStateName state_name)
        .ok (t, [.actorUpdateAction entity_id state_name], st)
  | .useItemTask performer_id item_id receiver_id hand _ _ =>
    match st.get_entity performer_id, st.get_entity item_id with
    | some _, some item =>
      let claims := item.features.delivery_claims
      let receiver_id' :=
        match receiver_id with
        | some r => r
        | none => performer_id
      let t := Task.useItemTask performer_id item_id (some receiver_id') hand none []
      match st.get_entity receiver_id' with
      | none => .ok (t, [], st)
      | some receiver =>
        match receiver.features.get_first_absorbed claims with
        | none => .ok (t, [], st)
        | some .pain =>
          .ok (.useItemTask performer_id item_id (some receiver_id') hand
            (some (.damageJob performer_id receiver_id' item_id hand
              [.finished performer_id])) [], [], st)
        | some .food =>
          .ok (.useItemTask performer_id item_id (some receiver_id') hand
            (some (.eatJob performer_id hand item_id [.finished performer_id]))
            [.eatEndAction performer_id],
            [.eatBeginAction performer_id], st)
        | some .cargo => .ok (t, [], st)
        | some .harvest => .ok (t, [], st)
    | _, _ => .ok (t, [], st)
  | .walkTask entity_id speed bearing duration =>
    .ok (t, [.motionAction entity_id speed bearing duration], st)

/-- Embedding of the per-class `finish` methods of tasks.py. The
`HarvestTask.finish` branch with a non-`None` job calls
`self.job.is_complete()`; the `Job` class of essentials.py defines no
`is_complete` method, so the call raises `AttributeError` and the
`_finish_complete` path below it is unreachable. -/
def taskFinish (now : ℚ) (t : Task) (st : GState) :
    Except PyErr (List Action × GState) :=
  match t with
  | .empty => .ok ([], st)
  | .idle _ => .ok ([], st)
  | .craftTask crafter_id assembly _ =>
    match st.get_entity crafter_id with
    | none => .ok ([.craftEndAction crafter_id], st)
    | some crafter =>
      match crafter.features.inventory with
      | none => .ok ([.craftEndAction crafter_id], st)
      | some inv => do
        let (craft_result, st, inv) ← st.craft_entity assembly inv
        let st := st.updateInv crafter_id inv
        .ok ([.actorCreationAction craft_result.created,
              .actorDeletionAction craft_result.deleted,
              .inventoryUpdateAction crafter_id inv,
              .craftEndAction crafter_id], st)
  | .dieAndDrop _ _ => .ok ([], st)
  | .growTask _ _ _ => .ok ([], st)
  | .harvestTask _ _ _ job =>
    match job with
    | some _ => .error (.attributeError "is_complete")
    | none => .ok ([], st)
  | .inventoryUpdateTask performer_id hand inventory_index update_variant =>
    match st.get_entity performer_id with
    | none => .ok ([], st)
    | some performer =>
      match performer.features.inventory with
      | none => .ok ([], st)
      | some inv =>
        match update_variant with
        | .swap =>
          let inv := inv.swap hand inventory_index
          let st := st.updateInv performer_id inv
          .ok ([.inventoryUpdateAction performer_id inv], st)
        | .merge => do
          let (st, inv) ← st.merge_entities inv hand inventory_index
          let st := st.updateInv performer_id inv
          .ok ([.inventoryUpdateAction performer_id inv], st)
  | .motionTask entity_id speed bearing job =>
    match st.get_entity entity_id with
    | none => .error .assertionError
    | some e =>
      let interval := now - jobPrevCallTime job
      let e := e.move_by st (speed * interval) bearing st.get_radius
      let st := st.setEntity entity_id e
      match e.position with
      | none => .error .assertionError
      | some position => .ok ([.localizationAction entity_id position], st)
  | .stateChangeTask _ _ _ => .ok ([], st)
  | .useItemTask _ _ _ _ _ finish_actions => .ok (finish_actions, st)
  | .walkTask entity_id _ _ _ =>
    match st.get_entity entity_id with
    | none => .error .assertionError
    | some e =>
      match e.position with
      | none => .error .assertionError
      | some position => .ok ([.localizationAction entity_id position], st)

/-! Scheduler (executor.py) and engine (engine.py). -/

/-- Scheduler payload: `Engine.run` receives either a looped-back event
or a job. -/
inductive Trigger where
  | ev (e : Event)
  | job (j : Job)
deriving DecidableEq, Repr

/-- Scheduler entry from executor.py (`class Event` there): firing moment,
owning handle and payload. -/
structure SchedEntry where
  moment : ℚ
  handle : Option Int
  trigger : Trigger
deriving DecidableEq, Repr

/-- Scheduler queue. The heap is embedded as a plain list of entries (the
claims under verification concern membership and counts, not pop
order). -/
def Sched := List SchedEntry

instance : DecidableEq Sched := by
  unfold Sched
  infer_instance

/-- Embedding of `Scheduler.enter`: pushes `(now + delay, handle,
payload)`. -/
def Sched.enter (S : Sched) (handle : Option Int) (delay : ℚ) (trigger : Trigger)
    (now : ℚ) : Sched :=
  List.append S [⟨now + delay, handle, trigger⟩]

/-- Embedding of `Scheduler.cancel`: removes every entry whose handle
equals the given one (entries with handle `None` are kept). -/
def Sched.cancel (S : Sched) (handle : Int) : Sched :=
  List.filter (fun e => e.handle ≠ some handle) S

/-- Task `self.job` slot as stored data, for the write-back of in-place
job mutation (see `writeBackJob`). `DieAndDropTask` initialises the slot
with its `DieJob` in the constructor; `WalkTask` and
`InventoryUpdateTask` leave it `None`. -/
def Task.storedJob : Task → Option Job
  | .craftTask _ _ j => j
  | .dieAndDrop dier_id _ => some (.dieJob dier_id)
  | .growTask _ _ j => j
  | .harvestTask _ _ _ j => j
  | .motionTask _ _ _ j => some j
  | .stateChangeTask _ _ j => some j
  | .useItemTask _ _ _ _ j _ => j
  | _ => none

/-- Overwrites the stored `self.job` slot of a task. -/
def Task.setStoredJob : Task → Job → Task
  | .craftTask a b _, j => .craftTask a b (some j)
  | .growTask a b _, j => .growTask a b (some j)
  | .harvestTask a b c _, j => .harvestTask a b c (some j)
  | .motionTask a b c _, j => .motionTask a b c j
  | .stateChangeTask a b _, j => .stateChangeTask a b j
  | .useItemTask a b c d _ f, j => .useItemTask a b c d (some j) f
  | t, _ => t

/-- Embedding of in-place mutation of a fired job object. In Python the
scheduled payload and the owning task's `self.job` are the same object,
so a mutation during `execute` (the `WaitJob` chain shift, the
`_prev_call_time` refresh) is visible through the task. The embedding
writes the mutated value back into the task stored under the firing
handle, guarded by value equality with the pre-execution job (the
surrogate for object identity). -/
def writeBackJob (st : GState) (handle : Option Int) (jOld jNew : Job) : GState :=
  match handle with
  | none => st
  | some h =>
    match st.get_entity h with
    | none => st
    | some e =>
      if e.task.storedJob = some jOld then
        st.setEntity h (e.withTask (e.task.setStoredJob jNew))
      else st

/-- Embedding of `Engine._handle_job` (engine.py lines 61-71): perform the
job, broadcast its actions, loop its events back into the scheduler with
handle `None` and delay 0, and re-enter the job under the same handle if
it requests repetition. -/
def stepJob (now : ℚ) (st : GState) (S : Sched) (handle : Option Int) (job : Job) :
    Except PyErr (GState × Sched × List Action) := do
  let (job', result, st) ← jobPerform now job st
  let st := writeBackJob st handle job job'
  let S := result.events.foldl (fun S e => S.enter none 0 (.ev e) now) S
  let S :=
    match result.repeat_after with
    | some r => S.enter handle r (.job job') now
    | none => S
  .ok (st, S, result.actions)

/-- Embedding of `Engine._handle_event` (engine.py lines 73-96): look up
the receiver (drop silently if missing), let the entity handle the event,
and if the task object changed, broadcast the old task's finish actions,
then the new task's start actions, then cancel the entity's scheduled
entries and enter the new task's job at its start delay. -/
def stepEvent (now rnd : ℚ) (st : GState) (S : Sched) (ev : Event) :
    Except PyErr (GState × Sched × List Action) := do
  match st.get_entity ev.get_receiver_id with
  | none => .ok (st, S, [])
  | some entity =>
    let old_task := entity.task
    let (entity, replaced) ← handleEventEntity now rnd entity ev
    let st := st.setEntity ev.get_receiver_id entity
    if replaced then do
      let (finish_actions, st) ← taskFinish now old_task st
      let (new_task, start_actions, st) ← taskStart entity.task st
      let st := st.setEntity ev.get_receiver_id
        ((st.get_entity ev.get_receiver_id).getD entity |>.withTask new_task)
      let next_job := taskGetJob now new_task
      let S := S.cancel entity.get_id
      let S :=
        match next_job with
        | some job => S.enter (some entity.get_id) job.get_start_delay (.job job) now
        | none => S
      .ok (st, S, finish_actions ++ start_actions)
    else .ok (st, S, [])

/-- Embedding of `Engine.run` (engine.py lines 19-26): dispatches on the
payload kind. -/
def engineRun (now rnd : ℚ) (st : GState) (S : Sched) (handle : Option Int)
    (trigger : Trigger) : Except PyErr (GState × Sched × List Action) :=
  match trigger with
  | .job j => stepJob now st S handle j
  | .ev e => stepEvent now rnd st S e

/-- Embedding of `Engine.handle_event` (engine.py lines 28-29). -/
def engineHandleEvent (now rnd : ℚ) (st : GState) (S : Sched) (ev : Event) :
    Except PyErr (GState × Sched × List Action) :=
  engineRun now rnd st S none (.ev ev)

/-! Lemma kit for the entity dictionary. -/

namespace GState

theorem get_entity_eq_find (st : GState) (id : Int) :
    st.get_entity id = (st.entities.find? (fun p => p.1 = id)).map (·.2) := rfl

theorem find?_key_map_set (l : List (Int × Entity)) (k k2 : Int) (e : Entity)
    (h : k2 ≠ k) :
    (l.map (fun p => if p.1 = k then (k, e) else p)).find? (fun p => p.1 = k2) =
      l.find? (fun p => p.1 = k2) := by
  induction l with
  | nil => simp
  | cons a l ih =>
    by_cases hk : a.1 = k
    · simp only [List.map_cons, List.find?_cons, hk, if_pos]
      have h2 : ((k, e).1 = k2) = False := by simp [Ne.symm h]
      have h3 : (a.1 = k2) = False := by simp [hk, Ne.symm h]
      simp [h2, h3, ih]
    · simp only [List.map_cons, List.find?_cons, hk, if_neg, ih]
      by_cases h4 : a.1 = k2 <;> simp [h4, ih]

theorem find?_key_append (l1 l2 : List (Int × Entity)) (k : Int) :
    (l1 ++ l2).find? (fun p => p.1 = k) =
      ((l1.find? (fun p => p.1 = k)).orElse (fun _ => l2.find? (fun p => p.1 = k))) := by
  induction l1 with
  | nil => simp
  | cons a l ih =>
    by_cases h : a.1 = k <;> simp [List.find?_cons, h, ih, Option.orElse]

theorem find?_set_present (l : List (Int × Entity)) (k : Int) (e : Entity)
    (h : ∃ q ∈ l, q.1 = k) :
    (l.map (fun p => if p.1 = k then (k, e) else p)).find? (fun p => p.1 = k) =
      some (k, e) := by
  induction l with
  | nil => simp at h
  | cons a l ih =>
    by_cases hak : a.1 = k
    · simp [List.find?_cons, hak]
    · obtain ⟨q, hq, hqk⟩ := h
      rcases List.mem_cons.mp hq with h1 | h1
      · exact absurd (h1 ▸ hqk) hak
      · rw [List.map_cons, if_neg hak, List.find?_cons_of_neg _ (by simpa using hak)]
        exact ih ⟨q, h1, hqk⟩

theorem find?_key_eq_none (l : List (Int × Entity)) (k : Int)
    (h : l.any (fun p => p.1 = k) = false) :
    l.find? (fun p => p.1 = k) = none := by
  rw [List.find?_eq_none]
  intro p hp
  simp only [decide_eq_true_eq]
  intro hpk
  have : l.any (fun p => p.1 = k) = true :=
    List.any_eq_true.mpr ⟨p, hp, by simp [hpk]⟩
  rw [this] at h
  exact Bool.true_eq_false.mp h

theorem get_setEntity_self (st : GState) (k : Int) (e : Entity) :
    (st.setEntity k e).get_entity k = some e := by
  unfold setEntity get_entity
  by_cases h : st.entities.any (fun p => p.1 = k) = true
  · rw [if_pos h]
    obtain ⟨p, hp, hpk⟩ := List.any_eq_true.mp h
    have : (st.entities.map (fun p => if p.1 = k then (k, e) else p)).find?
        (fun p => p.1 = k) = some (k, e) :=
      find?_set_present _ _ _ ⟨p, hp, by simpa using hpk⟩
    simp [this]
  · rw [if_neg h]
    dsimp only
    rw [find?_key_append, find?_key_eq_none _ _ (Bool.not_eq_true _ ▸ eq_false_of_ne_true h)]
    simp [Option.orElse]

theorem get_setEntity_ne (st : GState) (k k2 : Int) (e : Entity) (h : k2 ≠ k) :
    (st.setEntity k e).get_entity k2 = st.get_entity k2 := by
  unfold setEntity get_entity
  by_cases hany : st.entities.any (fun p => p.1 = k) = true
  · rw [if_pos hany]
    rw [find?_key_map_set _ _ _ _ h]
  · rw [if_neg hany]
    dsimp only
    rw [find?_key_append]
    have h2 : (decide (((k, e) : Int × Entity).1 = k2)) = false := by
      simp [Ne.symm h]
    cases hfind : st.entities.find? (fun p => p.1 = k2) <;>
      simp [hfind, Option.orElse, h2]

theorem any_key_eq_isSome (st : GState) (id : Int) :
    (st.entities.any (fun p => p.1 = id)) = (st.get_entity id).isSome := by
  unfold get_entity
  induction st.entities with
  | nil => simp
  | cons a l ih =>
    by_cases h : a.1 = id <;> simp [List.find?_cons, h, ih]

theorem delete_entity_of_present (st : GState) (id : Int)
    (h : (st.get_entity id).isSome = true) :
    st.delete_entity id =
      .ok { st with entities := st.entities.filter (fun p => p.1 ≠ id) } := by
  unfold delete_entity
  rw [any_key_eq_isSome, h]
  simp

theorem get_delete_self (st : GState) (id : Int) :
    ({ st with entities := st.entities.filter (fun p => p.1 ≠ id) } :
      GState).get_entity id = none := by
  unfold get_entity
  have hf : (st.entities.filter (fun p => p.1 ≠ id)).find? (fun p => p.1 = id) = none := by
    rw [List.find?_eq_none]
    intro p hp
    have := (List.mem_filter.mp hp).2
    simpa using this
  simp [hf]

theorem find?_filter_key_ne (l : List (Int × Entity)) (id k : Int) (h : k ≠ id) :
    (l.filter (fun p => p.1 ≠ id)).find? (fun p => p.1 = k) =
      l.find? (fun p => p.1 = k) := by
  induction l with
  | nil => simp
  | cons a l ih =>
    by_cases ha : a.1 = id
    · rw [List.filter_cons_of_neg (by simpa using ha),
        List.find?_cons_of_neg _ (by simp [ha, Ne.symm h]), ih]
    · rw [List.filter_cons_of_pos (by simpa using ha)]
      by_cases hk : a.1 = k
      · rw [List.find?_cons_of_pos _ (by simpa using hk),
          List.find?_cons_of_pos _ (by simpa using hk)]
      · rw [List.find?_cons_of_neg _ (by simpa using hk),
          List.find?_cons_of_neg _ (by simpa using hk), ih]

theorem get_delete_ne (st : GState) (id k : Int) (h : k ≠ id) :
    ({ st with entities := st.entities.filter (fun p => p.1 ≠ id) } :
      GState).get_entity k = st.get_entity k := by
  unfold get_entity
  rw [find?_filter_key_ne _ _ _ h]

end GState

/-! Concrete worlds used by closed theorems. The distance oracle
`constDist q` stands for a geometry in which the two relevant points lie
at great-circle distance `q`; `flatMoved` is a movement oracle. -/

/-- Constant distance oracle. -/
def constDist (q : ℚ) : Point → Point → ℚ := fun _ _ => q

/-- Identity movement oracle. -/
def flatMoved : Point → ℚ → ℚ → ℚ → Point := fun p _ _ _ => p

/-- World with a hero (id 1) and a rocks entity (id 2) half a unit away:
the pick-in-range scenario of the repository's own test
(`HeroTest.test_picking`). -/
def pickWorld : GState :=
  { entities := [(1, mkPirate 1 (some ⟨0, 0⟩)), (2, mkRocks 2 (some ⟨1/100, 1/100⟩))],
    radius := 100, dist := constDist (1/2), moved := flatMoved, next_id := 100 }

/-- Hero of `pickWorld` after its `HarvestTask` was started on the
in-range rocks: the task's `self.job` slot holds the wait job built by
`HarvestTask.start`. -/
def harvestingPirate : Entity :=
  (mkPirate 1 (some ⟨0, 0⟩)).withTask
    (.harvestTask 1 (some 2) .right (some (.waitJob 1 [.finished 1] [])))

/-- World in which the hero is in the middle of picking up the rocks. -/
def midPickWorld : GState :=
  { entities := [(1, harvestingPirate), (2, mkRocks 2 (some ⟨1/100, 1/100⟩))],
    radius := 100, dist := constDist (1/2), moved := flatMoved, next_id := 100 }

/-- Hero of `pickWorld` while walking (current task a `MotionTask`, as
after a motion-start move). -/
def movingPirate : Entity :=
  (mkPirate 1 (some ⟨0, 0⟩)).withTask
    (.motionTask 1 1 0 (.motionJob 1 1 0 20 [] 0 0))

/-! Claim theorems. -/

/-- C3. The spec claims `min_amount ≤ current_amount ≤ max_amount` after
any grow or harvest. Harvest violates it: with the BerryBush configuration
(current 9, min 5, max 20, grow 1, pick 10 from entities.py),
`HarvestableFeature.harvest` stores `max 0 (current - pick) = 0`, below
`min_amount = 5` — even though the harvested yield `4` was computed as if
the amount could only drop to `min_amount`. -/
theorem C3_harvest_breaks_min_bound :
    let h : HarvestableFeature := ⟨9, 5, 20, 1, 10⟩
    h.min_amount ≤ h.current_amount ∧ h.current_amount ≤ h.max_amount ∧
      (h.harvest).1 = 4 ∧
      (h.harvest).2.current_amount = 0 ∧
      ¬ h.min_amount ≤ (h.harvest).2.current_amount := by
  refine ⟨by decide, by decide, by decide, by decide, by decide⟩

/-- C2. In `pickWorld` the rocks entity delivers claim CARGO (its
constructor calls `set_inventorable`) and lies at distance 1/2 ≤ 1 from
the hero, yet `find_closest_delivering_within` returns nothing: the
membership test in `Features.deliver` compares the whole claim list
against each delivery claim (`claim in self._delivery_claims` instead of
`c in ...`), so `deliver` is constantly false and no entity is ever
considered (moreover the `max_distance` argument is never read; the scan
caps at `100 * radius`). -/
theorem C2_find_closest_returns_none_despite_in_range_deliverer :
    (pickWorld.get_entity 2).map (fun e => e.features.delivery_claims) =
        some [Claim.cargo] ∧
      pickWorld.calculate_distance (mkPirate 1 (some ⟨0, 0⟩))
        (mkRocks 2 (some ⟨1/100, 1/100⟩)) = some (1/2) ∧
      ((1 : ℚ)/2) ≤ 1 ∧
      pickWorld.find_closest_delivering_within 1 [Claim.cargo, Claim.harvest] 1 = none := by
  refine ⟨rfl, rfl, by norm_num, rfl⟩

/-- C9. The event produced from a client's stop move is `StopEvent`
(events.py: `_EVENT_CONSTRUCTORS` maps `StopMove` to `StopEvent`), but
`Pirate.handle_event` matches only the distinct `MotionStopEvent` class;
delivering the stop event to a moving hero therefore leaves its task
unchanged (a `MotionTask`, not the `IdleTask` the spec's transition table
demands) — contradicting the repository's own test `test_movement`, which
expects the stop event to supersede the motion task. -/
theorem C9_stop_move_does_not_idle_the_hero :
    event_from_move .stopMove 1 = .stop 1 ∧
      handleEventEntity 0 0 movingPirate (.stop 1) = .ok (movingPirate, false) ∧
      movingPirate.task = .motionTask 1 1 0 (.motionJob 1 1 0 20 [] 0 0) := by
  refine ⟨rfl, rfl, rfl⟩

/-- C4. `HarvestTask.start` on an in-range target stores as its driving
job the value returned by `and_then`, which is the freshly appended tail
(`WaitJob.and_then` returns `self.next`): a single wait of
HARVEST_DURATION = 1 second firing only `FinishedEvent(who)`. The
immediate `PickStartEvent(what, who)` stage of the claim is lost with the
discarded head, and the job's start delay is 1, not 0. -/
theorem C4_harvest_job_is_single_stage :
    taskStart (.harvestTask 1 (some 2) .right none) pickWorld =
        .ok (.harvestTask 1 (some 2) .right
            (some (.waitJob HARVEST_DURATION [.finished 1] [])),
          [.pickBeginAction 1 2], pickWorld) ∧
      (Job.waitJob HARVEST_DURATION [.finished 1] []).get_start_delay = 1 := by
  constructor
  · simp only [taskStart]
    norm_num [pickWorld, GState.get_entity, mkPirate, mkRocks, GState.calculate_distance,
      HARVEST_MAX_DISTANCE, HARVEST_DURATION, Job.and_then, Entity.features, kindFeatures,
      Features.base, Features.set_inventorable, Features.set_stackable, Features.withStoredBy,
      Features.set_inventory, Features.set_eater, constDist]
  · rfl

/-- C1. Engine steps are not exception-free: handling the
`FinishedEvent` that ends a pick (looped back by the harvest wait job)
replaces the hero's `HarvestTask` with an `IdleTask`, and the engine then
calls `HarvestTask.finish`, which evaluates `self.job.is_complete()`; the
`Job` class of essentials.py defines no `is_complete` method, so an
`AttributeError` escapes `Engine._handle_event`. -/
theorem C1_engine_step_raises_attribute_error :
    engineHandleEvent 0 0 midPickWorld [] (.finished 1) =
      .error (.attributeError "is_complete") := rfl

/-- C10. `EaterFeature.absorb` returns `True` unconditionally and adds
the nutrients' hunger to `hunger_value` with no clamp at `max_capacity`;
consequently `EatJob.execute`, when it finds the eater (with eater and
inventory features) and the food (with an edible feature), always
succeeds: the food entity is deleted from the state, the eating hand is
cleared, and the reported hunger is the exact unclamped sum. -/
theorem C10_eat_always_succeeds_and_hunger_unclamped :
    (∀ (ef : EaterFeature) (n : Nutrients),
        (ef.absorb n).1 = true ∧
        (ef.absorb n).2.hunger_value = ef.hunger_value + n.hunger) ∧
    (∀ (now : ℚ) (st : GState) (eid fid : Int) (hand : Hand) (fins : List Event)
        (eater food : Entity) (ef : EaterFeature) (einv : Inventory) (ed : EdibleFeature),
      st.get_entity eid = some eater →
      eater.features.eater = some ef →
      eater.features.inventory = some einv →
      st.get_entity fid = some food →
      food.features.edible = some ed →
      fid ≠ eid →
      ∃ st',
        jobExecute now (.eatJob eid hand fid fins) st =
          .ok (.eatJob eid hand fid fins,
            ⟨[], [.inventoryUpdateAction eater.get_id (einv.store_entry hand none),
                  .actorDeletionAction [fid],
                  .statUpdateAction eater.get_id
                    ⟨ef.hunger_value + ed.nutrients.hunger * food.features.get_quantity,
                      ef.max_capacity⟩], none⟩, st') ∧
        st'.get_entity fid = none ∧
        st'.get_entity eid = some
          ((eater.withHunger
              (ef.hunger_value + ed.nutrients.hunger * food.features.get_quantity)).withInv
            (einv.store_entry hand none))) := by
  constructor
  · intro ef n
    exact ⟨rfl, rfl⟩
  · intro now st eid fid hand fins eater food ef einv ed h1 h2 h3 h4 h5 h6
    have hq : ed.nutrients.mul food.features.get_quantity =
        ⟨ed.nutrients.hunger * food.features.get_quantity⟩ := rfl
    set e1 := eater.withHunger
      (ef.hunger_value + ed.nutrients.hunger * food.features.get_quantity) with he1
    set e2 := e1.withInv (einv.store_entry hand none) with he2
    have hwi : e1.withInv (einv.store_entry hand none) = e2 := rfl
    have hfid1 : ((st.setEntity eid e1).setEntity eid e2).get_entity fid = some food := by
      rw [GState.get_setEntity_ne _ _ _ _ h6, GState.get_setEntity_ne _ _ _ _ h6, h4]
    have hdel : ((st.setEntity eid e1).setEntity eid e2).delete_entity fid =
        .ok { (st.setEntity eid e1).setEntity eid e2 with
          entities := (((st.setEntity eid e1).setEntity eid e2).entities.filter
            (fun p => p.1 ≠ fid)) } :=
      GState.delete_entity_of_present _ _ (by rw [hfid1]; rfl)
    refine ⟨{ (st.setEntity eid e1).setEntity eid e2 with
      entities := (((st.setEntity eid e1).setEntity eid e2).entities.filter
        (fun p => p.1 ≠ fid)) }, ?_, ?_, ?_⟩
    · simp only [jobExecute, h1, h2, h3, h4, h5, hq, EaterFeature.absorb, not_true,
        Bool.not_true, Bool.false_eq_true, if_false, hdel]
      rfl
    · exact GState.get_delete_self _ _
    · rw [GState.get_delete_ne _ _ _ (Ne.symm h6), GState.get_setEntity_self]

/-- C10 witness: a hero with hunger 99 eating a stack of two raw-meat
portions (nutrients 50 each) ends with hunger 199, beyond the
max-capacity 100. -/
theorem C10_witness :
    let eater := (mkPirate 1 none).withHunger 99
    let food := (mkRawMeat 2 none).withStack 2
    let st : GState := ⟨[(1, eater), (2, food)], 100, constDist 1, flatMoved, 50⟩
    ∃ st',
      jobExecute 0 (.eatJob 1 .right 2 [.finished 1]) st =
        .ok (.eatJob 1 .right 2 [.finished 1],
          ⟨[], [.inventoryUpdateAction 1 (Inventory.mk none none []),
                .actorDeletionAction [2],
                .statUpdateAction 1 ⟨199, 100⟩], none⟩, st') ∧
      st'.get_entity 2 = none ∧
      st'.get_entity 1 = some
        ((((mkPirate 1 none).withHunger 99).withHunger 199).withInv
          (Inventory.mk none none [])) := by
  intro eater food st
  have h := (C10_eat_always_succeeds_and_hunger_unclamped.2) 0 st 1 2 .right
    [.finished 1] eater food ⟨100, 99⟩ ⟨none, none, []⟩ ⟨⟨50⟩⟩
    rfl rfl rfl rfl rfl (by decide)
  norm_num [eater, food, mkPirate, mkRawMeat, Entity.get_id, Entity.features, kindFeatures,
    Features.get_quantity, Inventory.store_entry, Entity.withStack, Entity.withHunger,
    FState.base, Features.base, Features.set_edible, Features.set_inventorable,
    Features.set_stackable, Features.withStoredBy, StackableFeature.get_size] at h
  exact h

/-- C6. Characterisation of a completed task transition of
`Engine._handle_event`: when the entity replaces its task object and both
lifecycle calls succeed, the broadcast log of the step is exactly the
superseded task's finish actions followed by the new task's start actions
(every finish action strictly before every start action, nothing
interleaved), and the resulting scheduler is obtained by first cancelling
all entries under the entity's handle and only then entering the new
task's job (so the enter acts on the already-cancelled queue). -/
theorem C6_finish_before_start_and_cancel_before_enter
    (now rnd : ℚ) (st : GState) (S : Sched) (ev : Event) (e e2 : Entity)
    (fA sA : List Action) (st1 st2 : GState) (t2 : Task)
    (h1 : st.get_entity ev.get_receiver_id = some e)
    (h2 : handleEventEntity now rnd e ev = .ok (e2, true))
    (h3 : taskFinish now e.task (st.setEntity ev.get_receiver_id e2) = .ok (fA, st1))
    (h4 : taskStart e2.task st1 = .ok (t2, sA, st2)) :
    stepEvent now rnd st S ev =
      .ok (st2.setEntity ev.get_receiver_id
          (((st2.get_entity ev.get_receiver_id).getD e2).withTask t2),
        (match taskGetJob now t2 with
         | some job =>
           (S.cancel e2.get_id).enter (some e2.get_id) job.get_start_delay (.job job) now
         | none => S.cancel e2.get_id),
        fA ++ sA) := by
  simp only [stepEvent, h1, h2, h3, h4, bind, Except.bind, if_true]

/-- World for the C6 witness: a lone hero. -/
def resumeWorld : GState :=
  ⟨[(1, mkPirate 1 (some ⟨0, 0⟩))], 100, constDist 1, flatMoved, 50⟩

/-- Hero of `resumeWorld` after handling the resume event. -/
def idleHero : Entity := (mkPirate 1 (some ⟨0, 0⟩)).withTask (.idle 1)

/-- C6 witness: the resume event replaces the hero's `EmptyTask` with an
`IdleTask`; the broadcast log is the (empty) finish actions followed by
the idle action, and the scheduler is the cancelled (empty) queue since
the idle task has no job. -/
theorem C6_witness :
    stepEvent 0 0 resumeWorld [] (.resume 1) =
      .ok ((resumeWorld.setEntity 1 idleHero).setEntity 1 idleHero, [],
        [.idleAction 1]) := by
  have h := C6_finish_before_start_and_cancel_before_enter 0 0 resumeWorld [] (.resume 1)
    (mkPirate 1 (some ⟨0, 0⟩)) idleHero [] [.idleAction 1]
    (resumeWorld.setEntity 1 idleHero) (resumeWorld.setEntity 1 idleHero) (.idle 1)
    rfl rfl rfl rfl
  simpa [taskGetJob, Sched.cancel, idleHero, GState.get_setEntity_self,
    Entity.withTask] using h

/-- Writing the mutable stack slot of an entity that has a stackable
feature yields that stack size in its feature bundle (the feature shape
is fixed by the constructor, only the size changes). -/
theorem Entity.features_stackable_withStack (e : Entity) (s : StackableFeature) (n : Int)
    (h : e.features.stackable = some s) :
    (e.withStack n).features.stackable = some ⟨n⟩ := by
  obtain ⟨id, k, t, pos, fs⟩ := e
  cases k <;>
    simp_all [Entity.features, kindFeatures, Entity.withStack, Features.withStoredBy,
      Features.base, Features.set_inventorable, Features.set_stackable, Features.set_edible,
      Features.set_tool_or_weapon, Features.set_performer, Features.set_stateful,
      Features.set_damageable, Features.set_harvestable, Features.set_inventory,
      Features.set_eater]

/-- C8. Merge conservation: when all of `merge_entities`' preconditions
hold (both entries exist, both referenced entities exist and are distinct,
both stackable and inventorable; the entry kinds always agree, see
`GState.merge_entities`), the total stack count is conserved — the new
target size plus the new source size equals the sum of the old sizes, the
source entity being deleted exactly when its new size is zero. -/
theorem C8_merge_conserves_stack (st : GState) (inv : Inventory) (hand : Hand) (idx : Nat)
    (se te : EntityInfo) (sEnt tEnt : Entity) (ss ts : StackableFeature)
    (siv tiv : InventorableFeature)
    (h1 : inv.get_hand_entry hand = some se)
    (h2 : inv.get_pocket_entry idx = some te)
    (h3 : st.get_entity se.id = some sEnt)
    (h4 : st.get_entity te.id = some tEnt)
    (h5 : sEnt.features.stackable = some ss)
    (h6 : tEnt.features.stackable = some ts)
    (h7 : sEnt.features.inventorable = some siv)
    (h8 : tEnt.features.inventorable = some tiv)
    (h9 : se.id ≠ te.id) :
    ∃ st' inv', st.merge_entities inv hand idx = .ok (st', inv') ∧
      ∃ ts' : StackableFeature,
        (st'.get_entity te.id).bind (fun e => e.features.stackable) = some ts' ∧
        ((st'.get_entity se.id = none ∧ 0 + ts'.get_size = ss.get_size + ts.get_size) ∨
         (∃ ss' : StackableFeature,
           (st'.get_entity se.id).bind (fun e => e.features.stackable) = some ss' ∧
           0 < ss'.get_size ∧ ss'.get_size + ts'.get_size = ss.get_size + ts.get_size)) := by
  have hmin : min (te.calc_max_quantity_for_item_volume siv.volume)
      (ss.get_size + ts.get_size) ≤ ss.get_size + ts.get_size := min_le_right _ _
  set maxT := te.calc_max_quantity_for_item_volume siv.volume with hmaxT
  set comb := ss.get_size + ts.get_size with hcomb
  set newT := min maxT comb with hnewT
  set newS := comb - newT with hnewS
  have htgt : ((st.setEntity te.id
      (tEnt.withStack (ts.set_size newT).stack_size)).get_entity te.id).bind
        (fun e => e.features.stackable) = some ⟨newT⟩ := by
    rw [GState.get_setEntity_self]
    simpa using Entity.features_stackable_withStack tEnt ts _ h6
  set st1 := st.setEntity te.id (tEnt.withStack (ts.set_size newT).stack_size) with hst1
  set inv1 := inv.setPocket idx (some (te.set_quantity newT)) with hinv1
  by_cases hpos : newS > 0
  · refine ⟨st1.setEntity se.id (sEnt.withStack (ss.set_size newS).stack_size),
      inv1.store_entry hand (some (se.set_quantity newS)), ?_, ⟨newT⟩, ?_, ?_⟩
    · simp only [GState.merge_entities, h1, h2, h3, h4, h5, h6, h7, h8]
      rw [if_pos hpos]
    · rw [GState.get_setEntity_ne _ _ _ _ (Ne.symm h9)]
      exact htgt
    · refine Or.inr ⟨⟨newS⟩, ?_, hpos, by simp only [StackableFeature.get_size]; omega⟩
      rw [GState.get_setEntity_self]
      simpa using Entity.features_stackable_withStack sEnt ss _ h5
  · have hpres : ((st1.get_entity se.id)).isSome = true := by
      rw [hst1, GState.get_setEntity_ne _ _ _ _ h9, h3]
      rfl
    refine ⟨{ st1 with entities := st1.entities.filter (fun p => p.1 ≠ se.id) },
      inv1.remove_with_entity_id se.id, ?_, ⟨newT⟩, ?_, ?_⟩
    · simp only [GState.merge_entities, h1, h2, h3, h4, h5, h6, h7, h8]
      rw [if_neg hpos, GState.delete_entity_of_present _ _ hpres]
      rfl
    · rw [GState.get_delete_ne _ _ _ (Ne.symm h9)]
      exact htgt
    · refine Or.inl ⟨GState.get_delete_self _ _, ?_⟩
      simp only [StackableFeature.get_size]
      omega

/-- C8 witness: the scenario of the repository's own
`test_merge_entities_not_fit`: two rock stacks of four, pocket capacity
25 / 5 = 5, merge to sizes 3 and 5 — total 8 conserved. -/
theorem C8_witness :
    let info1 : EntityInfo := ⟨1, .rocks, 4, 5, 25, "rocks"⟩
    let info2 : EntityInfo := ⟨2, .rocks, 4, 5, 25, "rocks"⟩
    let inv : Inventory := ⟨some info1, none, [none, none, some info2]⟩
    let rock1 := (mkRocks 1 none).withStack 4
    let rock2 := (mkRocks 2 none).withStack 4
    let st : GState := ⟨[(1, rock1), (2, rock2)], 100, constDist 1, flatMoved, 50⟩
    ∃ st' inv', st.merge_entities inv .left 2 = .ok (st', inv') ∧
      ∃ ts' : StackableFeature,
        (st'.get_entity 2).bind (fun e => e.features.stackable) = some ts' ∧
        ((st'.get_entity 1 = none ∧ 0 + ts'.get_size = 4 + 4) ∨
         (∃ ss' : StackableFeature,
           (st'.get_entity 1).bind (fun e => e.features.stackable) = some ss' ∧
           0 < ss'.get_size ∧ ss'.get_size + ts'.get_size = 4 + 4)) := by
  intro info1 info2 inv rock1 rock2 st
  have h := C8_merge_conserves_stack st inv .left 2 info1 info2 rock1 rock2
    ⟨4⟩ ⟨4⟩ ⟨5, none⟩ ⟨5, none⟩ rfl rfl rfl rfl rfl rfl rfl rfl (by decide)
  simpa using h

/-! Support for the crafting claim. -/

/-- Stock of an entity as seen from the state: its stack size if
stackable, 1 if present but not stackable, 0 if absent. -/
def GState.stockOf (st : GState) (id : Int) : Int :=
  match st.get_entity id with
  | none => 0
  | some e =>
    match e.features.stackable with
    | some s => s.get_size
    | none => 1

/-- Freshness discipline of the id cursor (see module comment): the
cursor is non-negative and strictly above every present id. -/
def GState.IdBound (st : GState) : Prop :=
  0 ≤ st.next_id ∧ ∀ p ∈ st.entities, p.1 < st.next_id

theorem GState.get_entity_lt_of_IdBound (st : GState) (id : Int) (e : Entity)
    (hb : st.IdBound) (h : st.get_entity id = some e) : id < st.next_id := by
  unfold GState.get_entity at h
  cases hf : st.entities.find? (fun p => p.1 = id) with
  | none => rw [hf] at h; simp at h
  | some p =>
    have hmem := List.mem_of_find?_eq_some hf
    have hkey : p.1 = id := by simpa using List.find?_some hf
    exact hkey ▸ hb.2 p hmem

theorem GState.get_next_id_none (st : GState) (hb : st.IdBound) :
    st.get_entity st.next_id = none := by
  cases h : st.get_entity st.next_id with
  | none => rfl
  | some e => exact absurd (st.get_entity_lt_of_IdBound _ _ hb h) (lt_irrefl _)

theorem filterMap_id_cons_none (l : List (Option EntityInfo)) :
    List.filterMap (fun s => s) ((none : Option EntityInfo) :: l) =
      List.filterMap (fun s => s) l := rfl

theorem filterMap_id_cons_some (e : EntityInfo) (l : List (Option EntityInfo)) :
    List.filterMap (fun s => s) (some e :: l) = e :: List.filterMap (fun s => s) l := rfl

theorem Inventory.clearSlot_none (id : Int) : Inventory.clearSlot id none = none := rfl

theorem Inventory.clearSlot_some_eq (id : Int) (e : EntityInfo) (h : e.id = id) :
    Inventory.clearSlot id (some e) = none := by
  simp [Inventory.clearSlot, h]

theorem Inventory.clearSlot_some_ne (id : Int) (e : EntityInfo) (h : ¬ e.id = id) :
    Inventory.clearSlot id (some e) = some e := by
  simp [Inventory.clearSlot, h]

/-- Clearing slots that reference one entity id leaves the search for a
different id unchanged. -/
theorem Inventory.find?_slots_clear (slots : List (Option EntityInfo)) (id id2 : Int)
    (h : id ≠ id2) :
    ((slots.map (Inventory.clearSlot id2)).filterMap (fun s => s)).find?
        (fun e => e.id = id) =
      (slots.filterMap (fun s => s)).find? (fun e => e.id = id) := by
  induction slots with
  | nil => simp
  | cons a l ih =>
    match a with
    | none =>
      rw [List.map_cons, Inventory.clearSlot_none,
        filterMap_id_cons_none, filterMap_id_cons_none, ih]
    | some e =>
      by_cases he : e.id = id2
      · rw [List.map_cons, Inventory.clearSlot_some_eq _ _ he,
          filterMap_id_cons_none, filterMap_id_cons_some,
          List.find?_cons_of_neg _ (by simp [he, Ne.symm h]), ih]
      · rw [List.map_cons, Inventory.clearSlot_some_ne _ _ he,
          filterMap_id_cons_some, filterMap_id_cons_some]
        by_cases hid : e.id = id
        · rw [List.find?_cons_of_pos _ (by simpa using hid),
            List.find?_cons_of_pos _ (by simpa using hid)]
        · rw [List.find?_cons_of_neg _ (by simpa using hid),
            List.find?_cons_of_neg _ (by simpa using hid), ih]

theorem Inventory.find_remove_ne (inv : Inventory) (id id2 : Int) (h : id ≠ id2) :
    (inv.remove_with_entity_id id2).find_entity_with_entity_id id =
      inv.find_entity_with_entity_id id := by
  unfold Inventory.remove_with_entity_id Inventory.find_entity_with_entity_id
  exact Inventory.find?_slots_clear (inv.left_hand :: inv.right_hand :: inv.pockets) id id2 h

/-- A found inventory entry references the id it was searched by. -/
theorem Inventory.find_entity_id_eq (inv : Inventory) (id : Int) (e : EntityInfo)
    (h : inv.find_entity_with_entity_id id = some e) : e.id = id := by
  unfold Inventory.find_entity_with_entity_id at h
  simpa using List.find?_some h

/-- Storing into a hand makes that hand hold the stored entry. -/
theorem Inventory.get_store_self (inv : Inventory) (hand : Hand)
    (entry : Option EntityInfo) :
    (inv.store_entry hand entry).get_hand_entry hand = entry := by
  cases hand <;> rfl

/-- The id of a materialised drop is the given id. -/
theorem constructDrop_id (k : EntityKind) (id : Int) (p : Option Point) :
    (constructDrop k id p).id = id := by
  cases k <;> rfl

/-- Every element of a flattened list of lists whose outer length matches
another list is covered by the zip of the two. -/
theorem mem_zip_of_mem_flatten {α β : Type _} (l1 : List α) (l2 : List (List β))
    (h : l2.length = l1.length) (b : β) (hb : b ∈ l2.flatten) :
    ∃ a bs, (a, bs) ∈ l1.zip l2 ∧ b ∈ bs := by
  induction l1 generalizing l2 with
  | nil =>
    cases l2 with
    | nil => simp at hb
    | cons x xs => simp at h
  | cons a l1 ih =>
    cases l2 with
    | nil => simp at hb
    | cons bs l2 =>
      simp only [List.flatten_cons, List.mem_append] at hb
      rcases hb with hb | hb
      · exact ⟨a, bs, by simp, hb⟩
      · obtain ⟨a2, bs2, hmem, hb2⟩ := ih l2 (by simpa using h) hb
        exact ⟨a2, bs2, by simp [hmem], hb2⟩

/-- Key consistency of the entity dictionary: every entity is stored under
its own id, as `State.add_entity` guarantees. -/
def GState.KeysOk (st : GState) : Prop := ∀ p ∈ st.entities, (p.2).id = p.1

theorem GState.KeysOk.id_of_get {st : GState} (hk : st.KeysOk) {id : Int} {e : Entity}
    (hge : st.get_entity id = some e) : e.id = id := by
  unfold GState.get_entity at hge
  cases hf : st.entities.find? (fun p => p.1 = id) with
  | none => rw [hf] at hge; simp at hge
  | some p =>
    rw [hf] at hge
    have hkey : p.1 = id := by simpa using List.find?_some hf
    have hmem := List.mem_of_find?_eq_some hf
    have hpid := hk p hmem
    have hp2 : p.2 = e := by simpa using hge
    rw [← hp2, hpid, hkey]

theorem GState.KeysOk.setEntity {st : GState} (hk : st.KeysOk) {k : Int} {e : Entity}
    (he : e.id = k) : (st.setEntity k e).KeysOk := by
  unfold GState.setEntity
  by_cases h : st.entities.any (fun p => p.1 = k) = true
  · rw [if_pos h]
    intro p hp
    obtain ⟨q, hq, hqe⟩ := List.mem_map.mp hp
    by_cases hqk : q.1 = k
    · rw [if_pos hqk] at hqe
      rw [← hqe]
      exact he
    · rw [if_neg hqk] at hqe
      exact hqe ▸ hk q hq
  · rw [if_neg h]
    intro p hp
    rcases List.mem_append.mp hp with hp | hp
    · exact hk p hp
    · simp only [List.mem_singleton] at hp
      rw [hp]
      exact he

theorem GState.KeysOk.deleteFilter {st : GState} (hk : st.KeysOk) (id : Int) :
    ({ st with entities := st.entities.filter (fun p => p.1 ≠ id) } : GState).KeysOk := by
  intro p hp
  exact hk p (List.mem_filter.mp hp).1

/-- Per-source precondition of the consumption loop of `State._craft`,
extracted from a successful validation: the inventory cites the actor, the
actor exists in the state, and its stock covers the cited quantity. -/
def SourceOk (st : GState) (inv : Inventory) (s : Source) : Prop :=
  (inv.find_entity_with_entity_id s.actor_id).isSome = true ∧
  1 ≤ s.quantity ∧
  ∃ e, st.get_entity s.actor_id = some e ∧
    (match e.features.stackable with
     | some sk => s.quantity ≤ sk.get_size
     | none => s.quantity = 1)

theorem GState.stockOf_of_get_none {st : GState} {id : Int}
    (h : st.get_entity id = none) : st.stockOf id = 0 := by
  simp [GState.stockOf, h]

theorem GState.stockOf_of_stack {st : GState} {id : Int} {e : Entity}
    {sk : StackableFeature} (h : st.get_entity id = some e)
    (hs : e.features.stackable = some sk) : st.stockOf id = sk.get_size := by
  simp [GState.stockOf, h, hs]

theorem GState.stockOf_of_no_stack {st : GState} {id : Int} {e : Entity}
    (h : st.get_entity id = some e) (hs : e.features.stackable = none) :
    st.stockOf id = 1 := by
  simp [GState.stockOf, h, hs]

/-- Behaviour of the ingredient-consumption loop of `State._craft` when
every cited source is validated, the sources cite pairwise distinct
actors, and entities sit under their own keys: the loop succeeds, each
cited actor's stock drops by exactly the cited quantity, and everything
else (other entities, other inventory references, the created list) is
untouched. -/
theorem consumeSources_spec (l : List Source) (st : GState) (inv : Inventory)
    (res : CraftResult)
    (hkeys : st.KeysOk)
    (hnodup : (l.map (fun s => s.actor_id)).Nodup)
    (hok : ∀ s ∈ l, SourceOk st inv s) :
    ∃ st' inv' res', GState.consumeSources l st inv res = .ok (st', inv', res') ∧
      (∀ s ∈ l, st'.stockOf s.actor_id = st.stockOf s.actor_id - s.quantity) ∧
      (∀ id : Int, id ∉ l.map (fun s => s.actor_id) →
        st'.get_entity id = st.get_entity id) ∧
      (∀ id : Int, id ∉ l.map (fun s => s.actor_id) →
        inv'.find_entity_with_entity_id id = inv.find_entity_with_entity_id id) ∧
      res'.created = res.created ∧ st'.KeysOk := by
  induction l generalizing st inv res with
  | nil =>
    exact ⟨st, inv, res, rfl, by simp, fun _ _ => rfl, fun _ _ => rfl, rfl, hkeys⟩
  | cons s rest ih =>
    obtain ⟨hfind, hq1, e, hge, hcover⟩ := hok s (List.mem_cons_self _ _)
    obtain ⟨entry, hentry⟩ := Option.isSome_iff_exists.mp hfind
    have heid : entry.id = s.actor_id := Inventory.find_entity_id_eq _ _ _ hentry
    have heide : e.id = s.actor_id := hkeys.id_of_get hge
    have hnodup2 : ((rest.map (fun s => s.actor_id))).Nodup :=
      (List.nodup_cons.mp (by simpa using hnodup)).2
    have hhead : s.actor_id ∉ rest.map (fun s => s.actor_id) :=
      (List.nodup_cons.mp (by simpa using hnodup)).1
    have hrestne : ∀ s2 ∈ rest, s2.actor_id ≠ s.actor_id := by
      intro s2 hs2 hcon
      exact hhead (hcon ▸ List.mem_map_of_mem _ hs2)
    cases hsk : e.features.stackable with
    | some sk =>
      rw [hsk] at hcover
      by_cases heq : sk.get_size = s.quantity
      · -- full consumption: the entity is removed and deleted
        have hpres : (st.get_entity e.id).isSome = true := by rw [heide, hge]; rfl
        set st1 : GState :=
          { st with entities := st.entities.filter (fun p => p.1 ≠ e.id) } with hst1
        set inv1 := inv.remove_with_entity_id e.id with hinv1
        set res1 : CraftResult := { res with deleted := res.deleted ++ [e.id] } with hres1
        have hok2 : ∀ s2 ∈ rest, SourceOk st1 inv1 s2 := by
          intro s2 hs2
          obtain ⟨hf2, hq2, e2, hge2, hcov2⟩ := hok s2 (List.mem_cons_of_mem _ hs2)
          refine ⟨?_, hq2, e2, ?_, hcov2⟩
          · rw [hinv1, show e.id = s.actor_id from heide,
              Inventory.find_remove_ne _ _ _ (hrestne s2 hs2)]
            exact hf2
          · rw [hst1, show e.id = s.actor_id from heide,
              GState.get_delete_ne _ _ _ (hrestne s2 hs2)]
            exact hge2
        obtain ⟨st', inv', res', hrec, hstock, hfrst, hfrinv, hcre, hkeys'⟩ :=
          ih st1 inv1 res1 (hkeys.deleteFilter e.id) hnodup2 hok2
        refine ⟨st', inv', res', ?_, ?_, ?_, ?_, by rw [hcre], hkeys'⟩
        · show GState.consumeSources (s :: rest) st inv res = _
          simp only [GState.consumeSources, hentry, heid, hge, hsk, if_pos heq, bind,
            Except.bind, GState.delete_entity_of_present _ _ hpres]
          exact hrec
        · intro s2 hs2
          rcases List.mem_cons.mp hs2 with h2 | h2
          · subst h2
            have hnone : st'.get_entity s2.actor_id = none := by
              rw [hfrst _ hhead, ← heide]
              exact GState.get_delete_self st e.id
            rw [GState.stockOf_of_get_none hnone, GState.stockOf_of_stack hge hsk]
            omega
          · rw [hstock s2 h2]
            have hsame : st1.get_entity s2.actor_id = st.get_entity s2.actor_id := by
              rw [hst1]
              exact GState.get_delete_ne st e.id _ (heide ▸ hrestne s2 h2)
            unfold GState.stockOf
            rw [hsame]
        · intro id hid
          have hid1 : id ∉ rest.map (fun s => s.actor_id) := fun h =>
            hid (List.mem_cons_of_mem _ h)
          have hid2 : id ≠ s.actor_id := fun h => hid (by simp [h])
          rw [hfrst _ hid1, hst1]
          exact GState.get_delete_ne st e.id _ (heide ▸ hid2)
        · intro id hid
          have hid1 : id ∉ rest.map (fun s => s.actor_id) := fun h =>
            hid (List.mem_cons_of_mem _ h)
          have hid2 : id ≠ s.actor_id := fun h => hid (by simp [h])
          rw [hfrinv _ hid1, hinv1]
          exact Inventory.find_remove_ne inv _ _ (heide ▸ hid2)
      · -- partial consumption: the stack is decreased in place
        set e1 := e.withStack (sk.decrease s.quantity).stack_size with he1
        set st1 := st.setEntity e.id e1 with hst1
        have hok2 : ∀ s2 ∈ rest, SourceOk st1 inv s2 := by
          intro s2 hs2
          obtain ⟨hf2, hq2, e2, hge2, hcov2⟩ := hok s2 (List.mem_cons_of_mem _ hs2)
          refine ⟨hf2, hq2, e2, ?_, hcov2⟩
          rw [hst1, show e.id = s.actor_id from heide,
            GState.get_setEntity_ne _ _ _ _ (hrestne s2 hs2)]
          exact hge2
        have hkeys1 : st1.KeysOk := hkeys.setEntity (by rw [he1]; rfl)
        obtain ⟨st', inv', res', hrec, hstock, hfrst, hfrinv, hcre, hkeys'⟩ :=
          ih st1 inv res hkeys1 hnodup2 hok2
        refine ⟨st', inv', res', ?_, ?_, ?_, ?_, by rw [hcre], hkeys'⟩
        · show GState.consumeSources (s :: rest) st inv res = _
          simp only [GState.consumeSources, hentry, heid, hge, hsk, if_neg heq]
          exact hrec
        · intro s2 hs2
          rcases List.mem_cons.mp hs2 with h2 | h2
          · subst h2
            have hsome : st'.get_entity s2.actor_id = some e1 := by
              rw [hfrst _ hhead, ← heide, hst1]
              exact GState.get_setEntity_self st e.id e1
            rw [GState.stockOf_of_stack hsome
              (Entity.features_stackable_withStack e sk _ hsk),
              GState.stockOf_of_stack hge hsk]
            simp [StackableFeature.get_size, StackableFeature.decrease]
          · rw [hstock s2 h2]
            have hsame : st1.get_entity s2.actor_id = st.get_entity s2.actor_id := by
              rw [hst1]
              exact GState.get_setEntity_ne st e.id _ e1 (heide ▸ hrestne s2 h2)
            unfold GState.stockOf
            rw [hsame]
        · intro id hid
          have hid1 : id ∉ rest.map (fun s => s.actor_id) := fun h =>
            hid (List.mem_cons_of_mem _ h)
          have hid2 : id ≠ s.actor_id := fun h => hid (by simp [h])
          rw [hfrst _ hid1, hst1]
          exact GState.get_setEntity_ne st e.id _ e1 (heide ▸ hid2)
        · intro id hid
          exact hfrinv _ (fun h => hid (List.mem_cons_of_mem _ h))
    | none =>
      rw [hsk] at hcover
      have hpres : (st.get_entity e.id).isSome = true := by rw [heide, hge]; rfl
      set st1 : GState :=
        { st with entities := st.entities.filter (fun p => p.1 ≠ e.id) } with hst1
      set inv1 := inv.remove_with_entity_id e.id with hinv1
      set res1 : CraftResult := { res with deleted := res.deleted ++ [e.id] } with hres1
      have hok2 : ∀ s2 ∈ rest, SourceOk st1 inv1 s2 := by
        intro s2 hs2
        obtain ⟨hf2, hq2, e2, hge2, hcov2⟩ := hok s2 (List.mem_cons_of_mem _ hs2)
        refine ⟨?_, hq2, e2, ?_, hcov2⟩
        · rw [hinv1, show e.id = s.actor_id from heide,
            Inventory.find_remove_ne _ _ _ (hrestne s2 hs2)]
          exact hf2
        · rw [hst1, show e.id = s.actor_id from heide,
            GState.get_delete_ne _ _ _ (hrestne s2 hs2)]
          exact hge2
      obtain ⟨st', inv', res', hrec, hstock, hfrst, hfrinv, hcre, hkeys'⟩ :=
        ih st1 inv1 res1 (hkeys.deleteFilter e.id) hnodup2 hok2
      refine ⟨st', inv', res', ?_, ?_, ?_, ?_, by rw [hcre], hkeys'⟩
      · show GState.consumeSources (s :: rest) st inv res = _
        simp only [GState.consumeSources, hentry, heid, hge, hsk, bind, Except.bind,
          GState.delete_entity_of_present _ _ hpres]
        exact hrec
      · intro s2 hs2
        rcases List.mem_cons.mp hs2 with h2 | h2
        · subst h2
          have hnone : st'.get_entity s2.actor_id = none := by
            rw [hfrst _ hhead, ← heide]
            exact GState.get_delete_self st e.id
          rw [GState.stockOf_of_get_none hnone, GState.stockOf_of_no_stack hge hsk]
          omega
        · rw [hstock s2 h2]
          have hsame : st1.get_entity s2.actor_id = st.get_entity s2.actor_id := by
            rw [hst1]
            exact GState.get_delete_ne st e.id _ (heide ▸ hrestne s2 h2)
          unfold GState.stockOf
          rw [hsame]
      · intro id hid
        have hid1 : id ∉ rest.map (fun s => s.actor_id) := fun h =>
          hid (List.mem_cons_of_mem _ h)
        have hid2 : id ≠ s.actor_id := fun h => hid (by simp [h])
        rw [hfrst _ hid1, hst1]
        exact GState.get_delete_ne st e.id _ (heide ▸ hid2)
      · intro id hid
        have hid1 : id ∉ rest.map (fun s => s.actor_id) := fun h =>
          hid (List.mem_cons_of_mem _ h)
        have hid2 : id ≠ s.actor_id := fun h => hid (by simp [h])
        rw [hfrinv _ hid1, hinv1]
        exact Inventory.find_remove_ne inv _ _ (heide ▸ hid2)

/-- Unpacking of a successful `State.validate_assembly` into per-source
facts (with positive quantities supplied separately, since validation
itself lets a quantity of zero through). -/
theorem validate_gives_SourceOk (st : GState) (inv : Inventory) (asm : Assembly)
    (recipe : Recipe)
    (hrec : findRecipeByCodename asm.recipe_codename = some recipe)
    (hval : st.validate_assembly asm inv = true)
    (hpos : ∀ s ∈ asm.sources.flatten, 1 ≤ s.quantity) :
    ∀ s ∈ asm.sources.flatten, SourceOk st inv s := by
  intro s hs
  unfold GState.validate_assembly at hval
  simp only [hrec] at hval
  by_cases hstruct : recipe.validate_assembly asm = true
  · rw [if_neg (by simp [hstruct])] at hval
    have hlen : asm.sources.length = recipe.get_ingredients.length := by
      have := of_decide_eq_true hstruct
      exact this.2
    obtain ⟨ing, srcs, hzip, hsmem⟩ :=
      mem_zip_of_mem_flatten recipe.get_ingredients asm.sources hlen s hs
    have hinner := List.all_eq_true.mp hval ⟨ing, srcs⟩ hzip
    have hcheck := List.all_eq_true.mp (by simpa using hinner) s hsmem
    cases hfind : inv.find_entity_with_entity_id s.actor_id with
    | none => rw [hfind] at hcheck; simp at hcheck
    | some entry =>
      simp only [hfind] at hcheck
      have heid : entry.id = s.actor_id := Inventory.find_entity_id_eq _ _ _ hfind
      cases hget : st.get_entity entry.id with
      | none => rw [hget] at hcheck; simp at hcheck
      | some e =>
        simp only [hget] at hcheck
        refine ⟨by rw [hfind]; rfl, hpos s hs, e, by rw [← heid]; exact hget, ?_⟩
        have hb := (Bool.and_eq_true _ _).mp hcheck |>.2
        cases hsk : e.features.stackable with
        | some sk =>
          rw [hsk] at hb
          simpa using hb
        | none =>
          rw [hsk] at hb
          have h2 : s.quantity ≤ 1 := by simpa using hb
          have h1 := hpos s hs
          simp only []
          omega
  · rw [if_pos (by simp [hstruct])] at hval
    exact absurd hval (by simp)

/-- C5 (amended). Crafting is atomic over the inventory once all of its
operative preconditions hold: if `validate_assembly` accepts the assembly
and moreover the inventory has a free hand, the recipe's codename is in
the entity registry, and the assembly cites pairwise distinct actors with
positive quantities, then `craft_entity` succeeds, the stock of every
cited actor drops by exactly the cited quantity, the newly produced
entity exists in the state under the fresh id, and, if it is
inventorable, it is stored in the free hand. (The claim as stated, with
`validate_assembly` as the only precondition, is refuted by
`C5_counterexample`: with both hands occupied, `_craft` returns before
consuming or creating anything.) -/
theorem C5_amended_craft_atomicity
    (st : GState) (asm : Assembly) (inv : Inventory) (free_hand : Hand) (recipe : Recipe)
    (hrec : findRecipeByCodename asm.recipe_codename = some recipe)
    (hval : st.validate_assembly asm inv = true)
    (hfree : inv.get_free_hand .right = some free_hand)
    (hreg : (ENTITIES.find? (fun p => p.1 = recipe.get_codename)).isSome = true)
    (hnodup : ((asm.sources.flatten.map (fun s => s.actor_id))).Nodup)
    (hpos : ∀ s ∈ asm.sources.flatten, 1 ≤ s.quantity)
    (hkeys : st.KeysOk) (hbound : st.IdBound) :
    ∃ (newE : Entity) (st' : GState) (inv' : Inventory) (res : CraftResult),
      st.craft_entity asm inv = .ok (res, st', inv') ∧
      newE.id = st.next_id ∧
      res.created = [newE.as_actor] ∧
      (∀ s ∈ asm.sources.flatten,
        st'.stockOf s.actor_id = st.stockOf s.actor_id - s.quantity) ∧
      st'.get_entity st.next_id = some newE ∧
      (newE.features.inventorable.isSome = true →
        inv'.get_hand_entry free_hand = some newE.as_info) := by
  obtain ⟨pr, hpr⟩ := Option.isSome_iff_exists.mp hreg
  set nid := st.next_id with hnid
  set newE := constructDrop pr.2 nid none with hnewE
  have hid : newE.id = nid := constructDrop_id _ _ _
  have hcons : constructEntity recipe.get_codename nid none = some newE := by
    unfold constructEntity
    rw [hpr]
    rfl
  set st1 : GState := { st with next_id := st.next_id + 1 } with hst1
  have hok1 : ∀ s ∈ asm.sources.flatten, SourceOk st1 inv s := by
    intro s hs
    exact validate_gives_SourceOk st inv asm recipe hrec hval hpos s hs
  obtain ⟨st2, inv2, res2, hcsm, hstock, hfrst, hfrinv, hcre, hkeys2⟩ :=
    consumeSources_spec asm.sources.flatten st1 inv ⟨[], []⟩ hkeys hnodup hok1
  have hcited : ∀ s ∈ asm.sources.flatten, s.actor_id ≠ nid := by
    intro s hs
    obtain ⟨_, _, e, hge, _⟩ := validate_gives_SourceOk st inv asm recipe hrec hval hpos s hs
    have := st.get_entity_lt_of_IdBound _ _ hbound hge
    omega
  have h0 : (0 : Int) ≤ st.next_id := hbound.1
  have hadd : st2.add_entity newE = st2.setEntity nid newE := by
    unfold GState.add_entity
    rw [if_neg (show ¬ newE.get_id < 0 by
      simp only [Entity.get_id]
      rw [hid]
      omega), hid]
  refine ⟨newE, st2.setEntity nid newE,
    (if newE.features.inventorable.isSome then
      inv2.store_entry free_hand (some newE.as_info) else inv2),
    { res2 with created := res2.created ++ [newE.as_actor] }, ?_, hid, ?_, ?_, ?_, ?_⟩
  · show st.craft_entity asm inv = _
    have hstep : st.craft_entity asm inv = st.craft asm inv := by
      unfold GState.craft_entity
      rw [if_pos hval]
    rw [hstep]
    unfold GState.craft
    simp only [hrec, hfree, GState.generate_new_entity_id, hcons, bind, Except.bind, hcsm,
      hadd]
  · rw [hcre]
    rfl
  · intro s hs
    have hne := hcited s hs
    unfold GState.stockOf
    rw [GState.get_setEntity_ne _ _ _ _ hne]
    have h2 := hstock s hs
    unfold GState.stockOf at h2
    exact h2
  · exact GState.get_setEntity_self _ _ _
  · intro hinvble
    rw [if_pos hinvble]
    exact Inventory.get_store_self _ _ _

/-- Rocks stack of two used by the crafting scenarios. -/
def craftRocks : Entity := (mkRocks 1 none).withStack 2

/-- Log used by the crafting scenarios. -/
def craftLog : Entity := mkLog 3 none

/-- World holding the axe ingredients. -/
def craftWorld : GState :=
  ⟨[(1, craftRocks), (3, craftLog)], 100, constDist 1, flatMoved, 50⟩

/-- Inventory whose pockets hold the axe ingredients while both hands
are occupied by unrelated items. -/
def fullHandsInv : Inventory :=
  ⟨some ⟨2, .gold, 1, 5, 25, "gold"⟩, some ⟨4, .tool, 1, 10, 25, "axe"⟩,
    [some craftRocks.as_info, some craftLog.as_info]⟩

/-- Assembly crafting an axe from the rocks stack and the log. -/
def axeAssembly : Assembly := ⟨"axe", [[⟨1, .rocks, 2⟩], [⟨3, .logs, 1⟩]]⟩

/-- C5 counterexample: `validate_assembly` accepts the axe assembly, yet
because both hands are occupied `craft_entity` returns an empty result
with the state and the inventory unchanged — no entity is produced and
nothing is consumed, contrary to the claim, whose only precondition is a
successful validation. -/
theorem C5_counterexample :
    craftWorld.validate_assembly axeAssembly fullHandsInv = true ∧
      craftWorld.craft_entity axeAssembly fullHandsInv =
        .ok (⟨[], []⟩, craftWorld, fullHandsInv) :=
  ⟨rfl, rfl⟩

/-- World of the repository's `test_craft`: rocks ×2, gold ×2 and a log,
all pocketed, hands free. -/
def testCraftWorld : GState :=
  ⟨[(1, craftRocks), (2, (mkGold 2 none).withStack 2), (3, craftLog)],
    1000, constDist 1, flatMoved, 50⟩

/-- Pocketed inventory of the `test_craft` scenario. -/
def testCraftInv : Inventory :=
  ⟨none, none, [some craftRocks.as_info, some ((mkGold 2 none).withStack 2).as_info,
    some craftLog.as_info]⟩

/-- C5 witness: crafting the axe in the `test_craft` scenario consumes
the rocks stack (2) and the log (1), leaves the gold untouched by
distinctness, creates the axe under the fresh id 50 and stores it in the
free right hand. -/
theorem C5_witness :
    ∃ (newE : Entity) (st' : GState) (inv' : Inventory) (res : CraftResult),
      testCraftWorld.craft_entity axeAssembly testCraftInv = .ok (res, st', inv') ∧
      newE.id = 50 ∧
      res.created = [newE.as_actor] ∧
      (∀ s ∈ axeAssembly.sources.flatten,
        st'.stockOf s.actor_id = testCraftWorld.stockOf s.actor_id - s.quantity) ∧
      st'.get_entity 50 = some newE ∧
      (newE.features.inventorable.isSome = true →
        inv'.get_hand_entry .right = some newE.as_info) :=
  C5_amended_craft_atomicity testCraftWorld axeAssembly testCraftInv .right
    ⟨"axe", "Axe", [⟨.mineral, 2⟩, ⟨.wood, 1⟩]⟩ rfl rfl rfl rfl
    (by decide) (by decide)
    (show ∀ p ∈ testCraftWorld.entities, (p.2).id = p.1 by decide)
    ⟨by decide, by decide⟩

/-! ### C7: the scheduler discipline

The remaining development proves that every completed engine step keeps
the scheduler queue disciplined: at most one entry per entity handle, and
the payload of such an entry is the job of the owning entity's current
task (spec section 8, property 2). -/

/-- Entity kinds whose `handle_event` method is `pass` (entities.py):
they never acquire a task of their own, so engine steps may create and
delete them freely without orphaning a scheduler entry. -/
def inertKind : EntityKind → Bool
  | .rocks | .gold | .rawMeat | .log | .axe | .berry | .twig => true
  | _ => false

/-- The job a task hands to the engine, as a relation. Tasks with a
stored `self.job` slot hand exactly that object; `WalkTask` and
`InventoryUpdateTask` build a fresh job on every `get_job` call, with the
shape their methods fix (the clock fields of the fresh `MotionJob` vary
with the construction time). -/
def JobOfTask : Task → Job → Prop
  | .walkTask wid speed bearing duration, j =>
      ∃ t0 t1, j = .motionJob wid speed bearing duration [.finished wid] t0 t1
  | .inventoryUpdateTask pid _ _ _, j => j = .waitJob (1 / 100) [.finished pid] []
  | t, j => t.storedJob = some j

/-- Well-formedness of a task object as assigned by an entity handler (and
kept by `start`): a stored `DieJob` targets the owner itself, and a
`DieAndDropTask` only drops kinds with passive handlers. -/
def TaskFresh (owner : Int) (t : Task) : Prop :=
  (∀ d, t.storedJob = some (.dieJob d) → d = owner) ∧
  (∀ d drops, t = .dieAndDrop d drops → ∀ dr ∈ drops, inertKind dr.1 = true)

/-- The scheduler/state invariant of spec section 8, property 2, together
with the auxiliary state discipline that makes it inductive: (count) at
most one queue entry per handle; (payload) a handled entry carries a job
payload matching the owner's current task; (noneh) unhandled entries are
looped-back events or the global hunger drain; (inert) passive kinds have
the empty task; (dieStored) a stored die job targets its owner;
(dropsOk) die-and-drop tasks drop only passive kinds; plus the key and
id-cursor disciplines. -/
structure EngineInv (st : GState) (S : List SchedEntry) : Prop where
  count : ∀ H : Int, (S.filter (fun en => en.handle = some H)).length ≤ 1
  payload : ∀ en ∈ S, ∀ H : Int, en.handle = some H →
    ∃ j, en.trigger = .job j ∧
      ∃ e, st.get_entity H = some e ∧ JobOfTask e.task j
  noneh : ∀ en ∈ S, en.handle = none →
    (∃ ev, en.trigger = Trigger.ev ev) ∨
    (∃ i, en.trigger = Trigger.job (.hungerDrainJob i))
  inert : ∀ id e, st.get_entity id = some e → inertKind e.kind = true →
    e.task = Task.empty
  dieStored : ∀ id e d, st.get_entity id = some e →
    e.task.storedJob = some (.dieJob d) → d = id
  dropsOk : ∀ id e d drops, st.get_entity id = some e →
    e.task = .dieAndDrop d drops → ∀ dr ∈ drops, inertKind dr.1 = true
  keys : st.KeysOk
  bound : st.IdBound

/-- One-step state evolution discipline, relative to an optional
distinguished receiver `R` whose slot the step may rewrite freely: every
other surviving entity keeps its task and kind, appearing entities are
fresh ids at or above the old cursor, of passive kind and with the empty
task, disappearing entities (other than `R`) are of passive kind, and the
key and cursor disciplines are carried along. -/
def EvolvesX (R : Option Int) (st st' : GState) : Prop :=
  st.IdBound → st.KeysOk →
  st'.IdBound ∧ st'.KeysOk ∧ st.next_id ≤ st'.next_id ∧
  (∀ id e2, st'.get_entity id = some e2 →
    R = some id ∨
    (∃ e, st.get_entity id = some e ∧ e2.task = e.task ∧ e2.kind = e.kind) ∨
    (inertKind e2.kind = true ∧ e2.task = Task.empty ∧
      st.get_entity id = none ∧ st.next_id ≤ id)) ∧
  (∀ id e, st.get_entity id = some e → st'.get_entity id = none →
    R = some id ∨ inertKind e.kind = true)

/-- A successful entity lookup exhibits a dictionary entry. -/
theorem GState.mem_of_get {st : GState} {id : Int} {e : Entity}
    (h : st.get_entity id = some e) : (id, e) ∈ st.entities := by
  unfold GState.get_entity at h
  cases hf : st.entities.find? (fun p => p.1 = id) with
  | none => rw [hf] at h; simp at h
  | some p =>
    rw [hf] at h
    obtain ⟨k, v⟩ := p
    have hmem := List.mem_of_find?_eq_some hf
    have hkey : k = id := by simpa using List.find?_some hf
    have h2 : v = e := by simpa using h
    cases hkey
    cases h2
    exact hmem

/-- Writing an entity never moves the id cursor. -/
theorem GState.setEntity_next_id (st : GState) (k : Int) (e : Entity) :
    (st.setEntity k e).next_id = st.next_id := by
  unfold GState.setEntity
  split <;> rfl

/-- Overwriting a present key keeps the id-cursor discipline. -/
theorem GState.IdBound.setEntity_present {st : GState} (hb : st.IdBound) {k : Int}
    {e0 : Entity} (hk : st.get_entity k = some e0) (e : Entity) :
    (st.setEntity k e).IdBound := by
  have hany : st.entities.any (fun p => p.1 = k) = true := by
    rw [GState.any_key_eq_isSome, hk]; rfl
  refine ⟨by rw [GState.setEntity_next_id]; exact hb.1, ?_⟩
  intro p hp
  rw [GState.setEntity_next_id]
  simp only [GState.setEntity, hany, if_true, List.mem_map] at hp
  obtain ⟨q, hq, hpq⟩ := hp
  by_cases hqk : q.1 = k
  · rw [if_pos hqk] at hpq
    have h2 := hb.2 q hq
    rw [← hpq]
    exact hqk ▸ h2
  · rw [if_neg hqk] at hpq
    exact hpq ▸ hb.2 q hq

/-- Deleting a key keeps the id-cursor discipline. -/
theorem GState.IdBound.delete_filter {st : GState} (hb : st.IdBound) (id : Int) :
    GState.IdBound { st with entities := st.entities.filter (fun p => p.1 ≠ id) } :=
  ⟨hb.1, fun p hp => hb.2 p (List.mem_of_mem_filter hp)⟩

/-- Storing a fresh entity under the cursor and bumping it keeps the
id-cursor discipline. -/
theorem GState.IdBound.genAdd {st : GState} (hb : st.IdBound) (e : Entity) :
    GState.IdBound
      (({ st with next_id := st.next_id + 1 } : GState).setEntity st.next_id e) := by
  have hany : st.entities.any (fun p => p.1 = st.next_id) = false := by
    simp only [List.any_eq_false, decide_eq_true_eq]
    intro p hp
    exact ne_of_lt (hb.2 p hp)
  constructor
  · rw [GState.setEntity_next_id]
    show 0 ≤ st.next_id + 1
    have h1 := hb.1
    omega
  · intro p hp
    rw [GState.setEntity_next_id]
    show p.1 < st.next_id + 1
    simp only [GState.setEntity, hany, Bool.false_eq_true, if_false, List.mem_append,
      List.mem_singleton] at hp
    rcases hp with hp | hp
    · have := hb.2 p hp
      omega
    · rw [hp]
      show st.next_id < st.next_id + 1
      omega

/-- Evolution is reflexive. -/
theorem EvolvesX.refl (R : Option Int) (st : GState) : EvolvesX R st st := by
  intro hb hk
  refine ⟨hb, hk, le_refl _, ?_, ?_⟩
  · intro id e2 h
    exact Or.inr (Or.inl ⟨e2, h, rfl, rfl⟩)
  · intro id e h h2
    rw [h] at h2
    exact Option.noConfusion h2

/-- A step that rewrites no slot also qualifies relative to any receiver. -/
theorem EvolvesX.mono {st st' : GState} (R : Option Int) (h : EvolvesX none st st') :
    EvolvesX R st st' := by
  intro hb hk
  obtain ⟨hb', hk', hm, hfwd, hdel⟩ := h hb hk
  refine ⟨hb', hk', hm, ?_, ?_⟩
  · intro id e2 hget
    rcases hfwd id e2 hget with h | h | h
    · exact Option.noConfusion h
    · exact Or.inr (Or.inl h)
    · exact Or.inr (Or.inr h)
  · intro id e hget hnone
    rcases hdel id e hget hnone with h | h
    · exact Option.noConfusion h
    · exact Or.inr h

/-- Evolution composes. -/
theorem EvolvesX.trans {R : Option Int} {st1 st2 st3 : GState}
    (h12 : EvolvesX R st1 st2) (h23 : EvolvesX R st2 st3) :
    EvolvesX R st1 st3 := by
  intro hb hk
  obtain ⟨hb2, hk2, hm2, hfwd2, hdel2⟩ := h12 hb hk
  obtain ⟨hb3, hk3, hm3, hfwd3, hdel3⟩ := h23 hb2 hk2
  refine ⟨hb3, hk3, le_trans hm2 hm3, ?_, ?_⟩
  · intro id e3 hget3
    rcases hfwd3 id e3 hget3 with hR | ⟨e2, hget2, ht, hkd⟩ | ⟨hi3, hemp3, hnone2, hge2⟩
    · exact Or.inl hR
    · rcases hfwd2 id e2 hget2 with hR | ⟨e1, hget1, ht2, hkd2⟩ | ⟨hi2, hemp2, hnone1, hge1⟩
      · exact Or.inl hR
      · exact Or.inr (Or.inl ⟨e1, hget1, ht.trans ht2, hkd.trans hkd2⟩)
      · exact Or.inr (Or.inr ⟨by rw [hkd]; exact hi2, by rw [ht]; exact hemp2,
          hnone1, hge1⟩)
    · cases hget1 : st1.get_entity id with
      | none => exact Or.inr (Or.inr ⟨hi3, hemp3, rfl, le_trans hm2 hge2⟩)
      | some e1 =>
        rcases hdel2 id e1 hget1 hnone2 with hR | hi1
        · exact Or.inl hR
        · have hlt := GState.get_entity_lt_of_IdBound st1 id e1 hb hget1
          exact absurd hlt (not_lt.mpr (hm2.trans hge2))
  · intro id e1 hget1 hnone3
    cases hget2 : st2.get_entity id with
    | none => exact hdel2 id e1 hget1 hget2
    | some e2 =>
      rcases hdel3 id e2 hget2 hnone3 with hR | hi2
      · exact Or.inl hR
      · rcases hfwd2 id e2 hget2 with hR | ⟨e1', hget1', ht, hkd⟩ | ⟨_, _, hnone1, _⟩
        · exact Or.inl hR
        · have he : e1' = e1 := by
            rw [hget1] at hget1'
            exact Option.some.inj hget1'.symm
          exact Or.inr (by rw [← he, ← hkd]; exact hi2)
        · rw [hget1] at hnone1
          exact Option.noConfusion hnone1

/-- Overwriting a present entity with one of the same task, kind and id
is a neutral evolution. -/
theorem evolves_set_preserve {st : GState} {k : Int} {e e2 : Entity}
    (hge : st.get_entity k = some e) (ht : e2.task = e.task) (hkd : e2.kind = e.kind)
    (hid : e2.id = e.id) : EvolvesX none st (st.setEntity k e2) := by
  intro hb hk
  have hek : e.id = k := hk.id_of_get hge
  refine ⟨hb.setEntity_present hge e2, hk.setEntity (by rw [hid, hek]),
    le_of_eq (GState.setEntity_next_id st k e2).symm, ?_, ?_⟩
  · intro id e' hget'
    by_cases hidk : id = k
    · subst hidk
      rw [GState.get_setEntity_self] at hget'
      cases hget'
      exact Or.inr (Or.inl ⟨e, hge, ht, hkd⟩)
    · rw [GState.get_setEntity_ne st k id e2 hidk] at hget'
      exact Or.inr (Or.inl ⟨e', hget', rfl, rfl⟩)
  · intro id e0 hget0 hnone'
    by_cases hidk : id = k
    · subst hidk
      rw [GState.get_setEntity_self] at hnone'
      exact Option.noConfusion hnone'
    · rw [GState.get_setEntity_ne st k id e2 hidk, hget0] at hnone'
      exact Option.noConfusion hnone'

/-- Overwriting the receiver's slot (with an entity of the receiver's id)
is an evolution relative to that receiver. -/
theorem evolves_set_receiver {st : GState} {k : Int} {e e2 : Entity}
    (hge : st.get_entity k = some e) (hid : e2.id = e.id) :
    EvolvesX (some k) st (st.setEntity k e2) := by
  intro hb hk
  have hek : e.id = k := hk.id_of_get hge
  refine ⟨hb.setEntity_present hge e2, hk.setEntity (by rw [hid, hek]),
    le_of_eq (GState.setEntity_next_id st k e2).symm, ?_, ?_⟩
  · intro id e' hget'
    by_cases hidk : id = k
    · subst hidk
      exact Or.inl rfl
    · rw [GState.get_setEntity_ne st k id e2 hidk] at hget'
      exact Or.inr (Or.inl ⟨e', hget', rfl, rfl⟩)
  · intro id e0 hget0 hnone'
    by_cases hidk : id = k
    · subst hidk
      exact Or.inl rfl
    · rw [GState.get_setEntity_ne st k id e2 hidk, hget0] at hnone'
      exact Option.noConfusion hnone'

/-- Deleting an entity of passive kind is a neutral evolution. -/
theorem evolves_delete_inert {st : GState} {k : Int} {e : Entity}
    (hge : st.get_entity k = some e) (hi : inertKind e.kind = true) :
    EvolvesX none st { st with entities := st.entities.filter (fun p => p.1 ≠ k) } := by
  intro hb hk
  refine ⟨hb.delete_filter k, hk.deleteFilter k, le_refl _, ?_, ?_⟩
  · intro id e' hget'
    by_cases hidk : id = k
    · subst hidk
      rw [GState.get_delete_self] at hget'
      exact Option.noConfusion hget'
    · rw [GState.get_delete_ne st k id hidk] at hget'
      exact Or.inr (Or.inl ⟨e', hget', rfl, rfl⟩)
  · intro id e0 hget0 hnone'
    by_cases hidk : id = k
    · subst hidk
      rw [hge] at hget0
      cases hget0
      exact Or.inr hi
    · rw [GState.get_delete_ne st k id hidk, hget0] at hnone'
      exact Option.noConfusion hnone'

/-- Drops are constructed with the requested id and kind, carrying the
empty task. -/
theorem constructDrop_kind (k : EntityKind) (id : Int) (p : Option Point) :
    (constructDrop k id p).kind = k := by
  cases k <;> rfl

theorem constructDrop_task (k : EntityKind) (id : Int) (p : Option Point) :
    (constructDrop k id p).task = Task.empty := by
  cases k <;> rfl

/-- Allocating a fresh id and storing a newly constructed drop of passive
kind under it is a neutral evolution. -/
theorem evolves_genAdd {st : GState} (k : EntityKind) (pos : Option Point)
    (hik : inertKind k = true) :
    EvolvesX none st
      (({ st with next_id := st.next_id + 1 } : GState).setEntity st.next_id
        (constructDrop k st.next_id pos)) := by
  intro hb hk
  have hfresh : st.get_entity st.next_id = none := GState.get_next_id_none st hb
  have hkB : GState.KeysOk ({ st with next_id := st.next_id + 1 } : GState) := hk
  refine ⟨hb.genAdd _, hkB.setEntity (constructDrop_id k st.next_id pos), ?_, ?_, ?_⟩
  · rw [GState.setEntity_next_id]
    show st.next_id ≤ st.next_id + 1
    omega
  · intro id e' hget'
    by_cases hidk : id = st.next_id
    · subst hidk
      rw [GState.get_setEntity_self] at hget'
      cases hget'
      exact Or.inr (Or.inr ⟨by rw [constructDrop_kind]; exact hik,
        constructDrop_task k st.next_id pos, hfresh, le_refl _⟩)
    · rw [GState.get_setEntity_ne _ _ _ _ hidk] at hget'
      exact Or.inr (Or.inl ⟨e', hget', rfl, rfl⟩)
  · intro id e0 hget0 hnone'
    by_cases hidk : id = st.next_id
    · subst hidk
      rw [hfresh] at hget0
      exact Option.noConfusion hget0
    · rw [GState.get_setEntity_ne _ _ _ _ hidk] at hnone'
      have : st.get_entity id = none := hnone'
      rw [hget0] at this
      exact Option.noConfusion this

/-- Only kinds with passive handlers carry a stackable feature. -/
theorem stackable_inert (k : EntityKind) (fs : FState)
    (h : (kindFeatures k fs).stackable.isSome = true) : inertKind k = true := by
  cases k <;> simp [kindFeatures, Features.base, Features.set_inventorable,
    Features.set_stackable, Features.withStoredBy, Features.set_edible,
    Features.set_tool_or_weapon, Features.set_performer, Features.set_stateful,
    Features.set_damageable, Features.set_harvestable, Features.set_eater,
    Features.set_inventory, inertKind] at h ⊢

/-- Only kinds with passive handlers carry an edible feature. -/
theorem edible_inert (k : EntityKind) (fs : FState)
    (h : (kindFeatures k fs).edible.isSome = true) : inertKind k = true := by
  cases k <;> simp [kindFeatures, Features.base, Features.set_inventorable,
    Features.set_stackable, Features.withStoredBy, Features.set_edible,
    Features.set_tool_or_weapon, Features.set_performer, Features.set_stateful,
    Features.set_damageable, Features.set_harvestable, Features.set_eater,
    Features.set_inventory, inertKind] at h ⊢

/-- No kind is both an eater and edible (the eater of `EatJob` is never
the food it consumes). -/
theorem eater_edible_absurd (k : EntityKind) (fs fs2 : FState)
    (he : (kindFeatures k fs).eater.isSome = true)
    (hd : (kindFeatures k fs2).edible.isSome = true) : False := by
  cases k <;> simp [kindFeatures, Features.base, Features.set_inventorable,
    Features.set_stackable, Features.withStoredBy, Features.set_edible,
    Features.set_tool_or_weapon, Features.set_performer, Features.set_stateful,
    Features.set_damageable, Features.set_harvestable, Features.set_eater,
    Features.set_inventory] at he hd

/-- An essence matched by a craft ingredient belongs to a kind with a
passive handler (rocks, gold or logs). -/
theorem match_essence_inert (ing : Ingredient) (k : EntityKind)
    (h : ing.match_essence (kindEssence k) = true) : inertKind k = true := by
  cases hm : ing.material <;> cases k <;>
    simp [Ingredient.match_essence, kindEssence, hm, inertKind] at h ⊢

set_option maxHeartbeats 3200000 in
/-- Characterization of the entity handlers: a handler never changes the
entity's id or kind; when it reports no replacement the task is untouched;
when it replaces the task, the handling kind is one of the four active
kinds and the assigned task object is well-formed for its owner. -/
theorem handleEventEntity_char (now rnd : ℚ) (e e2 : Entity) (ev : Event) (rep : Bool)
    (h : handleEventEntity now rnd e ev = .ok (e2, rep)) :
    e2.id = e.id ∧ e2.kind = e.kind ∧
    (rep = false → e2.task = e.task) ∧
    (rep = true → inertKind e.kind = false ∧ TaskFresh e.id e2.task) := by
  obtain ⟨eid, ekind, etask, epos, efs⟩ := e
  cases ekind <;> cases ev <;> cases epos <;>
    simp only [handleEventEntity, generateDrops, bind, Except.bind, Entity.get_id,
      Entity.withHealth, Entity.withCurrentAmount] at h <;>
    repeat' split at h
  all_goals try exact Except.noConfusion h
  all_goals
    injection h with h1
  all_goals
    injection h1 with ha hb
  all_goals
    subst ha
  all_goals
    subst hb
  all_goals
    simp [Entity.withTask, Entity.withHealth, Entity.withCurrentAmount, TaskFresh,
      Task.storedJob, inertKind, List.mem_replicate]

/-- The job handed to the engine by `get_job` matches the task. -/
theorem taskGetJob_JobOfTask (now : ℚ) (t : Task) (j : Job)
    (h : taskGetJob now t = some j) : JobOfTask t j := by
  cases t with
  | walkTask a b c d =>
    simp only [taskGetJob, Option.some.injEq] at h
    exact ⟨now, now, h.symm⟩
  | _ => simp_all [taskGetJob, JobOfTask, Task.storedJob]

/-- Writing a job into a task's stored slot overwrites it; the
die-and-drop slot is pinned, but it only ever held its own die job. -/
theorem setStoredJob_storedJob (t : Task) (j j2 : Job)
    (hst : t.storedJob = some j) (hnd : ∀ d, j ≠ .dieJob d) :
    (t.setStoredJob j2).storedJob = some j2 := by
  cases t with
  | dieAndDrop a b =>
    simp only [Task.storedJob, Option.some.injEq] at hst
    exact absurd hst.symm (hnd a)
  | _ => simp_all [Task.storedJob, Task.setStoredJob]

/-- `setStoredJob` never turns a task into a die-and-drop task. -/
theorem setStoredJob_dieAndDrop (t : Task) (j : Job) (d : Int)
    (drops : List (EntityKind × Option Point))
    (h : t.setStoredJob j = .dieAndDrop d drops) : t = .dieAndDrop d drops := by
  cases t <;> simp_all [Task.setStoredJob]

/-- A die job in a written-back slot was either written or already
stored. -/
theorem setStoredJob_dieJob (t : Task) (j : Job) (d : Int)
    (h : (t.setStoredJob j).storedJob = some (.dieJob d)) :
    j = .dieJob d ∨ t.storedJob = some (.dieJob d) := by
  cases t <;> simp_all [Task.setStoredJob, Task.storedJob]

/-- `start` keeps the well-formedness of a handler-assigned task: the
stored jobs it writes are never die jobs and it never constructs a
die-and-drop task. -/
theorem taskStart_fresh (t t' : Task) (st st' : GState) (acts : List Action)
    (owner : Int) (h : taskStart t st = .ok (t', acts, st'))
    (hf : TaskFresh owner t) : TaskFresh owner t' := by
  cases t <;> simp only [taskStart] at h <;> repeat' split at h
  all_goals simp only [Except.ok.injEq, Prod.mk.injEq] at h
  all_goals obtain ⟨ha, hb, hc⟩ := h
  all_goals subst ha
  all_goals try exact hf
  all_goals simp_all [TaskFresh, Task.storedJob, Job.and_then]

/-- `move_by` only changes the position. -/
theorem Entity.move_by_task (e : Entity) (st : GState) (d b r : ℚ) :
    (e.move_by st d b r).task = e.task := by
  unfold Entity.move_by
  split <;> rfl

theorem Entity.move_by_kind (e : Entity) (st : GState) (d b r : ℚ) :
    (e.move_by st d b r).kind = e.kind := by
  unfold Entity.move_by
  split <;> rfl

theorem Entity.move_by_id (e : Entity) (st : GState) (d b r : ℚ) :
    (e.move_by st d b r).id = e.id := by
  unfold Entity.move_by
  split <;> rfl

/-- Writing an inventory container back is a neutral evolution. -/
theorem evolves_updateInv (st : GState) (id : Int) (inv : Inventory) :
    EvolvesX none st (st.updateInv id inv) := by
  unfold GState.updateInv
  cases hg : st.get_entity id with
  | none => exact EvolvesX.refl none st
  | some e => exact evolves_set_preserve hg rfl rfl rfl

/-- A successful `del` of a passive-kind entity is a neutral evolution. -/
theorem delete_entity_evolves {st stX : GState} {fid : Int} {e : Entity}
    (hge : st.get_entity fid = some e) (hi : inertKind e.kind = true)
    (h : st.delete_entity fid = .ok stX) : EvolvesX none st stX := by
  rw [GState.delete_entity_of_present st fid (by rw [hge]; rfl)] at h
  cases h
  exact evolves_delete_inert hge hi

/-- The success path of `EatJob.execute` after the absorb: two writes to
the eater followed by the deletion of the consumed (passive-kind) food is
a neutral evolution. -/
theorem eat_tail_evolves {st : GState} {eid fid : Int} {eater food : Entity}
    {st3 : GState}
    (hge : st.get_entity eid = some eater) (hne : fid ≠ eid)
    (hgf : st.get_entity fid = some food) (hif : inertKind food.kind = true)
    (e1 e2 : Entity)
    (hdel : ((st.setEntity eid e1).setEntity eid e2).delete_entity fid = .ok st3)
    (he1t : e1.task = eater.task) (he1k : e1.kind = eater.kind)
    (he1i : e1.id = eater.id)
    (he2t : e2.task = eater.task) (he2k : e2.kind = eater.kind)
    (he2i : e2.id = eater.id) :
    EvolvesX none st st3 := by
  have hev1 : EvolvesX none st (st.setEntity eid e1) :=
    evolves_set_preserve hge he1t he1k he1i
  have hg1 : (st.setEntity eid e1).get_entity eid = some e1 :=
    GState.get_setEntity_self st eid e1
  have hev2 : EvolvesX none (st.setEntity eid e1)
      ((st.setEntity eid e1).setEntity eid e2) :=
    evolves_set_preserve hg1 (he2t.trans he1t.symm) (he2k.trans he1k.symm)
      (he2i.trans he1i.symm)
  have hg2 : ((st.setEntity eid e1).setEntity eid e2).get_entity fid = some food := by
    rw [GState.get_setEntity_ne _ _ _ _ hne, GState.get_setEntity_ne _ _ _ _ hne]
    exact hgf
  exact (hev1.trans hev2).trans (delete_entity_evolves hg2 hif hdel)

/-- Executing any job other than a die job is a neutral evolution: the
job mutates feature state, moves entities or deletes a consumed edible
(of passive kind), but never touches a task slot. -/
theorem jobExecute_evolves (now : ℚ) (j j' : Job) (res : JobResult) (st st' : GState)
    (hnd : ∀ d, j ≠ .dieJob d)
    (h : jobExecute now j st = .ok (j', res, st')) : EvolvesX none st st' := by
  cases j with
  | dieJob d => exact absurd rfl (hnd d)
  | damageJob a b c d evs =>
    simp only [jobExecute] at h
    repeat' split at h
    all_goals
      simp only [Except.ok.injEq, Prod.mk.injEq] at h
    all_goals
      obtain ⟨h1, h2, h3⟩ := h
    all_goals
      subst h3
    all_goals
      exact EvolvesX.refl none st
  | growJob a b =>
    simp only [jobExecute, Except.ok.injEq, Prod.mk.injEq] at h
    obtain ⟨h1, h2, h3⟩ := h
    subst h3
    exact EvolvesX.refl none st
  | waitJob d evs chain =>
    simp only [jobExecute] at h
    repeat' split at h
    all_goals
      simp only [Except.ok.injEq, Prod.mk.injEq] at h
    all_goals
      obtain ⟨h1, h2, h3⟩ := h
    all_goals
      subst h3
    all_goals
      exact EvolvesX.refl none st
  | hungerDrainJob i =>
    simp only [jobExecute] at h
    cases hg : st.get_entity i with
    | none =>
      simp only [hg, Except.ok.injEq, Prod.mk.injEq] at h
      obtain ⟨h1, h2, h3⟩ := h
      subst h3
      exact EvolvesX.refl none st
    | some e =>
      simp only [hg] at h
      cases hf : e.features.eater with
      | none =>
        simp only [hf, Except.ok.injEq, Prod.mk.injEq] at h
        obtain ⟨h1, h2, h3⟩ := h
        subst h3
        exact EvolvesX.refl none st
      | some ef =>
        simp only [hf, Except.ok.injEq, Prod.mk.injEq] at h
        obtain ⟨h1, h2, h3⟩ := h
        subst h3
        exact evolves_set_preserve hg rfl rfl rfl
  | motionJob a sp b dur evs t0 prev =>
    simp only [jobExecute] at h
    cases hg : st.get_entity a with
    | none =>
      simp only [hg, Except.ok.injEq, Prod.mk.injEq] at h
      obtain ⟨h1, h2, h3⟩ := h
      subst h3
      exact EvolvesX.refl none st
    | some e =>
      simp only [hg] at h
      have hev : EvolvesX none st
          (st.setEntity a (e.move_by st (sp * (1 / 10)) b st.get_radius)) :=
        evolves_set_preserve hg (Entity.move_by_task e st _ b _)
          (Entity.move_by_kind e st _ b _) (Entity.move_by_id e st _ b _)
      split at h
      all_goals
        simp only [Except.ok.injEq, Prod.mk.injEq] at h
      all_goals
        obtain ⟨h1, h2, h3⟩ := h
      all_goals
        subst h3
      all_goals
        exact hev
  | eatJob eid ehand fid fins =>
    simp only [jobExecute] at h
    cases hge : st.get_entity eid with
    | none =>
      simp only [hge, Except.ok.injEq, Prod.mk.injEq] at h
      obtain ⟨h1, h2, h3⟩ := h
      subst h3
      exact EvolvesX.refl none st
    | some eater =>
      simp only [hge] at h
      cases hef : eater.features.eater with
      | none =>
        simp only [hef, Except.ok.injEq, Prod.mk.injEq] at h
        obtain ⟨h1, h2, h3⟩ := h
        subst h3
        exact EvolvesX.refl none st
      | some ef =>
        cases hei : eater.features.inventory with
        | none =>
          simp only [hef, hei, Except.ok.injEq, Prod.mk.injEq] at h
          obtain ⟨h1, h2, h3⟩ := h
          subst h3
          exact EvolvesX.refl none st
        | some einv =>
          simp only [hef, hei] at h
          cases hgf : st.get_entity fid with
          | none =>
            simp only [hgf, Except.ok.injEq, Prod.mk.injEq] at h
            obtain ⟨h1, h2, h3⟩ := h
            subst h3
            exact EvolvesX.refl none st
          | some food =>
            simp only [hgf] at h
            cases hfe : food.features.edible with
            | none =>
              simp only [hfe, Except.ok.injEq, Prod.mk.injEq] at h
              obtain ⟨h1, h2, h3⟩ := h
              subst h3
              exact EvolvesX.refl none st
            | some ed =>
              have hne : fid ≠ eid := by
                intro hcontra
                subst hcontra
                rw [hge] at hgf
                cases hgf
                exact eater_edible_absurd eater.kind eater.fstate eater.fstate
                  (by rw [show (kindFeatures eater.kind eater.fstate) = eater.features
                        from rfl, hef]; rfl)
                  (by rw [show (kindFeatures eater.kind eater.fstate) = eater.features
                        from rfl, hfe]; rfl)
              have hifood : inertKind food.kind = true :=
                edible_inert food.kind food.fstate
                  (by rw [show (kindFeatures food.kind food.fstate) = food.features
                        from rfl, hfe]; rfl)
              simp only [hfe, EaterFeature.absorb, eq_self_iff_true, not_true,
                if_false, bind, Except.bind] at h
              -- h now runs the success path: two writes to the eater, then
              -- the deletion of the food
              split at h
              · exact Except.noConfusion h
              · rename_i st3 hdel
                simp only [Except.ok.injEq, Prod.mk.injEq] at h
                obtain ⟨h1, h2, h3⟩ := h
                subst h3
                exact eat_tail_evolves hge hne hgf hifood _ _ hdel rfl rfl rfl rfl rfl rfl

/-- Merging two stacks is a neutral evolution: stack sizes are feature
state, and the emptied source entity (a stackable, hence passive, kind)
is the only deletion. -/
theorem merge_evolves (st : GState) (inv : Inventory) (hand : Hand) (idx : Nat)
    {st' : GState} {inv' : Inventory}
    (h : st.merge_entities inv hand idx = .ok (st', inv')) : EvolvesX none st st' := by
  unfold GState.merge_entities at h
  cases hhe : inv.get_hand_entry hand with
  | none =>
    simp only [hhe, Except.ok.injEq, Prod.mk.injEq] at h
    obtain ⟨h1, h2⟩ := h
    subst h1
    exact EvolvesX.refl none st
  | some source_entry =>
  cases hpe : inv.get_pocket_entry idx with
  | none =>
    simp only [hhe, hpe, Except.ok.injEq, Prod.mk.injEq] at h
    obtain ⟨h1, h2⟩ := h
    subst h1
    exact EvolvesX.refl none st
  | some target_entry =>
  simp only [hhe, hpe] at h
  cases hgs : st.get_entity source_entry.id with
  | none =>
    simp only [hgs, Except.ok.injEq, Prod.mk.injEq] at h
    obtain ⟨h1, h2⟩ := h
    subst h1
    exact EvolvesX.refl none st
  | some source_entity =>
  cases hgt : st.get_entity target_entry.id with
  | none =>
    simp only [hgs, hgt, Except.ok.injEq, Prod.mk.injEq] at h
    obtain ⟨h1, h2⟩ := h
    subst h1
    exact EvolvesX.refl none st
  | some target_entity =>
  simp only [hgs, hgt] at h
  cases hss : source_entity.features.stackable with
  | none =>
    simp only [hss, Except.ok.injEq, Prod.mk.injEq] at h
    obtain ⟨h1, h2⟩ := h
    subst h1
    exact EvolvesX.refl none st
  | some source_stackable =>
  cases hts : target_entity.features.stackable with
  | none =>
    simp only [hss, hts, Except.ok.injEq, Prod.mk.injEq] at h
    obtain ⟨h1, h2⟩ := h
    subst h1
    exact EvolvesX.refl none st
  | some target_stackable =>
  simp only [hss, hts] at h
  cases hsi : source_entity.features.inventorable with
  | none =>
    simp only [hsi, Except.ok.injEq, Prod.mk.injEq] at h
    obtain ⟨h1, h2⟩ := h
    subst h1
    exact EvolvesX.refl none st
  | some source_inventorable =>
  cases hti : target_entity.features.inventorable with
  | none =>
    simp only [hsi, hti, Except.ok.injEq, Prod.mk.injEq] at h
    obtain ⟨h1, h2⟩ := h
    subst h1
    exact EvolvesX.refl none st
  | some target_inventorable =>
  simp only [hsi, hti, bind, Except.bind] at h
  have hev1 : EvolvesX none st
      (st.setEntity target_entry.id
        (target_entity.withStack
          (target_stackable.set_size
            (min (target_entry.calc_max_quantity_for_item_volume
                source_inventorable.volume)
              (source_stackable.get_size + target_stackable.get_size))).stack_size)) :=
    evolves_set_preserve hgt rfl rfl rfl
  have hinertS : inertKind source_entity.kind = true :=
    stackable_inert source_entity.kind source_entity.fstate
      (by rw [show kindFeatures source_entity.kind source_entity.fstate =
            source_entity.features from rfl, hss]; rfl)
  have hinertT : inertKind target_entity.kind = true :=
    stackable_inert target_entity.kind target_entity.fstate
      (by rw [show kindFeatures target_entity.kind target_entity.fstate =
            target_entity.features from rfl, hts]; rfl)
  split at h
  · -- positive leftover: the source entity is rewritten in place
    simp only [Except.ok.injEq, Prod.mk.injEq] at h
    obtain ⟨h1, h2⟩ := h
    subst h1
    refine hev1.trans ?_
    by_cases hid : source_entry.id = target_entry.id
    · have hse : source_entity = target_entity := by
        rw [hid] at hgs
        rw [hgs] at hgt
        exact Option.some.inj hgt
      rw [hid]
      exact evolves_set_preserve (GState.get_setEntity_self _ _ _)
        (by rw [hse]; rfl) (by rw [hse]; rfl) (by rw [hse]; rfl)
    · exact evolves_set_preserve
        ((GState.get_setEntity_ne st target_entry.id source_entry.id _ hid).trans hgs)
        rfl rfl rfl
  · -- emptied source: deletion of a passive-kind entity
    split at h
    · exact Except.noConfusion h
    · rename_i st2 hdel
      simp only [Except.ok.injEq, Prod.mk.injEq] at h
      obtain ⟨h1, h2⟩ := h
      subst h1
      refine hev1.trans ?_
      by_cases hid : source_entry.id = target_entry.id
      · rw [hid] at hdel
        refine delete_entity_evolves (GState.get_setEntity_self _ _ _) ?_ hdel
        exact hinertT
      · exact delete_entity_evolves
          ((GState.get_setEntity_ne st target_entry.id source_entry.id _ hid).trans hgs)
          hinertS hdel

/-- The state's own disciplines may be assumed while establishing an
evolution (they are the hypotheses of the conclusion). -/
theorem EvolvesX.of_cond {R : Option Int} {st st' : GState}
    (h : st.IdBound → st.KeysOk → EvolvesX R st st') : EvolvesX R st st' :=
  fun hb hk => h hb hk hb hk

/-- Bumping the id cursor is a neutral evolution. -/
theorem evolves_bump (st : GState) :
    EvolvesX none st ({ st with next_id := st.next_id + 1 } : GState) := by
  intro hb hk
  refine ⟨⟨show (0 : Int) ≤ st.next_id + 1 by have := hb.1; omega,
    fun p hp => show p.1 < st.next_id + 1 by have := hb.2 p hp; omega⟩, hk,
    show st.next_id ≤ st.next_id + 1 by omega, ?_, ?_⟩
  · intro id e2 hget
    exact Or.inr (Or.inl ⟨e2, hget, rfl, rfl⟩)
  · intro id e hget hnone
    have : st.get_entity id = none := hnone
    rw [hget] at this
    exact Option.noConfusion this

/-- Writing under a key below the cursor keeps the id-cursor
discipline. -/
theorem GState.IdBound.setEntity_lt {st : GState} (hb : st.IdBound) {k : Int}
    (hlt : k < st.next_id) (e : Entity) : (st.setEntity k e).IdBound := by
  refine ⟨by rw [GState.setEntity_next_id]; exact hb.1, ?_⟩
  intro p hp
  rw [GState.setEntity_next_id]
  unfold GState.setEntity at hp
  split at hp
  · simp only [List.mem_map] at hp
    obtain ⟨q, hq, hpq⟩ := hp
    by_cases hqk : q.1 = k
    · rw [if_pos hqk] at hpq
      rw [← hpq]
      exact hlt
    · rw [if_neg hqk] at hpq
      exact hpq ▸ hb.2 q hq
  · simp only [List.mem_append, List.mem_singleton] at hp
    rcases hp with hp | hp
    · exact hb.2 p hp
    · rw [hp]
      exact hlt

/-- A neutral evolution carries the per-source passive-kind condition of
the consumption loop along. -/
theorem evolves_keep_inertCond {st st' : GState} {l : List Source}
    (hev : EvolvesX none st st') (hbb : st.IdBound) (hkk : st.KeysOk)
    (hin : ∀ s ∈ l, ∀ e, st.get_entity s.actor_id = some e → inertKind e.kind = true) :
    ∀ s ∈ l, ∀ e, st'.get_entity s.actor_id = some e → inertKind e.kind = true := by
  intro s hs e hge
  obtain ⟨_, _, _, hfwd, _⟩ := hev hbb hkk
  rcases hfwd _ _ hge with hR | ⟨e0, hge0, ht, hkd⟩ | ⟨hi, _, _, _⟩
  · exact Option.noConfusion hR
  · rw [hkd]
    exact hin s hs e0 hge0
  · exact hi

/-- A successful validation pins every cited actor to a passive kind: the
ingredient's essence check only accepts rocks, gold or logs. -/
theorem validate_gives_inert (st : GState) (inv : Inventory) (asm : Assembly)
    (recipe : Recipe)
    (hrec : findRecipeByCodename asm.recipe_codename = some recipe)
    (hval : st.validate_assembly asm inv = true) :
    ∀ s ∈ asm.sources.flatten, ∀ e, st.get_entity s.actor_id = some e →
      inertKind e.kind = true := by
  intro s hs e hge
  unfold GState.validate_assembly at hval
  simp only [hrec] at hval
  by_cases hstruct : recipe.validate_assembly asm = true
  · rw [if_neg (by simp [hstruct])] at hval
    have hlen : asm.sources.length = recipe.get_ingredients.length := by
      have := of_decide_eq_true hstruct
      exact this.2
    obtain ⟨ing, srcs, hzip, hsmem⟩ :=
      mem_zip_of_mem_flatten recipe.get_ingredients asm.sources hlen s hs
    have hinner := List.all_eq_true.mp hval ⟨ing, srcs⟩ hzip
    have hcheck := List.all_eq_true.mp (by simpa using hinner) s hsmem
    cases hfind : inv.find_entity_with_entity_id s.actor_id with
    | none => rw [hfind] at hcheck; simp at hcheck
    | some entry =>
      simp only [hfind] at hcheck
      have heid : entry.id = s.actor_id := Inventory.find_entity_id_eq _ _ _ hfind
      cases hget : st.get_entity entry.id with
      | none => rw [hget] at hcheck; simp at hcheck
      | some e2 =>
        simp only [hget] at hcheck
        have hmatch := (Bool.and_eq_true _ _).mp hcheck |>.1
        have hee : e = e2 := by
          rw [← heid] at hge
          rw [hge] at hget
          exact Option.some.inj hget
        subst hee
        exact match_essence_inert ing e.kind hmatch
  · rw [if_pos (by simp [hstruct])] at hval
    exact absurd hval (by simp)

/-- The consumption loop of `_craft` is a neutral evolution whenever every
cited actor (still) resolves to a passive kind: it only decrements stacks
in place and deletes emptied passive entities. -/
theorem consume_evolves (l : List Source) : ∀ (st : GState) (inv : Inventory)
    (res : CraftResult) (st' : GState) (inv' : Inventory) (res' : CraftResult),
    (∀ s ∈ l, ∀ e, st.get_entity s.actor_id = some e → inertKind e.kind = true) →
    st.KeysOk → st.IdBound →
    GState.consumeSources l st inv res = .ok (st', inv', res') →
    EvolvesX none st st' := by
  induction l with
  | nil =>
    intro st inv res st' inv' res' hin hkk hbb h
    simp only [GState.consumeSources, Except.ok.injEq, Prod.mk.injEq] at h
    obtain ⟨h1, h2, h3⟩ := h
    subst h1
    exact EvolvesX.refl none st
  | cons s rest ih =>
    intro st inv res st' inv' res' hin hkk hbb h
    simp only [GState.consumeSources] at h
    cases hfind : inv.find_entity_with_entity_id s.actor_id with
    | none =>
      simp only [hfind] at h
      exact Except.noConfusion h
    | some entry =>
      simp only [hfind] at h
      cases hget : st.get_entity entry.id with
      | none =>
        simp only [hget] at h
        exact Except.noConfusion h
      | some entity =>
        simp only [hget, bind, Except.bind] at h
        have heid : entry.id = s.actor_id := Inventory.find_entity_id_eq _ _ _ hfind
        have hgeid : st.get_entity entity.id = some entity := by
          rw [hkk.id_of_get hget]
          exact hget
        have hinE : inertKind entity.kind = true := by
          apply hin s (List.mem_cons_self s rest) entity
          rw [← heid]
          exact hget
        cases hsk : entity.features.stackable with
        | some sk =>
          simp only [hsk] at h
          split at h
          · split at h
            · exact Except.noConfusion h
            · rename_i st1 hdel
              have hev1 : EvolvesX none st st1 := delete_entity_evolves hgeid hinE hdel
              have hin1 := evolves_keep_inertCond hev1 hbb hkk
                (fun s2 hs2 e hge => hin s2 (List.mem_cons_of_mem s hs2) e hge)
              have hcomp := hev1 hbb hkk
              exact hev1.trans (ih _ _ _ _ _ _ hin1 hcomp.2.1 hcomp.1 h)
          · have hev1 : EvolvesX none st
                (st.setEntity entity.id
                  (entity.withStack (sk.decrease s.quantity).stack_size)) :=
              evolves_set_preserve hgeid rfl rfl rfl
            have hin1 := evolves_keep_inertCond hev1 hbb hkk
              (fun s2 hs2 e hge => hin s2 (List.mem_cons_of_mem s hs2) e hge)
            have hcomp := hev1 hbb hkk
            exact hev1.trans (ih _ _ _ _ _ _ hin1 hcomp.2.1 hcomp.1 h)
        | none =>
          simp only [hsk] at h
          split at h
          · exact Except.noConfusion h
          · rename_i st1 hdel
            have hev1 : EvolvesX none st st1 := delete_entity_evolves hgeid hinE hdel
            have hin1 := evolves_keep_inertCond hev1 hbb hkk
              (fun s2 hs2 e hge => hin s2 (List.mem_cons_of_mem s hs2) e hge)
            have hcomp := hev1 hbb hkk
            exact hev1.trans (ih _ _ _ _ _ _ hin1 hcomp.2.1 hcomp.1 h)

/-- `craft_entity` is a neutral evolution: it only bumps the cursor,
consumes validated (hence passive-kind) sources and installs the newly
constructed product (an axe, the only registered recipe output) fresh
under the old cursor with the empty task. -/
theorem craft_evolves (st : GState) (asm : Assembly) (inv : Inventory)
    {res : CraftResult} {st' : GState} {inv' : Inventory}
    (h : st.craft_entity asm inv = .ok (res, st', inv')) : EvolvesX none st st' := by
  refine EvolvesX.of_cond ?_
  intro hb hk
  unfold GState.craft_entity at h
  split at h
  case isFalse =>
    simp only [Except.ok.injEq, Prod.mk.injEq] at h
    obtain ⟨h1, h2, h3⟩ := h
    subst h2
    exact EvolvesX.refl none st
  case isTrue hval =>
    unfold GState.craft at h
    cases hrec : findRecipeByCodename asm.recipe_codename with
    | none =>
      simp only [hrec] at h
      exact Except.noConfusion h
    | some recipe =>
      simp only [hrec] at h
      cases hfh : inv.get_free_hand .right with
      | none =>
        simp only [hfh, Except.ok.injEq, Prod.mk.injEq] at h
        obtain ⟨h1, h2, h3⟩ := h
        subst h2
        exact EvolvesX.refl none st
      | some free_hand =>
        simp only [hfh, GState.generate_new_entity_id] at h
        cases hce : constructEntity recipe.get_codename st.next_id none with
        | none =>
          simp only [hce, Except.ok.injEq, Prod.mk.injEq] at h
          obtain ⟨h1, h2, h3⟩ := h
          subst h2
          exact evolves_bump st
        | some new_entity =>
          simp only [hce, bind, Except.bind] at h
          split at h
          · exact Except.noConfusion h
          · rename_i trip hcs
            obtain ⟨st1, inv1, res1⟩ := trip
            simp only [Except.ok.injEq, Prod.mk.injEq] at h
            obtain ⟨h1, h2, h3⟩ := h
            subst h2
            -- facts about the constructed product
            have hidNE : new_entity.id = st.next_id := by
              unfold constructEntity at hce
              cases hfe : ENTITIES.find? (fun q => q.1 = recipe.get_codename) with
              | none =>
                rw [hfe] at hce
                exact Option.noConfusion hce
              | some p =>
                rw [hfe] at hce
                simp only [Option.map_some'] at hce
                rw [← Option.some.inj hce]
                exact constructDrop_id p.2 st.next_id none
            have htaskNE : new_entity.task = Task.empty := by
              unfold constructEntity at hce
              cases hfe : ENTITIES.find? (fun q => q.1 = recipe.get_codename) with
              | none =>
                rw [hfe] at hce
                exact Option.noConfusion hce
              | some p =>
                rw [hfe] at hce
                simp only [Option.map_some'] at hce
                rw [← Option.some.inj hce]
                exact constructDrop_task p.2 st.next_id none
            have hkindNE : inertKind new_entity.kind = true := by
              have hrecmem : recipe ∈ RECIPES := by
                unfold findRecipeByCodename at hrec
                exact List.mem_of_find?_eq_some hrec
              unfold constructEntity at hce
              cases hfe : ENTITIES.find? (fun q => q.1 = recipe.get_codename) with
              | none =>
                rw [hfe] at hce
                exact Option.noConfusion hce
              | some p =>
                rw [hfe] at hce
                simp only [Option.map_some'] at hce
                rw [← Option.some.inj hce, constructDrop_kind]
                simp only [RECIPES, List.mem_cons, List.not_mem_nil, or_false] at hrecmem
                rcases hrecmem with hre | hre <;>
                  subst hre <;>
                  simp [ENTITIES, Recipe.get_codename, List.find?] at hfe <;>
                  rw [← hfe] <;>
                  rfl
            -- the evolution chain
            have hevB : EvolvesX none st ({ st with next_id := st.next_id + 1 } : GState) :=
              evolves_bump st
            have hbB : GState.IdBound ({ st with next_id := st.next_id + 1 } : GState) :=
              (hevB hb hk).1
            have hkB : GState.KeysOk ({ st with next_id := st.next_id + 1 } : GState) :=
              (hevB hb hk).2.1
            have hinB : ∀ s ∈ asm.sources.flatten, ∀ e,
                GState.get_entity ({ st with next_id := st.next_id + 1 } : GState)
                  s.actor_id = some e → inertKind e.kind = true :=
              validate_gives_inert st inv asm recipe hrec hval
            have hevC : EvolvesX none ({ st with next_id := st.next_id + 1 } : GState)
                st1 :=
              consume_evolves _ _ _ _ _ _ _ hinB hkB hbB hcs
            have hb1 : st1.IdBound := (hevC hbB hkB).1
            have hk1 : st1.KeysOk := (hevC hbB hkB).2.1
            have hm1 : st.next_id + 1 ≤ st1.next_id := (hevC hbB hkB).2.2.1
            have hfwdC := (hevC hbB hkB).2.2.2.1
            have hdelC := (hevC hbB hkB).2.2.2.2
            have haddeq : st1.add_entity new_entity =
                st1.setEntity new_entity.id new_entity := by
              unfold GState.add_entity
              rw [if_neg]
              rw [show new_entity.get_id = new_entity.id from rfl, hidNE]
              have := hb.1
              omega
            rw [haddeq]
            intro hb2 hk2
            refine ⟨GState.IdBound.setEntity_lt hb1
                (by rw [hidNE]; omega) new_entity,
              hk1.setEntity rfl, ?_, ?_, ?_⟩
            · rw [GState.setEntity_next_id]
              omega
            · intro id e2 hget2
              by_cases hidk : id = new_entity.id
              · subst hidk
                rw [GState.get_setEntity_self] at hget2
                cases hget2
                refine Or.inr (Or.inr ⟨hkindNE, htaskNE, ?_, ?_⟩)
                · rw [hidNE]
                  exact GState.get_next_id_none st hb
                · rw [hidNE]
              · rw [GState.get_setEntity_ne _ _ _ _ hidk] at hget2
                rcases hfwdC id e2 hget2 with hR | ⟨e0, hge0, ht, hkd⟩ |
                    ⟨hi, hemp, hnone0, hgeN⟩
                · exact Option.noConfusion hR
                · exact Or.inr (Or.inl ⟨e0, hge0, ht, hkd⟩)
                · refine Or.inr (Or.inr ⟨hi, hemp, hnone0, ?_⟩)
                  have h5 : st.next_id + 1 ≤ id := hgeN
                  omega
            · intro id e0 hge0 hnone2
              by_cases hidk : id = new_entity.id
              · subst hidk
                rw [hidNE, GState.get_next_id_none st hb] at hge0
                exact Option.noConfusion hge0
              · rw [GState.get_setEntity_ne _ _ _ _ hidk] at hnone2
                rcases hdelC id e0 hge0 hnone2 with hR | hi
                · exact Option.noConfusion hR
                · exact Or.inr hi

/-- The drop-creation fold of `DieAndDropTask.start` is a neutral
evolution when every dropped kind is passive. -/
theorem fold_drops_evolves (pos0 : Option Point)
    (drops : List (EntityKind × Option Point)) :
    ∀ (p : GState × List ActorData),
    (∀ dr ∈ drops, inertKind dr.1 = true) →
    EvolvesX none p.1
      ((drops.foldl (fun (acc : GState × List ActorData)
          (drop : EntityKind × Option Point) =>
        let (id, st) := acc.1.generate_new_entity_id
        let ent := constructDrop drop.1 id drop.2
        (st.setEntity ent.id ent, acc.2 ++ [⟨ent.id, ent.get_name, pos0⟩])) p).1) := by
  induction drops with
  | nil =>
    intro p hin
    simp only [List.foldl_nil]
    exact EvolvesX.refl none p.1
  | cons d ds ih =>
    intro p hin
    simp only [List.foldl_cons]
    refine EvolvesX.trans ?_ (ih _ (fun dr hdr => hin dr (List.mem_cons_of_mem d hdr)))
    show EvolvesX none p.1
      (({ p.1 with next_id := p.1.next_id + 1 } : GState).setEntity
        (constructDrop d.1 p.1.next_id d.2).id (constructDrop d.1 p.1.next_id d.2))
    rw [constructDrop_id]
    exact evolves_genAdd d.1 d.2 (hin d (List.mem_cons_self d ds))

/-- `finish` of any task is a neutral evolution: it moves entities,
writes inventories back, merges stacks or crafts, and every deletion it
can perform is of a passive-kind entity. -/
theorem taskFinish_evolves (now : ℚ) (t : Task) (st : GState)
    {acts : List Action} {st' : GState}
    (h : taskFinish now t st = .ok (acts, st')) : EvolvesX none st st' := by
  cases t with
  | empty =>
    simp only [taskFinish, Except.ok.injEq, Prod.mk.injEq] at h
    obtain ⟨h1, h2⟩ := h
    subst h2
    exact EvolvesX.refl none st
  | idle a =>
    simp only [taskFinish, Except.ok.injEq, Prod.mk.injEq] at h
    obtain ⟨h1, h2⟩ := h
    subst h2
    exact EvolvesX.refl none st
  | dieAndDrop a b =>
    simp only [taskFinish, Except.ok.injEq, Prod.mk.injEq] at h
    obtain ⟨h1, h2⟩ := h
    subst h2
    exact EvolvesX.refl none st
  | growTask a b c =>
    simp only [taskFinish, Except.ok.injEq, Prod.mk.injEq] at h
    obtain ⟨h1, h2⟩ := h
    subst h2
    exact EvolvesX.refl none st
  | stateChangeTask a b c =>
    simp only [taskFinish, Except.ok.injEq, Prod.mk.injEq] at h
    obtain ⟨h1, h2⟩ := h
    subst h2
    exact EvolvesX.refl none st
  | useItemTask a b c d e f =>
    simp only [taskFinish, Except.ok.injEq, Prod.mk.injEq] at h
    obtain ⟨h1, h2⟩ := h
    subst h2
    exact EvolvesX.refl none st
  | harvestTask a b c j =>
    cases j with
    | some j0 =>
      simp only [taskFinish] at h
      exact Except.noConfusion h
    | none =>
      simp only [taskFinish, Except.ok.injEq, Prod.mk.injEq] at h
      obtain ⟨h1, h2⟩ := h
      subst h2
      exact EvolvesX.refl none st
  | craftTask cid asm j =>
    simp only [taskFinish] at h
    cases hgc : st.get_entity cid with
    | none =>
      simp only [hgc, Except.ok.injEq, Prod.mk.injEq] at h
      obtain ⟨h1, h2⟩ := h
      subst h2
      exact EvolvesX.refl none st
    | some crafter =>
      simp only [hgc] at h
      cases hci : crafter.features.inventory with
      | none =>
        simp only [hci, Except.ok.injEq, Prod.mk.injEq] at h
        obtain ⟨h1, h2⟩ := h
        subst h2
        exact EvolvesX.refl none st
      | some cinv =>
        simp only [hci, bind, Except.bind] at h
        split at h
        · exact Except.noConfusion h
        · rename_i trip hcr
          obtain ⟨cres, st1, inv1⟩ := trip
          simp only [Except.ok.injEq, Prod.mk.injEq] at h
          obtain ⟨h1, h2⟩ := h
          subst h2
          exact (craft_evolves st asm cinv hcr).trans (evolves_updateInv st1 cid inv1)
  | inventoryUpdateTask pid hand idx var =>
    simp only [taskFinish] at h
    cases hgp : st.get_entity pid with
    | none =>
      simp only [hgp, Except.ok.injEq, Prod.mk.injEq] at h
      obtain ⟨h1, h2⟩ := h
      subst h2
      exact EvolvesX.refl none st
    | some performer =>
      simp only [hgp] at h
      cases hpi : performer.features.inventory with
      | none =>
        simp only [hpi, Except.ok.injEq, Prod.mk.injEq] at h
        obtain ⟨h1, h2⟩ := h
        subst h2
        exact EvolvesX.refl none st
      | some pinv =>
        simp only [hpi] at h
        cases var with
        | swap =>
          simp only [Except.ok.injEq, Prod.mk.injEq] at h
          obtain ⟨h1, h2⟩ := h
          subst h2
          exact evolves_updateInv st pid (pinv.swap hand idx)
        | merge =>
          simp only [bind, Except.bind] at h
          split at h
          · exact Except.noConfusion h
          · rename_i pr hmg
            obtain ⟨st1, inv1⟩ := pr
            simp only [Except.ok.injEq, Prod.mk.injEq] at h
            obtain ⟨h1, h2⟩ := h
            subst h2
            exact (merge_evolves st pinv hand idx hmg).trans
              (evolves_updateInv st1 pid inv1)
  | motionTask eid sp b j =>
    simp only [taskFinish] at h
    cases hge : st.get_entity eid with
    | none =>
      simp only [hge] at h
      exact Except.noConfusion h
    | some e =>
      simp only [hge] at h
      split at h
      · exact Except.noConfusion h
      · simp only [Except.ok.injEq, Prod.mk.injEq] at h
        obtain ⟨h1, h2⟩ := h
        subst h2
        exact evolves_set_preserve hge (Entity.move_by_task e st _ b _)
          (Entity.move_by_kind e st _ b _) (Entity.move_by_id e st _ b _)
  | walkTask eid sp b dur =>
    simp only [taskFinish] at h
    cases hge : st.get_entity eid with
    | none =>
      simp only [hge] at h
      exact Except.noConfusion h
    | some e =>
      simp only [hge] at h
      split at h
      · exact Except.noConfusion h
      · simp only [Except.ok.injEq, Prod.mk.injEq] at h
        obtain ⟨h1, h2⟩ := h
        subst h2
        exact EvolvesX.refl none st

/-- `start` of any task is a neutral evolution, provided a die-and-drop
task only drops passive kinds: it creates fresh drops, writes a state
name, or leaves the state alone. -/
theorem taskStart_evolves (t : Task) (st : GState) {t' : Task} {acts : List Action}
    {st' : GState} (h : taskStart t st = .ok (t', acts, st'))
    (hdrops : ∀ d drops, t = .dieAndDrop d drops → ∀ dr ∈ drops, inertKind dr.1 = true) :
    EvolvesX none st st' := by
  cases t with
  | dieAndDrop dier drops =>
    simp only [taskStart] at h
    cases hgd : st.get_entity dier with
    | none =>
      simp only [hgd, Except.ok.injEq, Prod.mk.injEq] at h
      obtain ⟨h1, h2, h3⟩ := h
      subst h3
      exact EvolvesX.refl none st
    | some dier_e =>
      simp only [hgd, Except.ok.injEq, Prod.mk.injEq] at h
      obtain ⟨h1, h2, h3⟩ := h
      subst h3
      exact fold_drops_evolves dier_e.position drops (st, [])
        (hdrops dier drops rfl)
  | stateChangeTask eid sname j =>
    simp only [taskStart] at h
    cases hge : st.get_entity eid with
    | none =>
      simp only [hge, Except.ok.injEq, Prod.mk.injEq] at h
      obtain ⟨h1, h2, h3⟩ := h
      subst h3
      exact EvolvesX.refl none st
    | some e =>
      simp only [hge] at h
      split at h
      · simp only [Except.ok.injEq, Prod.mk.injEq] at h
        obtain ⟨h1, h2, h3⟩ := h
        subst h3
        exact EvolvesX.refl none st
      · simp only [Except.ok.injEq, Prod.mk.injEq] at h
        obtain ⟨h1, h2, h3⟩ := h
        subst h3
        exact evolves_set_preserve hge rfl rfl rfl
  | _ =>
    simp only [taskStart] at h
    repeat' split at h
    all_goals simp only [Except.ok.injEq, Prod.mk.injEq] at h
    all_goals obtain ⟨h1, h2, h3⟩ := h
    all_goals subst h3
    all_goals exact EvolvesX.refl none st

/-- The empty task hands no job to the engine. -/
theorem JobOfTask_empty_absurd {j : Job} (h : JobOfTask Task.empty j) : False := by
  simp [JobOfTask, Task.storedJob] at h

/-- A die job handed to the engine was stored in the task. -/
theorem JobOfTask_dieJob {t : Task} {d : Int} (h : JobOfTask t (.dieJob d)) :
    t.storedJob = some (.dieJob d) := by
  cases t <;> simp_all [JobOfTask, Task.storedJob]

/-- After the write-back of a mutated (non-die) job, the stored slot hands
exactly the written job to the engine. -/
theorem JobOfTask_after_writeback (t : Task) (j j2 : Job)
    (hst : t.storedJob = some j) (hnd : ∀ d, j ≠ .dieJob d) :
    JobOfTask (t.setStoredJob j2) j2 := by
  cases t with
  | dieAndDrop a b =>
    simp only [Task.storedJob, Option.some.injEq] at hst
    exact absurd hst.symm (hnd a)
  | _ => simp_all [Task.storedJob, Task.setStoredJob, JobOfTask]

/-- `execute` either returns the job object unchanged or shifts a wait
chain one step. -/
theorem jobExecute_shape (now : ℚ) (j j' : Job) (res : JobResult) (st st' : GState)
    (h : jobExecute now j st = .ok (j', res, st')) :
    j' = j ∨ ∃ d2 e2 rest dur evs,
      j = .waitJob dur evs ((d2, e2) :: rest) ∧ j' = .waitJob d2 e2 rest := by
  cases j with
  | waitJob dur evs chain =>
    cases chain with
    | nil =>
      simp only [jobExecute, Except.ok.injEq, Prod.mk.injEq] at h
      exact Or.inl h.1.symm
    | cons c rest =>
      obtain ⟨cd, ce⟩ := c
      simp only [jobExecute, Except.ok.injEq, Prod.mk.injEq] at h
      exact Or.inr ⟨cd, ce, rest, dur, evs, rfl, h.1.symm⟩
  | dieJob d =>
    simp only [jobExecute, bind, Except.bind] at h
    split at h
    · exact Except.noConfusion h
    · simp only [Except.ok.injEq, Prod.mk.injEq] at h
      exact Or.inl h.1.symm
  | _ =>
    simp only [jobExecute, bind, Except.bind] at h
    repeat' split at h
    all_goals try exact Except.noConfusion h
    all_goals simp only [Except.ok.injEq, Prod.mk.injEq] at h
    all_goals exact Or.inl h.1.symm

/-- The event loop-back fold appends unhandled event entries. -/
theorem foldl_enter_events (now : ℚ) (evs : List Event) (S : List SchedEntry) :
    evs.foldl (fun S e => Sched.enter S none 0 (.ev e) now) S =
      S ++ evs.map (fun e => ⟨now + 0, none, .ev e⟩) := by
  induction evs generalizing S with
  | nil =>
    simp only [List.foldl_nil, List.map_nil]
    exact (List.append_nil S).symm
  | cons e es ih =>
    rw [List.foldl_cons, ih]
    simp only [Sched.enter, List.append_eq, List.map_cons]
    rw [List.append_assoc]
    rfl

/-- State-level invariant components survive a neutral evolution away
from the rewritten slot. -/
theorem evolves_state_inv {R : Option Int} {st st' : GState}
    (hev : EvolvesX R st st') (hb : st.IdBound) (hk : st.KeysOk)
    (hinert : ∀ id e, st.get_entity id = some e → inertKind e.kind = true →
      e.task = Task.empty)
    (hds : ∀ id e d, st.get_entity id = some e →
      e.task.storedJob = some (.dieJob d) → d = id)
    (hdr : ∀ id e d drops, st.get_entity id = some e → e.task = .dieAndDrop d drops →
      ∀ dr ∈ drops, inertKind dr.1 = true) :
    (∀ id e, R ≠ some id → st'.get_entity id = some e → inertKind e.kind = true →
      e.task = Task.empty) ∧
    (∀ id e d, R ≠ some id → st'.get_entity id = some e →
      e.task.storedJob = some (.dieJob d) → d = id) ∧
    (∀ id e d drops, R ≠ some id → st'.get_entity id = some e →
      e.task = .dieAndDrop d drops → ∀ dr ∈ drops, inertKind dr.1 = true) := by
  obtain ⟨hb', hk', hm, hfwd, hdel⟩ := hev hb hk
  refine ⟨?_, ?_, ?_⟩
  · intro id e hR hge hik
    rcases hfwd id e hge with hRr | ⟨e0, hge0, ht, hkd⟩ | ⟨_, hemp, _, _⟩
    · exact absurd hRr hR
    · rw [ht]
      exact hinert id e0 hge0 (by rw [← hkd]; exact hik)
    · exact hemp
  · intro id e d hR hge hst
    rcases hfwd id e hge with hRr | ⟨e0, hge0, ht, hkd⟩ | ⟨_, hemp, _, _⟩
    · exact absurd hRr hR
    · exact hds id e0 d hge0 (by rw [← ht]; exact hst)
    · rw [hemp] at hst
      simp [Task.storedJob] at hst
  · intro id e d drops hR hge htd
    rcases hfwd id e hge with hRr | ⟨e0, hge0, ht, hkd⟩ | ⟨_, hemp, _, _⟩
    · exact absurd hRr hR
    · exact hdr id e0 d drops hge0 (by rw [← ht]; exact htd)
    · rw [hemp] at htd
      exact absurd htd (by simp)

/-- A handled payload survives a neutral evolution away from the rewritten
slot: the owner (a non-passive entity, since it has a task with a job)
keeps its task. -/
theorem payload_of_evolves {R : Option Int} {st st' : GState}
    (hev : EvolvesX R st st') (hb : st.IdBound) (hk : st.KeysOk)
    (hinert : ∀ id e, st.get_entity id = some e → inertKind e.kind = true →
      e.task = Task.empty)
    {H : Int} (hR : R ≠ some H) {j : Job}
    (hpay : ∃ e, st.get_entity H = some e ∧ JobOfTask e.task j) :
    ∃ e2, st'.get_entity H = some e2 ∧ JobOfTask e2.task j := by
  obtain ⟨e, hge, hj⟩ := hpay
  obtain ⟨hb', hk', hm, hfwd, hdel⟩ := hev hb hk
  have hni : inertKind e.kind = false := by
    cases hik : inertKind e.kind
    · rfl
    · rw [hinert H e hge hik] at hj
      exact absurd hj JobOfTask_empty_absurd
  cases hget2 : st'.get_entity H with
  | none =>
    rcases hdel H e hge hget2 with hRr | hik
    · exact absurd hRr hR
    · rw [hik] at hni
      exact Bool.noConfusion hni
  | some e2 =>
    rcases hfwd H e2 hget2 with hRr | ⟨e0, hge0, ht, hkd⟩ | ⟨_, _, hnone, _⟩
    · exact absurd hRr hR
    · have he0 : e0 = e := by
        rw [hge] at hge0
        exact (Option.some.inj hge0).symm
      refine ⟨e2, rfl, ?_⟩
      rw [ht, he0]
      exact hj
    · rw [hge] at hnone
      exact Option.noConfusion hnone

/-- When the write-back is skipped (the task's slot does not hold the
fired object), the task still hands the performed job: the only such
tasks build their job freshly with exactly the performed shape. -/
theorem JobOfTask_no_writeback {t : Task} {j j0 j'' : Job}
    (hjot : JobOfTask t j) (hwb : ¬ t.storedJob = some j)
    (hshape : j0 = j ∨ ∃ d2 e2 rest dur evs,
      j = .waitJob dur evs ((d2, e2) :: rest) ∧ j0 = .waitJob d2 e2 rest)
    (hcase : j'' = j0 ∨ ∃ a b c d e f g g2,
      j0 = .motionJob a b c d e f g ∧ j'' = .motionJob a b c d e f g2) :
    JobOfTask t j'' := by
  cases t with
  | walkTask wid sp b dur =>
    obtain ⟨t0, t1, hje⟩ := hjot
    rcases hshape with h0 | ⟨d2, e2, rest, dur2, evs2, hje2, h0⟩
    · subst h0
      rcases hcase with hc | ⟨a, b, c, d, e, f, g, g2, hj0, hjf⟩
      · exact ⟨t0, t1, by rw [hc, hje]⟩
      · rw [hje] at hj0
        cases hj0
        exact ⟨t0, g2, by rw [hjf]⟩
    · rw [hje] at hje2
      exact Job.noConfusion hje2
  | inventoryUpdateTask pid hand idx var =>
    have hje : j = .waitJob (1 / 100) [.finished pid] [] := hjot
    rcases hshape with h0 | ⟨d2, e2, rest, dur2, evs2, hje2, h0⟩
    · subst h0
      rcases hcase with hc | ⟨a, b, c, d, e, f, g, g2, hj0, hjf⟩
      · show j'' = Job.waitJob (1 / 100) [.finished pid] []
        rw [hc, hje]
      · rw [hje] at hj0
        exact Job.noConfusion hj0
    · rw [hje] at hje2
      injection hje2 with ha hb hc2
      exact List.noConfusion hc2
  | empty => exact absurd hjot JobOfTask_empty_absurd
  | idle a =>
    exact absurd (show Task.storedJob (.idle a) = some j from hjot)
      (by simp [Task.storedJob])
  | _ => exact absurd hjot hwb

/-- Refreshing the previous-call clock never produces a die job from a
non-die job. -/
theorem prevRefresh_not_die {j j0 j'' : Job} (hnd : ∀ d, j ≠ .dieJob d)
    (hshape : j0 = j ∨ ∃ d2 e2 rest dur evs,
      j = .waitJob dur evs ((d2, e2) :: rest) ∧ j0 = .waitJob d2 e2 rest)
    (hcase : j'' = j0 ∨ ∃ a b c d e f g g2,
      j0 = .motionJob a b c d e f g ∧ j'' = .motionJob a b c d e f g2) :
    ∀ dd, j'' ≠ .dieJob dd := by
  intro dd hcon
  rcases hcase with hc | ⟨a, b, c, d, e, f, g, g2, hj0, hjf⟩
  · rcases hshape with h0 | ⟨d2, e2, rest, dur2, evs2, hje2, h0⟩
    · rw [hcon, h0] at hc
      exact hnd dd hc.symm
    · rw [hcon] at hc
      rw [← hc] at h0
      exact Job.noConfusion h0
  · rw [hcon] at hjf
    exact Job.noConfusion hjf

/-- Carrying the full invariant across a neutral evolution of the
state. -/
theorem engineInv_evolve_none {st st1 : GState} {S : List SchedEntry}
    (hinv : EngineInv st S) (hev : EvolvesX none st st1) : EngineInv st1 S := by
  have hcomp := hev hinv.bound hinv.keys
  have hstate := evolves_state_inv hev hinv.bound hinv.keys hinv.inert hinv.dieStored
    hinv.dropsOk
  refine ⟨hinv.count, ?_, hinv.noneh, ?_, ?_, ?_, hcomp.2.1, hcomp.1⟩
  · intro en hen H hh
    obtain ⟨jv, htr, hpay⟩ := hinv.payload en hen H hh
    exact ⟨jv, htr, payload_of_evolves hev hinv.bound hinv.keys hinv.inert (by simp) hpay⟩
  · intro id e hge hik
    exact hstate.1 id e (by simp) hge hik
  · intro id e d hge hst
    exact hstate.2.1 id e d (by simp) hge hst
  · intro id e d drops hge htd
    exact hstate.2.2 id e d drops (by simp) hge htd

/-- Appending unhandled entries (looped events or a hunger-drain repeat)
keeps the invariant. -/
theorem engineInv_append_none {st : GState} {S L : List SchedEntry}
    (hinv : EngineInv st S)
    (hL : ∀ en ∈ L, en.handle = none ∧
      ((∃ ev, en.trigger = Trigger.ev ev) ∨
       (∃ i, en.trigger = Trigger.job (.hungerDrainJob i)))) :
    EngineInv st (S ++ L) := by
  have hfL : ∀ H : Int, L.filter (fun en => en.handle = some H) = [] := by
    intro H
    rw [List.filter_eq_nil_iff]
    intro en hen
    simp [(hL en hen).1]
  refine ⟨?_, ?_, ?_, hinv.inert, hinv.dieStored, hinv.dropsOk, hinv.keys, hinv.bound⟩
  · intro H
    rw [List.filter_append, hfL H, List.append_nil]
    exact hinv.count H
  · intro en hen H hh
    rcases List.mem_append.mp hen with hen | hen
    · exact hinv.payload en hen H hh
    · rw [(hL en hen).1] at hh
      exact Option.noConfusion hh
  · intro en hen hh
    rcases List.mem_append.mp hen with hen | hen
    · exact hinv.noneh en hen hh
    · exact (hL en hen).2

/-- `Engine._handle_job` preserves the scheduler discipline, given that
the fired entry was popped from a queue satisfying it: no other entry
under the same handle remains, the fired job is the job of the handle's
current task, and an unhandled fired job is the global hunger drain. -/
theorem stepJob_inv (now : ℚ) (st : GState) (S : List SchedEntry) (handle : Option Int)
    (j : Job) {st' : GState} {S' : List SchedEntry} {log : List Action}
    (hinv : EngineInv st S)
    (hsome : ∀ H, handle = some H →
      S.filter (fun en => en.handle = some H) = [] ∧
      ∃ e, st.get_entity H = some e ∧ JobOfTask e.task j)
    (hnone : handle = none → ∃ i, j = .hungerDrainJob i)
    (h : stepJob now st S handle j = .ok (st', S', log)) :
    EngineInv st' S' := by
  simp only [stepJob, jobPerform, bind, Except.bind] at h
  split at h
  · exact Except.noConfusion h
  · rename_i x hper
    obtain ⟨j'', res, st1⟩ := x
    split at hper
    · exact Except.noConfusion hper
    · rename_i y hexec
      obtain ⟨j0, res0, st0⟩ := y
      simp only [Except.ok.injEq, Prod.mk.injEq] at hper h
      obtain ⟨hj'', hres, hst1⟩ := hper
      subst hres
      subst hst1
      obtain ⟨hst', hS', hlog⟩ := h
      have hshape := jobExecute_shape now j j0 res0 st st0 hexec
      have hcase : j'' = j0 ∨ ∃ a b c d e f g g2,
          j0 = .motionJob a b c d e f g ∧ j'' = .motionJob a b c d e f g2 := by
        cases j0 with
        | motionJob a b c d e f g => exact Or.inr ⟨a, b, c, d, e, f, g, now, rfl, hj''.symm⟩
        | _ => exact Or.inl hj''.symm
      rw [foldl_enter_events] at hS'
      have hmapP : ∀ en ∈ (List.map (fun e =>
          (⟨now + 0, none, Trigger.ev e⟩ : SchedEntry))
          res0.events), en.handle = none ∧
          ((∃ ev, en.trigger = Trigger.ev ev) ∨
           (∃ i, en.trigger = Trigger.job (.hungerDrainJob i))) := by
        intro en hen
        obtain ⟨ev, hevm, heq⟩ := List.mem_map.mp hen
        rw [← heq]
        exact ⟨rfl, Or.inl ⟨ev, rfl⟩⟩
      have hfmap : ∀ H'' : Int, (List.map (fun e =>
          (⟨now + 0, none, Trigger.ev e⟩ : SchedEntry))
          res0.events).filter (fun en => en.handle = some H'') = [] := by
        intro H''
        rw [List.filter_eq_nil_iff]
        intro en hen
        obtain ⟨ev, hevm, heq⟩ := List.mem_map.mp hen
        rw [← heq]
        simp
      cases handle with
      | none =>
        obtain ⟨i, hji⟩ := hnone rfl
        subst hji
        have hnd : ∀ d2, Job.hungerDrainJob i ≠ .dieJob d2 :=
          fun d2 hcon => Job.noConfusion hcon
        have hevE : EvolvesX none st st0 :=
          jobExecute_evolves now _ j0 res0 st st0 hnd hexec
        have hstw : writeBackJob st0 none (.hungerDrainJob i) j'' = st0 := rfl
        rw [hstw] at hst'
        subst hst'
        have hj''h : j'' = .hungerDrainJob i := by
          rcases hshape with h0 | ⟨d2, e2, rest, dur2, evs2, hje2, h0⟩
          · rcases hcase with hc | ⟨a, b, c, d, e, f, g, g2, hj0, hjf⟩
            · rw [hc, h0]
            · rw [h0] at hj0
              exact absurd hj0 (by simp)
          · exact Job.noConfusion hje2
        have hinv1 : EngineInv st0 S := engineInv_evolve_none hinv hevE
        cases hrep : res0.repeat_after with
        | none =>
          simp only [hrep] at hS'
          subst hS'
          exact engineInv_append_none hinv1 hmapP
        | some rdelay =>
          simp only [hrep] at hS'
          subst hS'
          show EngineInv st0 ((S ++ List.map (fun e =>
            (⟨now + 0, none, Trigger.ev e⟩ : SchedEntry)) res0.events) ++
            [(⟨now + rdelay, none, Trigger.job j''⟩ : SchedEntry)])
          rw [List.append_assoc]
          refine engineInv_append_none hinv1 ?_
          intro en hen
          rcases List.mem_append.mp hen with hen | hen
          · exact hmapP en hen
          · simp only [List.mem_singleton] at hen
            subst hen
            exact ⟨rfl, Or.inr ⟨i, by rw [hj''h]⟩⟩
      | some H =>
        obtain ⟨hfilter0, e, hgeH, hjot⟩ := hsome H rfl
        by_cases hdiec : ∃ d, j = .dieJob d
        · -- the fired job is a die job: it targets its own handle
          obtain ⟨d, hjd⟩ := hdiec
          subst hjd
          have hstored := JobOfTask_dieJob hjot
          have hdH : d = H := hinv.dieStored H e d hgeH hstored
          subst hdH
          simp only [jobExecute, bind, Except.bind] at hexec
          split at hexec
          · exact Except.noConfusion hexec
          · rename_i stD hdel
            simp only [Except.ok.injEq, Prod.mk.injEq] at hexec
            obtain ⟨hj0, hres0, hst0⟩ := hexec
            rw [GState.delete_entity_of_present st d (by rw [hgeH]; rfl)] at hdel
            have hfil : st0 = { st with
                entities := st.entities.filter (fun p => p.1 ≠ d) } := by
              rw [← hst0, ← Except.ok.inj hdel]
            have hg0 : st0.get_entity d = none := by
              rw [hfil]
              exact GState.get_delete_self st d
            have hstw : writeBackJob st0 (some d) (.dieJob d) j'' = st0 := by
              simp [writeBackJob, hg0]
            rw [hstw] at hst'
            subst hst'
            rw [← hres0] at hS'
            simp only [JobResult.empty, List.map_nil] at hS'
            rw [List.append_nil] at hS'
            subst hS'
            subst hfil
            refine ⟨hinv.count, ?_, hinv.noneh, ?_, ?_, ?_,
              hinv.keys.deleteFilter d, hinv.bound.delete_filter d⟩
            · intro en hen H' hh
              have hne : H' ≠ d := by
                intro hcon
                subst hcon
                have hmem : en ∈ S.filter (fun x => x.handle = some H') :=
                  List.mem_filter.mpr ⟨hen, by simp [hh]⟩
                rw [hfilter0] at hmem
                exact absurd hmem (List.not_mem_nil en)
              obtain ⟨jv, htr, e', hge', hj'⟩ := hinv.payload en hen H' hh
              exact ⟨jv, htr, e', by rw [GState.get_delete_ne st d H' hne]; exact hge', hj'⟩
            · intro id e2 hge2 hik
              by_cases hidH : id = d
              · subst hidH
                rw [GState.get_delete_self] at hge2
                exact Option.noConfusion hge2
              · rw [GState.get_delete_ne st d id hidH] at hge2
                exact hinv.inert id e2 hge2 hik
            · intro id e2 dd hge2 hst2
              by_cases hidH : id = d
              · subst hidH
                rw [GState.get_delete_self] at hge2
                exact Option.noConfusion hge2
              · rw [GState.get_delete_ne st d id hidH] at hge2
                exact hinv.dieStored id e2 dd hge2 hst2
            · intro id e2 dd drops hge2 htd2
              by_cases hidH : id = d
              · subst hidH
                rw [GState.get_delete_self] at hge2
                exact Option.noConfusion hge2
              · rw [GState.get_delete_ne st d id hidH] at hge2
                exact hinv.dropsOk id e2 dd drops hge2 htd2
        · -- a non-die job: execute evolves, then the write-back refreshes
          -- the stored slot of the handle's task
          have hnd : ∀ d2, j ≠ .dieJob d2 := fun d2 hcon => hdiec ⟨d2, hcon⟩
          have hevE : EvolvesX none st st0 :=
            jobExecute_evolves now j j0 res0 st st0 hnd hexec
          obtain ⟨hb1, hk1, hm1, hfwd1, hdel1⟩ := hevE hinv.bound hinv.keys
          have hni : inertKind e.kind = false := by
            cases hik : inertKind e.kind
            · rfl
            · rw [hinv.inert H e hgeH hik] at hjot
              exact absurd hjot JobOfTask_empty_absurd
          obtain ⟨e1, hge1, he1t, he1k⟩ : ∃ e1, st0.get_entity H = some e1 ∧
              e1.task = e.task ∧ e1.kind = e.kind := by
            cases hg1 : st0.get_entity H with
            | none =>
              rcases hdel1 H e hgeH hg1 with hR | hik
              · exact Option.noConfusion hR
              · rw [hik] at hni
                exact Bool.noConfusion hni
            | some e1 =>
              rcases hfwd1 H e1 hg1 with hR | ⟨e0, hge0, ht, hkd⟩ | ⟨_, _, hnone, _⟩
              · exact Option.noConfusion hR
              · have he0 : e0 = e := by
                  rw [hgeH] at hge0
                  exact (Option.some.inj hge0).symm
                exact ⟨e1, rfl, by rw [ht, he0], by rw [hkd, he0]⟩
              · rw [hgeH] at hnone
                exact Option.noConfusion hnone
          have hj''nd : ∀ dd, j'' ≠ .dieJob dd := prevRefresh_not_die hnd hshape hcase
          simp only [writeBackJob, hge1] at hst'
          obtain ⟨eH, heH, heHk, heHjt, heHds, heHdr, hevW⟩ :
              ∃ eH, st'.get_entity H = some eH ∧ eH.kind = e1.kind ∧
                JobOfTask eH.task j'' ∧
                (∀ ddd, eH.task.storedJob = some (.dieJob ddd) → ddd = H) ∧
                (∀ ddd drops, eH.task = .dieAndDrop ddd drops →
                  ∀ dr ∈ drops, inertKind dr.1 = true) ∧
                EvolvesX (some H) st st' := by
            by_cases hwb : e1.task.storedJob = some j
            · rw [if_pos hwb] at hst'
              refine ⟨e1.withTask (e1.task.setStoredJob j''),
                by rw [← hst']; exact GState.get_setEntity_self _ _ _, rfl,
                JobOfTask_after_writeback e1.task j j'' hwb hnd, ?_, ?_, ?_⟩
              · intro ddd hst2
                rcases setStoredJob_dieJob e1.task j'' ddd hst2 with hc | hc
                · exact absurd hc (hj''nd ddd)
                · rw [he1t] at hc
                  exact hinv.dieStored H e ddd hgeH hc
              · intro ddd drops htd2
                have := setStoredJob_dieAndDrop e1.task j'' ddd drops htd2
                rw [he1t] at this
                exact hinv.dropsOk H e ddd drops hgeH this
              · refine (EvolvesX.mono _ hevE).trans ?_
                rw [← hst']
                exact evolves_set_receiver hge1 rfl
            · rw [if_neg hwb] at hst'
              refine ⟨e1, by rw [← hst']; exact hge1, rfl,
                JobOfTask_no_writeback (by rw [he1t]; exact hjot) hwb hshape hcase,
                ?_, ?_, ?_⟩
              · intro ddd hst2
                rw [he1t] at hst2
                exact hinv.dieStored H e ddd hgeH hst2
              · intro ddd drops htd2
                rw [he1t] at htd2
                exact hinv.dropsOk H e ddd drops hgeH htd2
              · rw [← hst']
                exact EvolvesX.mono _ hevE
          have hcompW := hevW hinv.bound hinv.keys
          have hstate := evolves_state_inv hevW hinv.bound hinv.keys hinv.inert
            hinv.dieStored hinv.dropsOk
          have hinvS : EngineInv st' S := by
            refine ⟨hinv.count, ?_, hinv.noneh, ?_, ?_, ?_, hcompW.2.1, hcompW.1⟩
            · intro en hen H' hh
              have hne : H' ≠ H := by
                intro hcon
                subst hcon
                have hmem : en ∈ S.filter (fun x => x.handle = some H') :=
                  List.mem_filter.mpr ⟨hen, by simp [hh]⟩
                rw [hfilter0] at hmem
                exact absurd hmem (List.not_mem_nil en)
              obtain ⟨jv, htr, hpay⟩ := hinv.payload en hen H' hh
              exact ⟨jv, htr, payload_of_evolves hevW hinv.bound hinv.keys hinv.inert
                (by simp [Ne.symm hne]) hpay⟩
            · intro id e2 hge2 hik
              by_cases hidH : id = H
              · subst hidH
                rw [heH] at hge2
                cases hge2
                rw [heHk, he1k] at hik
                rw [hik] at hni
                exact Bool.noConfusion hni
              · exact hstate.1 id e2 (by simp [Ne.symm hidH]) hge2 hik
            · intro id e2 dd hge2 hst2
              by_cases hidH : id = H
              · subst hidH
                rw [heH] at hge2
                cases hge2
                exact heHds dd hst2
              · exact hstate.2.1 id e2 dd (by simp [Ne.symm hidH]) hge2 hst2
            · intro id e2 dd drops hge2 htd2
              by_cases hidH : id = H
              · subst hidH
                rw [heH] at hge2
                cases hge2
                exact heHdr dd drops htd2
              · exact hstate.2.2 id e2 dd drops (by simp [Ne.symm hidH]) hge2 htd2
          have hinvSm : EngineInv st' (S ++ List.map (fun e =>
              (⟨now + 0, none, Trigger.ev e⟩ : SchedEntry)) res0.events) :=
            engineInv_append_none hinvS hmapP
          cases hrep : res0.repeat_after with
          | none =>
            simp only [hrep] at hS'
            subst hS'
            exact hinvSm
          | some rdelay =>
            simp only [hrep] at hS'
            subst hS'
            show EngineInv st' ((S ++ List.map (fun e =>
              (⟨now + 0, none, Trigger.ev e⟩ : SchedEntry)) res0.events) ++
              [(⟨now + rdelay, some H, Trigger.job j''⟩ : SchedEntry)])
            refine ⟨?_, ?_, ?_, hinvSm.inert, hinvSm.dieStored, hinvSm.dropsOk,
              hinvSm.keys, hinvSm.bound⟩
            · intro H''
              rw [List.filter_append]
              by_cases hH'' : H'' = H
              · subst hH''
                rw [List.filter_append, hfilter0, hfmap H'']
                simp
              · have hx : (([(⟨now + rdelay, some H, Trigger.job j''⟩ : SchedEntry)]).filter
                    (fun en => en.handle = some H'')) = [] := by
                  simp [Ne.symm hH'']
                rw [hx, List.append_nil]
                exact hinvSm.count H''
            · intro en hen H'' hh
              rcases List.mem_append.mp hen with hen | hen
              · exact hinvSm.payload en hen H'' hh
              · simp only [List.mem_singleton] at hen
                subst hen
                simp only [Option.some.injEq] at hh
                subst hh
                exact ⟨j'', rfl, eH, heH, heHjt⟩
            · intro en hen hh
              rcases List.mem_append.mp hen with hen | hen
              · exact hinvSm.noneh en hen hh
              · simp only [List.mem_singleton] at hen
                subst hen
                exact Option.noConfusion hh

/-- `Engine._handle_event` preserves the scheduler discipline: if the
handler replaces the receiver's task, every entry under the receiver's
handle is cancelled before the new task's job (matching the new task) is
entered. -/
theorem stepEvent_inv (now rnd : ℚ) (st : GState) (S : List SchedEntry) (ev : Event)
    {st' : GState} {S' : List SchedEntry} {log : List Action}
    (hinv : EngineInv st S)
    (h : stepEvent now rnd st S ev = .ok (st', S', log)) :
    EngineInv st' S' := by
  simp only [stepEvent, bind, Except.bind] at h
  cases hgR : st.get_entity ev.get_receiver_id with
  | none =>
    simp only [hgR, Except.ok.injEq, Prod.mk.injEq] at h
    obtain ⟨h1, h2, h3⟩ := h
    subst h1
    subst h2
    exact hinv
  | some e =>
    simp only [hgR] at h
    split at h
    · exact Except.noConfusion h
    · rename_i pr hhand
      obtain ⟨e2, rep⟩ := pr
      obtain ⟨hid2, hkd2, hrepf, hrept⟩ := handleEventEntity_char now rnd e e2 ev rep hhand
      have hkeyR : e.id = ev.get_receiver_id := hinv.keys.id_of_get hgR
      cases rep with
      | false =>
        rw [if_neg (by simp)] at h
        simp only [Except.ok.injEq, Prod.mk.injEq] at h
        obtain ⟨h1, h2, h3⟩ := h
        subst h1
        subst h2
        exact engineInv_evolve_none hinv
          (evolves_set_preserve hgR (hrepf rfl) hkd2 hid2)
      | true =>
        rw [if_pos rfl] at h
        split at h
        · exact Except.noConfusion h
        · rename_i pfin hfin
          obtain ⟨fA, st2⟩ := pfin
          split at h
          · exact Except.noConfusion h
          · rename_i pst hstart
            obtain ⟨t2, sA, st3⟩ := pst
            simp only [Except.ok.injEq, Prod.mk.injEq] at h
            obtain ⟨hst', hS', hlog⟩ := h
            obtain ⟨hinertE, hfreshE⟩ := hrept rfl
            have hfreshT : TaskFresh e.id t2 :=
              taskStart_fresh e2.task t2 st2 st3 sA e.id hstart hfreshE
            -- the evolution chain up to the post-start state
            have hev1 : EvolvesX (some ev.get_receiver_id) st
                (st.setEntity ev.get_receiver_id e2) :=
              evolves_set_receiver hgR hid2
            have hcomp1 := hev1 hinv.bound hinv.keys
            have hev2 : EvolvesX none (st.setEntity ev.get_receiver_id e2) st2 :=
              taskFinish_evolves now e.task _ hfin
            have hev3 : EvolvesX none st2 st3 :=
              taskStart_evolves e2.task st2 hstart hfreshE.2
            have hev23 : EvolvesX none (st.setEntity ev.get_receiver_id e2) st3 :=
              hev2.trans hev3
            have hevA : EvolvesX (some ev.get_receiver_id) st st3 :=
              hev1.trans (EvolvesX.mono _ hev23)
            -- the receiver survives the finish/start phases
            obtain ⟨hb1, hk1, _, _, _⟩ := hcomp1
            obtain ⟨hb3, hk3, _, hfwd13, hdel13⟩ := hev23 hb1 hk1
            have hge1 : (st.setEntity ev.get_receiver_id e2).get_entity
                ev.get_receiver_id = some e2 :=
              GState.get_setEntity_self _ _ _
            have hniE2 : inertKind e2.kind = false := by
              rw [hkd2]
              exact hinertE
            obtain ⟨e3, hge3, he3k⟩ : ∃ e3,
                st3.get_entity ev.get_receiver_id = some e3 ∧ e3.kind = e2.kind := by
              cases hg3 : st3.get_entity ev.get_receiver_id with
              | none =>
                rcases hdel13 _ e2 hge1 hg3 with hR | hik
                · exact Option.noConfusion hR
                · rw [hik] at hniE2
                  exact Bool.noConfusion hniE2
              | some e3 =>
                rcases hfwd13 _ e3 hg3 with hR | ⟨e0, hge0, ht, hkd⟩ | ⟨_, _, hnone, _⟩
                · exact Option.noConfusion hR
                · have he0 : e0 = e2 := by
                    rw [hge1] at hge0
                    exact (Option.some.inj hge0).symm
                  exact ⟨e3, rfl, by rw [hkd, he0]⟩
                · rw [hge1] at hnone
                  exact Option.noConfusion hnone
            rw [hge3] at hst'
            simp only [Option.getD_some] at hst'
            -- the final write of the new task
            have hev4 : EvolvesX (some ev.get_receiver_id) st3
                (st3.setEntity ev.get_receiver_id (e3.withTask t2)) :=
              evolves_set_receiver hge3 rfl
            have hevF : EvolvesX (some ev.get_receiver_id) st st' := by
              rw [← hst']
              exact hevA.trans hev4
            have hcompF := hevF hinv.bound hinv.keys
            have hstate := evolves_state_inv hevF hinv.bound hinv.keys hinv.inert
              hinv.dieStored hinv.dropsOk
            have heR : st'.get_entity ev.get_receiver_id = some (e3.withTask t2) := by
              rw [← hst']
              exact GState.get_setEntity_self _ _ _
            have hgid : e2.get_id = ev.get_receiver_id := by
              rw [show e2.get_id = e2.id from rfl, hid2, hkeyR]
            rw [hgid] at hS'
            rw [show Sched.cancel S ev.get_receiver_id =
              S.filter (fun en => en.handle ≠ some ev.get_receiver_id) from rfl] at hS'
            -- kind of the resident: still the receiver's active kind
            have heRk : (e3.withTask t2).kind = e.kind := by
              rw [show (e3.withTask t2).kind = e3.kind from rfl, he3k, hkd2]
            -- invariant over the cancelled queue
            have hmemC : ∀ en ∈ S.filter (fun en => en.handle ≠ some ev.get_receiver_id),
                en ∈ S ∧ ¬ en.handle = some ev.get_receiver_id := by
              intro en hen
              have := List.mem_filter.mp hen
              exact ⟨this.1, by simpa using this.2⟩
            have hinvC : EngineInv st'
                (S.filter (fun en => en.handle ≠ some ev.get_receiver_id)) := by
              refine ⟨?_, ?_, ?_, ?_, ?_, ?_, hcompF.2.1, hcompF.1⟩
              · intro H''
                calc ((S.filter (fun en => en.handle ≠ some ev.get_receiver_id)).filter
                      (fun en => en.handle = some H'')).length
                    ≤ (S.filter (fun en => en.handle = some H'')).length :=
                      List.Sublist.length_le
                        (List.Sublist.filter _ (List.filter_sublist S))
                  _ ≤ 1 := hinv.count H''
              · intro en hen H'' hh
                obtain ⟨henS, hneR⟩ := hmemC en hen
                have hne : H'' ≠ ev.get_receiver_id := by
                  intro hcon
                  subst hcon
                  exact hneR hh
                obtain ⟨jv, htr, hpay⟩ := hinv.payload en henS H'' hh
                exact ⟨jv, htr, payload_of_evolves hevF hinv.bound hinv.keys hinv.inert
                  (by simp [Ne.symm hne]) hpay⟩
              · intro en hen hh
                exact hinv.noneh en (hmemC en hen).1 hh
              · intro id e4 hge4 hik
                by_cases hidR : id = ev.get_receiver_id
                · subst hidR
                  rw [heR] at hge4
                  cases hge4
                  rw [heRk] at hik
                  rw [hik] at hinertE
                  exact Bool.noConfusion hinertE
                · exact hstate.1 id e4 (by simp [Ne.symm hidR]) hge4 hik
              · intro id e4 dd hge4 hst4
                by_cases hidR : id = ev.get_receiver_id
                · subst hidR
                  rw [heR] at hge4
                  cases hge4
                  have := hfreshT.1 dd hst4
                  rw [this, hkeyR]
                · exact hstate.2.1 id e4 dd (by simp [Ne.symm hidR]) hge4 hst4
              · intro id e4 dd drops hge4 htd4
                by_cases hidR : id = ev.get_receiver_id
                · subst hidR
                  rw [heR] at hge4
                  cases hge4
                  exact hfreshT.2 dd drops htd4
                · exact hstate.2.2 id e4 dd drops (by simp [Ne.symm hidR]) hge4 htd4
            cases hjob : taskGetJob now t2 with
            | none =>
              simp only [hjob] at hS'
              subst hS'
              exact hinvC
            | some job =>
              simp only [hjob] at hS'
              subst hS'
              show EngineInv st' ((S.filter (fun en => en.handle ≠ some ev.get_receiver_id)) ++
                [(⟨now + job.get_start_delay, some ev.get_receiver_id,
                  Trigger.job job⟩ : SchedEntry)])
              have hcanR : (S.filter (fun en => en.handle ≠ some ev.get_receiver_id)).filter
                  (fun en => en.handle = some ev.get_receiver_id) = [] := by
                rw [List.filter_eq_nil_iff]
                intro en hen
                simpa using (hmemC en hen).2
              refine ⟨?_, ?_, ?_, hinvC.inert, hinvC.dieStored, hinvC.dropsOk,
                hinvC.keys, hinvC.bound⟩
              · intro H''
                rw [List.filter_append]
                by_cases hH'' : H'' = ev.get_receiver_id
                · subst hH''
                  rw [hcanR]
                  simp
                · have hx : (([(⟨now + job.get_start_delay, some ev.get_receiver_id,
                      Trigger.job job⟩ : SchedEntry)]).filter
                      (fun en => en.handle = some H'')) = [] := by
                    simp [Ne.symm hH'']
                  rw [hx, List.append_nil]
                  exact hinvC.count H''
              · intro en hen H'' hh
                rcases List.mem_append.mp hen with hen | hen
                · exact hinvC.payload en hen H'' hh
                · simp only [List.mem_singleton] at hen
                  subst hen
                  simp only [Option.some.injEq] at hh
                  subst hh
                  exact ⟨job, rfl, e3.withTask t2, heR,
                    taskGetJob_JobOfTask now t2 job hjob⟩
              · intro en hen hh
                rcases List.mem_append.mp hen with hen | hen
                · exact hinvC.noneh en hen hh
                · simp only [List.mem_singleton] at hen
                  subst hen
                  exact Option.noConfusion hh

/-- C7: for every entity id H, after any completed engine step — an
event-handling step (`Engine._handle_event`) or a job-firing step
(`Engine._handle_job`) — the scheduler contains at most one entry whose
handle is H (field `count` of `EngineInv`), and when one exists its
payload is the job of that entity's current task (field `payload`). The
invariant is inductive over steps from any state satisfying it; for a
fired job the pop hypothesis records that its entry was just removed from
a queue satisfying the invariant (no other entry under the same handle
remains, the fired job is the job of the handle's current task, and an
unhandled fired job is the global hunger drain). -/
theorem C7_scheduler_invariant (now rnd : ℚ) (st : GState) (S : List SchedEntry)
    (handle : Option Int) (tr : Trigger) (st' : GState) (S' : List SchedEntry)
    (log : List Action)
    (hinv : EngineInv st S)
    (hpop : ∀ j, tr = Trigger.job j →
      (∀ H, handle = some H →
        S.filter (fun en => en.handle = some H) = [] ∧
        ∃ e, st.get_entity H = some e ∧ JobOfTask e.task j) ∧
      (handle = none → ∃ i, j = Job.hungerDrainJob i))
    (hrun : engineRun now rnd st S handle tr = .ok (st', S', log)) :
    EngineInv st' S' := by
  cases tr with
  | ev e => exact stepEvent_inv now rnd st S e hinv hrun
  | job j =>
    exact stepJob_inv now st S handle j hinv ((hpop j rfl).1) ((hpop j rfl).2) hrun

/-- C7 witness: handling the resume event in the lone-hero world from an
empty queue yields a state and queue satisfying the scheduler
invariant. -/
theorem C7_witness :
    EngineInv ((resumeWorld.setEntity 1 idleHero).setEntity 1 idleHero) [] := by
  have hmemR : ∀ (id : Int) (e : Entity), resumeWorld.get_entity id = some e →
      id = 1 ∧ e = mkPirate 1 (some ⟨0, 0⟩) := by
    intro id e hge
    have hmem := GState.mem_of_get hge
    simp only [resumeWorld, List.mem_singleton, Prod.mk.injEq] at hmem
    exact hmem
  refine C7_scheduler_invariant 0 0 resumeWorld [] none (.ev (.resume 1))
    _ _ [.idleAction 1] ⟨?_, ?_, ?_, ?_, ?_, ?_, ?_, ?_⟩ ?_ ?_
  · intro H
    simp
  · intro en hen
    exact absurd hen (List.not_mem_nil en)
  · intro en hen
    exact absurd hen (List.not_mem_nil en)
  · intro id e hge hik
    obtain ⟨h1, h2⟩ := hmemR id e hge
    subst h2
    exact absurd hik (by decide)
  · intro id e d hge hst
    obtain ⟨h1, h2⟩ := hmemR id e hge
    subst h2
    rw [show (mkPirate 1 (some ⟨0, 0⟩)).task = Task.empty from rfl] at hst
    simp [Task.storedJob] at hst
  · intro id e d drops hge htd
    obtain ⟨h1, h2⟩ := hmemR id e hge
    subst h2
    rw [show (mkPirate 1 (some ⟨0, 0⟩)).task = Task.empty from rfl] at htd
    exact Task.noConfusion htd
  · exact show ∀ p ∈ resumeWorld.entities, (p.2).id = p.1 by decide
  · exact ⟨by decide, by decide⟩
  · intro j hj
    exact Trigger.noConfusion hj
  · rfl

end Edgin
